import Mathlib

/-!
# Minipool information service (`rocketpool/services/rocketpool/minipool/info.go`)

A shallow embedding of `GetDetails`, `GetStatus`, `GetActiveMinipoolsByValidatorPubkey`
and `getStatusType`.

* Remote reads are total functions returning a value or an error message.
* Every goroutine is a task that first runs its blocking remote call and then performs one
  send on an unbuffered channel; the collecting goroutine receives through `select`.
* The scheduler is a list of natural numbers: at every step it picks one of the enabled
  transitions, so quantifying over schedules quantifies over all interleavings.
* A run-time panic in a goroutine (a slice expression out of range, a length that `make`
  refuses) stops the program: no transition is left and the function does not return.
-/

set_option linter.dupNamespace false

namespace Minipool

/-! ## Status codes -/

def INITIALIZED : Nat := 0
def PRELAUNCH : Nat := 1
def STAKING : Nat := 2
def LOGGED_OUT : Nat := 3
def WITHDRAWN : Nat := 4
def CLOSED : Nat := 5
def TIMED_OUT : Nat := 6

/-- Get the status type by value (`switch value` over the status constants). -/
def getStatusType (value : Nat) : String :=
  if value = INITIALIZED then "initialized"
  else if value = PRELAUNCH then "pre-launch"
  else if value = STAKING then "staking"
  else if value = LOGGED_OUT then "logged out"
  else if value = WITHDRAWN then "withdrawn"
  else if value = CLOSED then "closed"
  else if value = TIMED_OUT then "timed out"
  else "unknown"

/-! ## Goroutines, unbuffered channels and `select` -/

/-- What a task sends: a value on its own data channel, or a message on the error channel. -/
inductive Event (V : Type) where
  | value (v : V)
  | error (msg : String)
  deriving DecidableEq, Repr

/-- State of one goroutine launched with `go (func() {...})()`.
`running out`: its remote call has not returned yet; `out` is the send it performs once the call
returns, `none` when the goroutine body hits a run-time panic instead.
`blocked e`: stopped at `ch <- e` on an unbuffered channel, waiting for a receiver.
`done`: the send was received and the function body ended. -/
inductive Task (V : Type) where
  | running (out : Option (Event V))
  | blocked (e : Event V)
  | done
  | panicked
  deriving DecidableEq, Repr

/-- The collecting goroutine: still inside its receive loop, or returned `(result, err)`. -/
inductive Coll (S R : Type) where
  | active (s : S)
  | returned (res : Option R) (err : Option String)
  deriving DecidableEq, Repr

/-- The receive loop of a collecting goroutine.
`accepts s v`: the `select` executed in state `s` has a case for the data channel carrying `v`
(every `select` in the file has a case for the error channel).
`recv s v`: the state after the case body and the loop bookkeeping, with the goroutines the
function launches before its next `select`. -/
structure Collector (S V R : Type) where
  accepts : S → V → Bool
  recv : S → V → Coll S R × List (Task V)

structure Config (S V R : Type) where
  tasks : List (Task V)
  coll : Coll S R
  crashed : Bool
  deriving DecidableEq, Repr

variable {S V R : Type}

/-- One transition of task `i`, if it has one.
* its remote call returns: it reaches its send, or panics (an unrecovered panic in any goroutine
  stops the whole program);
* its pending send meets a `select` case of the collector: the message is handed over, the task
  ends, the collector runs `recv` (an error message makes the function return `nil, err`).
A blocked send has no transition when no receive is waiting on its channel. -/
def stepTask (C : Collector S V R) (c : Config S V R) (i : Nat) : Option (Config S V R) :=
  if c.crashed then none
  else
    match c.tasks[i]? with
    | some (.running (some e)) => some { c with tasks := c.tasks.set i (.blocked e) }
    | some (.running none) => some { c with tasks := c.tasks.set i .panicked, crashed := true }
    | some (.blocked (.error msg)) =>
      match c.coll with
      | .active _ =>
        some { tasks := c.tasks.set i .done, coll := .returned none (some msg), crashed := false }
      | .returned _ _ => none
    | some (.blocked (.value v)) =>
      match c.coll with
      | .active s =>
        if C.accepts s v then
          some { tasks := c.tasks.set i .done ++ (C.recv s v).2, coll := (C.recv s v).1,
                 crashed := false }
        else none
      | .returned _ _ => none
    | _ => none

/-- All configurations reachable in one transition. -/
def next (C : Collector S V R) (c : Config S V R) : List (Config S V R) :=
  (List.range c.tasks.length).filterMap (stepTask C c)

/-- Follow a schedule: each number selects one of the enabled transitions; a configuration
without transitions is final. -/
def run (C : Collector S V R) : List Nat → Config S V R → Config S V R
  | [], c => c
  | n :: ns, c =>
    match next C c with
    | [] => c
    | s :: ss => run C ns ((s :: ss).getD (n % (ss.length + 1)) s)

/-- What the caller of the function has received. -/
def Config.result (c : Config S V R) : Option (Option R × Option String) :=
  match c.coll with
  | .active _ => none
  | .returned res err => some (res, err)

/-- One for a task whose message was handed over. -/
def Task.finished : Task V → Nat
  | .done => 1
  | _ => 0

/-- Number of tasks whose message was handed over to the collector. -/
def doneCount (ts : List (Task V)) : Nat := (ts.map Task.finished).sum

/-- Remaining transitions of a task: call return and hand-over. -/
def Task.weight : Task V → Nat
  | .running _ => 2
  | .blocked _ => 1
  | _ => 0

def load (ts : List (Task V)) : Nat := (ts.map Task.weight).sum

/-! ## Data model -/

/-- An account or contract address (`common.Address`): an opaque comparable identifier. -/
abbrev Address := Nat

/-- The value of `time.Time`: the zero value, or `time.Unix sec 0`. -/
inductive Time where
  | zero
  | unix (sec : Int)
  deriving DecidableEq, Repr

/-- A byte slice `[]byte`: `data` are its `len` bytes, `spare` the rest of its backing array up
to `cap`. -/
structure Bytes where
  data : List Nat
  spare : List Nat
  deriving DecidableEq, Repr

def Bytes.cap (b : Bytes) : Nat := b.data.length + b.spare.length

/-- The slice expression `b[lo:hi]`: in range iff `lo ≤ hi ≤ cap b`, otherwise a run-time
panic (`none`). -/
def Bytes.slice (b : Bytes) (lo hi : Nat) : Option (List Nat) :=
  if lo ≤ hi ∧ hi ≤ b.cap then some (((b.data ++ b.spare).drop lo).take (hi - lo)) else none

/-- The lower-case hexadecimal text of a byte string (`hex.EncodeToString`). -/
def hexEncode (bs : List Nat) : String :=
  String.mk (bs.flatMap fun b => [Nat.digitChar (b / 16 % 16), Nat.digitChar (b % 16)])

/-- Conversion of an integer to `int64`: two's complement wrap-around. -/
def int64 (z : Int) : Int := (z + 2 ^ 63) % 2 ^ 64 - 2 ^ 63

/-- The method `(*big.Int).Int64`: the low 64 bits of the magnitude as an `int64`, negated when
the number is negative. -/
def BigInt.Int64 (x : Int) : Int :=
  let v := int64 ((x.natAbs % 2 ^ 64 : Nat) : Int)
  if x < 0 then int64 (-v) else v

/-- Minipool detail data. Pointer fields are `none` while `nil`. -/
structure Details where
  Address : Address
  Status : Nat := 0
  StatusType : String := ""
  StatusTime : Time := Time.zero
  StakingDurationId : String := ""
  NodeEtherBalanceWei : Option Int := none
  NodeRplBalanceWei : Option Int := none
  UserCount : Option Int := none
  UserDepositCapacityWei : Option Int := none
  UserDepositTotalWei : Option Int := none
  deriving DecidableEq, Repr

/-- Minipool status data. Pointer and slice fields are `none` while `nil`. -/
structure Status where
  Status : Nat := 0
  StatusBlock : Option Int := none
  StakingDuration : Option Int := none
  ValidatorPubkey : Option (List Nat) := none
  deriving DecidableEq, Repr

/-- The remote reads available through the contract manager. `NewContract a` binds the
`rocketMinipool` contract at address `a`; the reads taking an address are calls on that binding,
`balanceOf` is a call on the `rocketPoolToken` contract, `getPoolsCount` and `getPoolAt` are
calls on the `rocketPool` contract. -/
structure ContractManager where
  NewContract : Address → Except String Unit
  getStatus : Address → Except String Nat
  getStatusChangedTime : Address → Except String Int
  getStakingDurationID : Address → Except String String
  getNodeBalance : Address → Except String Int
  balanceOf : Address → Except String Int
  getUserCount : Address → Except String Int
  getUserDepositCapacity : Address → Except String Int
  getUserDepositTotal : Address → Except String Int
  getStatusChangedBlock : Address → Except String Int
  getStakingDuration : Address → Except String Int
  getDepositInput : Address → Except String Bytes
  getPoolsCount : Except String Int
  getPoolAt : Nat → Except String Address

/-- The goroutine `if err := call; err != nil { errorChannel <- errors.New(msg + err.Error()) }
else { dataChannel <- value }`. -/
def fetchTask (msg : String) (call : Except String V) : Task V :=
  .running (some (match call with
    | .error e => .error (msg ++ e)
    | .ok v => .value v))

/-- The loop `for received := 0; received < n; { select { case slot = <-channel: received++ ...
case err := <-errorChannel: return nil, err } }` followed by `return record, nil`. -/
def recordCollector {D : Type} (n : Nat) (store : D → V → D) : Collector (D × Nat) V D where
  accepts := fun _ _ => true
  recv := fun s v =>
    let d := store s.1 v
    let received := s.2 + 1
    (if received < n then .active (d, received) else .returned (some d) none, [])

/-! ## GetDetails -/

/-- The messages of the data channels of `GetDetails`. -/
inductive DetailsValue where
  | status (v : Nat)
  | statusTime (t : Time)
  | stakingDurationId (s : String)
  | nodeEtherBalance (b : Int)
  | nodeRplBalance (b : Int)
  | userCount (b : Int)
  | userDepositCapacity (b : Int)
  | userDepositTotal (b : Int)
  deriving DecidableEq, Repr

/-- The `select` cases of `GetDetails`. -/
def Details.store (details : Details) : DetailsValue → Details
  | .status v => { details with Status := v, StatusType := getStatusType v }
  | .statusTime t => { details with StatusTime := t }
  | .stakingDurationId s => { details with StakingDurationId := s }
  | .nodeEtherBalance b => { details with NodeEtherBalanceWei := some b }
  | .nodeRplBalance b => { details with NodeRplBalanceWei := some b }
  | .userCount b => { details with UserCount := some b }
  | .userDepositCapacity b => { details with UserDepositCapacityWei := some b }
  | .userDepositTotal b => { details with UserDepositTotalWei := some b }

/-- The goroutines launched by `GetDetails`, in source order. -/
def detailsTasks (cm : ContractManager) (minipoolAddress : Address) : List (Task DetailsValue) :=
  [ fetchTask "Error retrieving minipool status: "
      ((cm.getStatus minipoolAddress).map .status),
    fetchTask "Error retrieving minipool status changed time: "
      ((cm.getStatusChangedTime minipoolAddress).map fun t => .statusTime (.unix (BigInt.Int64 t))),
    fetchTask "Error retrieving minipool staking duration ID: "
      ((cm.getStakingDurationID minipoolAddress).map .stakingDurationId),
    fetchTask "Error retrieving minipool node ETH balance: "
      ((cm.getNodeBalance minipoolAddress).map .nodeEtherBalance),
    fetchTask "Error retrieving minipool node RPL balance: "
      ((cm.balanceOf minipoolAddress).map .nodeRplBalance),
    fetchTask "Error retrieving minipool user count: "
      ((cm.getUserCount minipoolAddress).map .userCount),
    fetchTask "Error retrieving minipool user deposit capacity: "
      ((cm.getUserDepositCapacity minipoolAddress).map .userDepositCapacity),
    fetchTask "Error retrieving minipool user deposit total: "
      ((cm.getUserDepositTotal minipoolAddress).map .userDepositTotal) ]

def detailsCollector : Collector (Details × Nat) DetailsValue Details :=
  recordCollector 8 Details.store

/-- The configuration of `GetDetails` when it reaches its receive loop (or has returned because
the contract binding failed). -/
def GetDetails.start (cm : ContractManager) (minipoolAddress : Address) :
    Config (Details × Nat) DetailsValue Details :=
  match cm.NewContract minipoolAddress with
  | .error e =>
    { tasks := [], coll := .returned none (some ("Error initialising minipool contract: " ++ e)),
      crashed := false }
  | .ok _ =>
    { tasks := detailsTasks cm minipoolAddress,
      coll := .active ({ Address := minipoolAddress }, 0), crashed := false }

/-- Get a minipool's details: what the caller has received after the given schedule. -/
def GetDetails (cm : ContractManager) (minipoolAddress : Address) (sched : List Nat) :
    Option (Option Details × Option String) :=
  (run detailsCollector sched (GetDetails.start cm minipoolAddress)).result

/-! ## GetStatus -/

/-- The messages of the data channels of `GetStatus`. -/
inductive StatusValue where
  | status (v : Nat)
  | statusBlock (b : Int)
  | stakingDuration (b : Int)
  | validatorPubkey (bs : List Nat)
  deriving DecidableEq, Repr

/-- The `select` cases of `GetStatus`. -/
def Status.store (status : Minipool.Status) : StatusValue → Minipool.Status
  | .status v => { status with Status := v }
  | .statusBlock b => { status with StatusBlock := some b }
  | .stakingDuration b => { status with StakingDuration := some b }
  | .validatorPubkey bs => { status with ValidatorPubkey := some bs }

/-- The goroutine reading `getDepositInput` and sending `(*depositInput)[4:52]`. -/
def validatorPubkeyTask (cm : ContractManager) (minipoolAddress : Address) : Task StatusValue :=
  match cm.getDepositInput minipoolAddress with
  | .error e => .running (some (.error ("Error retrieving minipool depositInput data: " ++ e)))
  | .ok depositInput =>
    .running ((depositInput.slice 4 52).map fun bs => .value (.validatorPubkey bs))

/-- The goroutines launched by `GetStatus`, in source order. -/
def statusTasks (cm : ContractManager) (minipoolAddress : Address) : List (Task StatusValue) :=
  [ fetchTask "Error retrieving minipool status: "
      ((cm.getStatus minipoolAddress).map .status),
    fetchTask "Error retrieving minipool status changed block: "
      ((cm.getStatusChangedBlock minipoolAddress).map .statusBlock),
    fetchTask "Error retrieving minipool staking duration: "
      ((cm.getStakingDuration minipoolAddress).map .stakingDuration),
    validatorPubkeyTask cm minipoolAddress ]

def statusCollector : Collector (Status × Nat) StatusValue Status :=
  recordCollector 4 Status.store

def GetStatus.start (cm : ContractManager) (minipoolAddress : Address) :
    Config (Status × Nat) StatusValue Status :=
  match cm.NewContract minipoolAddress with
  | .error e =>
    { tasks := [], coll := .returned none (some ("Error initialising minipool contract: " ++ e)),
      crashed := false }
  | .ok _ =>
    { tasks := statusTasks cm minipoolAddress, coll := .active ({}, 0), crashed := false }

/-- Get a minipool's status details: what the caller has received after the given schedule. -/
def GetStatus (cm : ContractManager) (minipoolAddress : Address) (sched : List Nat) :
    Option (Option Status × Option String) :=
  (run statusCollector sched (GetStatus.start cm minipoolAddress)).result

/-! ## GetActiveMinipoolsByValidatorPubkey -/

/-- A Go `map[string]common.Address`, as the list of its entries (one per key). -/
structure Table where
  entries : List (String × Address)
  deriving DecidableEq, Repr

/-- The assignment `m[k] = a`: a new entry, or the replacement of the entry of `k`. -/
def Table.insert (m : Table) (k : String) (a : Address) : Table :=
  ⟨(k, a) :: m.entries.filter fun p => p.1 != k⟩

/-- The index expression `m[k]`. -/
def Table.lookup (m : Table) (k : String) : Option Address :=
  (m.entries.find? fun p => p.1 == k).map Prod.snd

/-- The number of entries `len(m)`. -/
def Table.size (m : Table) : Nat := m.entries.length

/-- The messages of the data channels: `addressChannels[mi]` and `validatorPubkeyChannels[mi]`. -/
inductive PoolValue where
  | address (mi : Nat) (a : Address)
  | validatorPubkey (mi : Nat) (k : String)
  deriving DecidableEq, Repr

/-- The two receive loops; `minipoolAddresses` holds the entries `[0, mi)` filled so far in the
first loop and all entries in the second. -/
inductive PoolsState where
  | addresses (mi : Nat) (minipoolAddresses : List Address)
  | pubkeys (mi : Nat) (minipoolAddresses : List Address) (activeMinipools : Table)
  deriving DecidableEq, Repr

/-- The goroutine reading `getPoolAt(mi)`. -/
def addressTask (cm : ContractManager) (mi : Nat) : Task PoolValue :=
  fetchTask "Error retrieving minipool address: " ((cm.getPoolAt mi).map (.address mi))

/-- The goroutine binding the minipool contract at `minipoolAddresses[mi]`, reading
`getDepositInput` and sending `hex.EncodeToString((*depositInput)[4:52])`. -/
def pubkeyTask (cm : ContractManager) (minipoolAddress : Address) (mi : Nat) : Task PoolValue :=
  match cm.NewContract minipoolAddress with
  | .error e => .running (some (.error ("Error initialising minipool contract: " ++ e)))
  | .ok _ =>
    match cm.getDepositInput minipoolAddress with
    | .error e => .running (some (.error ("Error retrieving minipool depositInput data: " ++ e)))
    | .ok depositInput =>
      .running ((depositInput.slice 4 52).map fun bs => .value (.validatorPubkey mi (hexEncode bs)))

/-- The head of the second receive loop: `mi < minipoolCount`, else `return &activeMinipools, nil`. -/
def receivePubkeys (minipoolCount mi : Nat) (minipoolAddresses : List Address)
    (activeMinipools : Table) : Coll PoolsState Table :=
  if mi < minipoolCount then .active (.pubkeys mi minipoolAddresses activeMinipools)
  else .returned (some activeMinipools) none

/-- The head of the first receive loop: `mi < minipoolCount`, else the goroutines of the second
round are launched, `activeMinipools` is made and the second loop is entered. -/
def receiveAddresses (cm : ContractManager) (minipoolCount mi : Nat)
    (minipoolAddresses : List Address) : Coll PoolsState Table × List (Task PoolValue) :=
  if mi < minipoolCount then (.active (.addresses mi minipoolAddresses), [])
  else
    (receivePubkeys minipoolCount 0 minipoolAddresses ⟨[]⟩,
     (List.range minipoolCount).map fun mi => pubkeyTask cm (minipoolAddresses.getD mi 0) mi)

/-- The two `select` statements: each waits on the data channel of index `mi` (and on the error
channel). -/
def poolsCollector (cm : ContractManager) (minipoolCount : Nat) :
    Collector PoolsState PoolValue Table where
  accepts := fun s v =>
    match s, v with
    | .addresses mi _, .address j _ => j == mi
    | .pubkeys mi _ _, .validatorPubkey j _ => j == mi
    | _, _ => false
  recv := fun s v =>
    match s, v with
    | .addresses mi minipoolAddresses, .address _ a =>
      receiveAddresses cm minipoolCount (mi + 1) (minipoolAddresses ++ [a])
    | .pubkeys mi minipoolAddresses activeMinipools, .validatorPubkey _ k =>
      (receivePubkeys minipoolCount (mi + 1) minipoolAddresses
        (activeMinipools.insert k (minipoolAddresses.getD mi 0)), [])
    | s, _ => (.active s, [])

/-- What the Go runtime can allocate: `maxLen` is the largest length for which `make` of a slice
of pointers or channels succeeds. `runtime.makeslice` panics with "len out of range" when the
length is negative or `len * 8` exceeds `maxAlloc`, which is `2^48` on a 64-bit platform, so
`maxLen` is at most `2^45`; the memory of the machine may make it smaller. -/
structure Runtime where
  maxLen : Nat
  maxLen_le : maxLen ≤ 2 ^ 45

/-- A 64-bit runtime with enough memory for every slice below `maxAlloc`. -/
def rt64 : Runtime := ⟨2 ^ 45, Nat.le_refl _⟩

/-- The loop bound `minipoolCount := (*minipoolCountV).Int64()`. -/
def minipoolCountOf (cm : ContractManager) : Int :=
  match cm.getPoolsCount with
  | .error _ => 0
  | .ok c => BigInt.Int64 c

/-- The configuration of `GetActiveMinipoolsByValidatorPubkey` when it reaches its first
`select`, or has returned, or has panicked in `make([]chan *common.Address, minipoolCount)`
because the length is negative or larger than the runtime allocates. -/
def GetActiveMinipoolsByValidatorPubkey.start (rt : Runtime) (cm : ContractManager) :
    Config PoolsState PoolValue Table :=
  match cm.getPoolsCount with
  | .error e =>
    { tasks := [], coll := .returned none (some ("Error retrieving minipool count: " ++ e)),
      crashed := false }
  | .ok _ =>
    if minipoolCountOf cm < 0 ∨ (rt.maxLen : Int) < minipoolCountOf cm then
      { tasks := [], coll := .active (.addresses 0 []), crashed := true }
    else
      let minipoolCount := (minipoolCountOf cm).toNat
      { tasks := (List.range minipoolCount).map (addressTask cm) ++
          (receiveAddresses cm minipoolCount 0 []).2,
        coll := (receiveAddresses cm minipoolCount 0 []).1, crashed := false }

/-- Get a map of all active minipools by validator pubkey: what the caller has received after
the given schedule. -/
def GetActiveMinipoolsByValidatorPubkey (rt : Runtime) (cm : ContractManager)
    (sched : List Nat) :
    Option (Option Table × Option String) :=
  (run (poolsCollector cm (minipoolCountOf cm).toNat) sched
    (GetActiveMinipoolsByValidatorPubkey.start rt cm)).result

/-! ## The step relation -/

/-- The step relation of tasks and collector; `next` enumerates it. -/
inductive Step (C : Collector S V R) (c : Config S V R) : Config S V R → Prop where
  | callReturns (i : Nat) (e : Event V) (hc : c.crashed = false)
      (ht : c.tasks[i]? = some (.running (some e))) :
      Step C c { c with tasks := c.tasks.set i (.blocked e) }
  | panics (i : Nat) (hc : c.crashed = false) (ht : c.tasks[i]? = some (.running none)) :
      Step C c { c with tasks := c.tasks.set i .panicked, crashed := true }
  | failure (i : Nat) (msg : String) (s : S) (hc : c.crashed = false)
      (ht : c.tasks[i]? = some (.blocked (.error msg))) (hs : c.coll = .active s) :
      Step C c { tasks := c.tasks.set i .done, coll := .returned none (some msg),
                 crashed := false }
  | receive (i : Nat) (v : V) (s : S) (hc : c.crashed = false)
      (ht : c.tasks[i]? = some (.blocked (.value v))) (hs : c.coll = .active s)
      (ha : C.accepts s v = true) :
      Step C c { tasks := c.tasks.set i .done ++ (C.recv s v).2, coll := (C.recv s v).1,
                 crashed := false }

/-! ## The invariant of a record aggregation -/

/-- A task state agrees with the fixed outcome `o` of its goroutine body. -/
def TaskOk (o : Option (Option (Event V))) (crashed : Bool) : Task V → Prop
  | .running out => o = some out
  | .blocked e => o = some (some e)
  | .done => ∃ e, o = some (some e)
  | .panicked => o = some none ∧ crashed = true

/-- What the collector state says about the tasks: the counter is the number of handed-over
messages, every handed-over message was a value and its slot `P i` holds; a returned record
has all slots, a returned error is the message of a failing task. -/
def RecordCollOk {D : Type} (n : Nat) (outs : List (Option (Event V))) (P : Nat → D → Prop)
    (Q : D → Prop) (ts : List (Task V)) : Coll (D × Nat) D → Prop
  | .active s => s.2 = doneCount ts ∧ s.2 < n ∧ Q s.1 ∧
      ∀ i : Nat, ts[i]? = some Task.done → (∃ v : V, outs[i]? = some (some (Event.value v))) ∧ P i s.1
  | .returned (some d) none => doneCount ts = n ∧ Q d ∧
      ∀ i : Nat, i < n → (∃ v : V, outs[i]? = some (some (Event.value v))) ∧ P i d
  | .returned none (some msg) => ∃ i : Nat, outs[i]? = some (some (Event.error msg))
  | .returned _ _ => False

def RecordInv {D : Type} (n : Nat) (outs : List (Option (Event V))) (P : Nat → D → Prop)
    (Q : D → Prop) (c : Config (D × Nat) V D) : Prop :=
  c.tasks.length = n ∧
  (∀ (i : Nat) (t : Task V), c.tasks[i]? = some t → TaskOk outs[i]? c.crashed t) ∧
  (c.crashed = true → ∃ i : Nat, outs[i]? = some none) ∧
  RecordCollOk n outs P Q c.tasks c.coll

/-- The send a goroutine performs once its call has returned. -/
def Task.outcome : Task V → Option (Event V)
  | .running out => out
  | .blocked e => some e
  | _ => none

/-- The message a goroutine is going to send on the error channel, if it does. -/
def Task.failure (t : Task V) : Option String :=
  match t.outcome with
  | some (.error msg) => some msg
  | _ => none

/-- The error messages of the failing tasks. -/
def failures (ts : List (Task V)) : List String := ts.filterMap Task.failure

/-! ## GetDetails and GetStatus: slots -/

/-- The data channel a message travels on, numbered in source order. -/
def DetailsValue.kind : DetailsValue → Nat
  | .status _ => 0
  | .statusTime _ => 1
  | .stakingDurationId _ => 2
  | .nodeEtherBalance _ => 3
  | .nodeRplBalance _ => 4
  | .userCount _ => 5
  | .userDepositCapacity _ => 6
  | .userDepositTotal _ => 7

/-- The record holds the message in the slot of its channel. -/
def Details.holds (d : Details) : DetailsValue → Prop
  | .status v => d.Status = v ∧ d.StatusType = getStatusType v
  | .statusTime t => d.StatusTime = t
  | .stakingDurationId s => d.StakingDurationId = s
  | .nodeEtherBalance b => d.NodeEtherBalanceWei = some b
  | .nodeRplBalance b => d.NodeRplBalanceWei = some b
  | .userCount b => d.UserCount = some b
  | .userDepositCapacity b => d.UserDepositCapacityWei = some b
  | .userDepositTotal b => d.UserDepositTotalWei = some b

def StatusValue.kind : StatusValue → Nat
  | .status _ => 0
  | .statusBlock _ => 1
  | .stakingDuration _ => 2
  | .validatorPubkey _ => 3

def Status.holds (d : Minipool.Status) : StatusValue → Prop
  | .status v => d.Status = v
  | .statusBlock b => d.StatusBlock = some b
  | .stakingDuration b => d.StakingDuration = some b
  | .validatorPubkey bs => d.ValidatorPubkey = some bs

/-! ## Sample contract managers -/

/-- Every read succeeds; status code 2, a 52-byte deposit input, three minipools. -/
def cmOk : ContractManager where
  NewContract := fun _ => .ok ()
  getStatus := fun _ => .ok 2
  getStatusChangedTime := fun _ => .ok 1600000000
  getStakingDurationID := fun _ => .ok "3m"
  getNodeBalance := fun _ => .ok 16
  balanceOf := fun _ => .ok 5
  getUserCount := fun _ => .ok 3
  getUserDepositCapacity := fun _ => .ok 32
  getUserDepositTotal := fun _ => .ok 12
  getStatusChangedBlock := fun _ => .ok 900
  getStakingDuration := fun _ => .ok 526000
  getDepositInput := fun a => .ok ⟨List.replicate 52 (a % 256), []⟩
  getPoolsCount := .ok 3
  getPoolAt := fun mi => .ok (160 + mi)

/-- As `cmOk`, but the `getStatus` read fails. -/
def cmStatusFails : ContractManager :=
  { cmOk with getStatus := fun _ => .error "boom" }

/-- As `cmStatusFails`, but the deposit input has three bytes, in a backing array of three. -/
def cmShortBlob : ContractManager :=
  { cmStatusFails with getDepositInput := fun _ => .ok ⟨[1, 2, 3], []⟩ }

/-- As `cmOk`, but the deposit input has three bytes, in a backing array of three. -/
def cmOkShortBlob : ContractManager :=
  { cmOk with getDepositInput := fun _ => .ok ⟨[1, 2, 3], []⟩ }

/-- As `cmOk`, but the status changed time does not fit an `int64`. -/
def cmFarTime : ContractManager :=
  { cmOk with getStatusChangedTime := fun _ => .ok (2 ^ 64 + 5) }

/-! ## GetActiveMinipoolsByValidatorPubkey: derived keys and failures -/

/-- The map built by assigning the entries in list order. -/
def Table.ofList (kas : List (String × Address)) : Table :=
  kas.foldl (fun m p => m.insert p.1 p.2) ⟨[]⟩

/-- The key the second-round goroutine derives for a minipool address ("" when it sends no
key). -/
def keyOf (cm : ContractManager) (a : Address) : String :=
  match (pubkeyTask cm a 0).outcome with
  | some (.value (.validatorPubkey _ k)) => k
  | _ => ""

/-- Steps still to come from goroutines that are not launched yet. -/
def phaseCredit (minipoolCount : Nat) : Coll PoolsState Table → Nat
  | .active (.addresses _ _) => 2 * minipoolCount
  | _ => 0

/-- The message is the error message of a goroutine of the first round, or of a goroutine of
the second round started on a successfully read address. -/
def PoolsFailure (cm : ContractManager) (minipoolCount : Nat) (msg : String) : Prop :=
  (∃ j : Nat, j < minipoolCount ∧ (addressTask cm j).failure = some msg) ∨
  (∃ (j : Nat) (a : Address), j < minipoolCount ∧ cm.getPoolAt j = Except.ok a ∧
    (pubkeyTask cm a j).failure = some msg)

/-! ## GetActiveMinipoolsByValidatorPubkey: the invariant -/

/-- A task that has not handed over its message agrees with its goroutine `t0`. -/
def Pending (t0 : Task V) (crashed : Bool) (t : Task V) : Prop :=
  TaskOk (some t0.outcome) crashed t ∧ t ≠ Task.done

/-- What the state of the two receive loops says about the tasks.
First loop at `mi`: the tasks below `mi` have handed over the addresses collected so far, the
others are pending. Second loop at `mi`: all addresses are collected, the second-round tasks
below `mi` have handed over their keys and the map holds them, assigned in index order.
A returned map holds the keys of all indices; a returned error is the message of a failing
goroutine. -/
def PoolsCollOk (cm : ContractManager) (K : Nat) (ts : List (Task PoolValue)) (crashed : Bool) :
    Coll PoolsState Table → Prop
  | .active (.addresses mi addrs) =>
    crashed = false ∧ ts.length = K ∧ mi < K ∧ addrs.length = mi ∧
    (∀ j : Nat, j < mi →
      ts[j]? = some Task.done ∧ cm.getPoolAt j = Except.ok (addrs.getD j 0)) ∧
    (∀ j : Nat, mi ≤ j → j < K →
      ∃ t, ts[j]? = some t ∧ Pending (addressTask cm j) crashed t)
  | .active (.pubkeys mi addrs table) =>
    ts.length = K + K ∧ mi < K ∧ addrs.length = K ∧
    (∀ j : Nat, j < K →
      ts[j]? = some Task.done ∧ cm.getPoolAt j = Except.ok (addrs.getD j 0)) ∧
    (∀ j : Nat, j < mi → ts[K + j]? = some Task.done ∧
      (pubkeyTask cm (addrs.getD j 0) j).outcome =
        some (Event.value (PoolValue.validatorPubkey j (keyOf cm (addrs.getD j 0))))) ∧
    table = Table.ofList
      ((List.range mi).map fun j => (keyOf cm (addrs.getD j 0), addrs.getD j 0)) ∧
    (∀ j : Nat, mi ≤ j → j < K →
      ∃ t, ts[K + j]? = some t ∧ Pending (pubkeyTask cm (addrs.getD j 0) j) crashed t) ∧
    (crashed = true → ∃ (j : Nat) (a : Address), j < K ∧ cm.getPoolAt j = Except.ok a ∧
      (pubkeyTask cm a j).outcome = none)
  | .returned (some table) none =>
    ∃ addrs : List Address, addrs.length = K ∧
      (∀ j : Nat, j < K → cm.getPoolAt j = Except.ok (addrs.getD j 0) ∧
        (pubkeyTask cm (addrs.getD j 0) j).outcome =
          some (Event.value (PoolValue.validatorPubkey j (keyOf cm (addrs.getD j 0))))) ∧
      table = Table.ofList
        ((List.range K).map fun j => (keyOf cm (addrs.getD j 0), addrs.getD j 0))
  | .returned none (some msg) => PoolsFailure cm K msg
  | .returned _ _ => False

def PoolsInv (cm : ContractManager) (K : Nat) (c : Config PoolsState PoolValue Table) : Prop :=
  PoolsCollOk cm K c.tasks c.crashed c.coll

/-- The second-round goroutines cannot panic: every deposit input read on a collected address
can be sliced. -/
def NoPanic (cm : ContractManager) (K : Nat) : Prop :=
  ∀ (j : Nat) (a : Address), j < K → cm.getPoolAt j = Except.ok a →
    (pubkeyTask cm a j).outcome ≠ none

/-! ## The map: keys -/

/-- The keys of the map. -/
def Table.keys (m : Table) : List String := m.entries.map Prod.fst

/-! ## Reads of the second round -/

/-- The second-round goroutine started on address `a` derives key `k`: the binding and the
`getDepositInput` read succeed, the slice `[4:52]` is in range and its hexadecimal text is `k`. -/
def Derives (cm : ContractManager) (a : Address) (k : String) : Prop :=
  ∃ (u : Unit) (d : Bytes) (bs : List Nat), cm.NewContract a = Except.ok u ∧
    cm.getDepositInput a = Except.ok d ∧ d.slice 4 52 = some bs ∧ hexEncode bs = k

/-! ## More sample contract managers -/

/-- The 48 little-endian base-256 digits of a number below `256 ^ 48`. -/
def bytes48 (i : Nat) : List Nat :=
  Nat.digits 256 i ++ List.replicate (48 - (Nat.digits 256 i).length) 0

/-- As `cmOk`, but three minipools share the deposit input of address 160. -/
def cmSharedKey : ContractManager :=
  { cmOk with
    getDepositInput := fun a =>
      Except.ok ⟨List.replicate 52 (if a = 162 then 160 else a % 256), []⟩ }

/-- The pool count is `2^64 + 1`; the minipool at index `i` has address `i` and a deposit input
holding the digits of `i`. -/
def cmHuge : ContractManager :=
  { cmOk with
    getPoolsCount := Except.ok (2 ^ 64 + 1)
    getPoolAt := fun mi => Except.ok mi
    getDepositInput := fun a => Except.ok ⟨List.replicate 4 0 ++ bytes48 a, []⟩ }

/-- The key derived from the deposit input of `cmHuge` at address `i`. -/
def hugeKey (i : Nat) : String :=
  hexEncode (((List.replicate 4 0 ++ bytes48 i).drop 4).take 48)

/-- The keys derived for the three minipools of `cmSharedKey`. -/
def sharedKey (i : Nat) : String :=
  hexEncode (List.replicate 48 (if i = 2 then 160 else 160 + i))

/-- Two minipools; the deposit input of the second one cannot be read. -/
def cmPoolFails : ContractManager :=
  { cmOk with
    getPoolsCount := Except.ok 2
    getDepositInput := fun a =>
      if a = 161 then Except.error "boom" else Except.ok ⟨List.replicate 52 (a % 256), []⟩ }

/-- Two minipools; the deposit input of the first one cannot be read, that of the second one
has three bytes in a backing array of three. -/
def cmPoolPanics : ContractManager :=
  { cmOk with
    getPoolsCount := Except.ok 2
    getDepositInput := fun a =>
      if a = 160 then Except.error "boom" else Except.ok ⟨[1, 2, 3], []⟩ }

/-- As `cmHuge`, but the pool count is `2^62`. -/
def cmHuge62 : ContractManager :=
  { cmHuge with getPoolsCount := Except.ok (2 ^ 62) }

/-- As `cmOk`, but the pool count is `2^62`: the minipool at index `i` has address `160 + i`
and a deposit input of 52 bytes `(160 + i) % 256`. -/
def cmManyPools : ContractManager :=
  { cmOk with getPoolsCount := Except.ok (2 ^ 62) }

/-- The key derived from the deposit input of `cmManyPools` at index `i`. -/
def manyKey (i : Nat) : String :=
  hexEncode (((List.replicate 52 ((160 + i) % 256)).drop 4).take 48)

/-- The pool count is `2^62` and no minipool address can be read. -/
def cmManyFail : ContractManager :=
  { cmOk with
    getPoolsCount := Except.ok (2 ^ 62)
    getPoolAt := fun _ => Except.error "boom" }

/-- As `cmOk`, but the pool count is `2^64 + 3`. -/
def cmBigCount : ContractManager :=
  { cmOk with getPoolsCount := Except.ok (2 ^ 64 + 3) }

/-! ## After the collector has returned -/

/-- What happens to the tasks of `c` along a schedule once the collector has returned: the
returned value stays, no further message is handed over and no further task ends, a task
blocked at its send stays blocked there, a task whose call is still running either keeps
running or reaches its send. -/
def StaysBlocked (C : Collector S V R) (c : Config S V R) (sched : List Nat) : Prop :=
  (run C sched c).coll = c.coll ∧
  (∀ i : Nat, (run C sched c).tasks[i]? = some Task.done ↔ c.tasks[i]? = some Task.done) ∧
  (∀ (i : Nat) (e : Event V), c.tasks[i]? = some (Task.blocked e) →
    (run C sched c).tasks[i]? = some (Task.blocked e)) ∧
  (∀ (i : Nat) (e : Event V), c.tasks[i]? = some (Task.running (some e)) →
    (run C sched c).tasks[i]? = some (Task.running (some e)) ∨
    (run C sched c).tasks[i]? = some (Task.blocked e))

/-- At the end of the schedule every task has either handed over its message or is blocked at
its send: no call is running any more and no goroutine has panicked. -/
def AllAtSend (C : Collector S V R) (c : Config S V R) (sched : List Nat) : Prop :=
  ∀ (i : Nat) (t : Task V), (run C sched c).tasks[i]? = some t →
    t = Task.done ∨ ∃ e : Event V, t = Task.blocked e

/-- No task is going to panic or has panicked. -/
def TasksHealthy (ts : List (Task V)) : Prop :=
  ∀ (i : Nat) (t : Task V), ts[i]? = some t → t ≠ Task.running none ∧ t ≠ Task.panicked

/-- The program has not stopped on a panic and no task is going to panic. -/
def Healthy (c : Config S V R) : Prop := c.crashed = false ∧ TasksHealthy c.tasks

/-- The relation between a configuration with a returned collector and a later one. -/
def Later (c c' : Config S V R) : Prop :=
  c'.coll = c.coll ∧ c'.tasks.length = c.tasks.length ∧ load c'.tasks ≤ load c.tasks ∧
  (∀ i : Nat, c'.tasks[i]? = some Task.done ↔ c.tasks[i]? = some Task.done) ∧
  (∀ (i : Nat) (e : Event V), c.tasks[i]? = some (Task.blocked e) →
    c'.tasks[i]? = some (Task.blocked e)) ∧
  (∀ (i : Nat) (e : Event V), c.tasks[i]? = some (Task.running (some e)) →
    c'.tasks[i]? = some (Task.running (some e)) ∨ c'.tasks[i]? = some (Task.blocked e))

/-! ## Properties of the step relation -/

theorem stepTask_some_iff (C : Collector S V R) (c c' : Config S V R) :
    (∃ i, stepTask C c i = some c') ↔ Step C c c' := by
  constructor
  · rintro ⟨i, h⟩
    unfold stepTask at h
    split at h
    · exact absurd h (by simp)
    · rename_i hc
      have hc' : c.crashed = false := by simpa using hc
      split at h
      · rename_i e ht
        cases h
        exact Step.callReturns i e hc' ht
      · rename_i ht
        cases h
        exact Step.panics i hc' ht
      · rename_i msg ht
        split at h
        · rename_i s hs
          cases h
          exact Step.failure i msg s hc' ht hs
        · exact absurd h (by simp)
      · rename_i v ht
        split at h
        · rename_i s hs
          split at h
          · rename_i ha
            cases h
            exact Step.receive i v s hc' ht hs ha
          · exact absurd h (by simp)
        · exact absurd h (by simp)
      · exact absurd h (by simp)
  · intro h
    cases h with
    | callReturns i e hc ht => exact ⟨i, by simp [stepTask, hc, ht]⟩
    | panics i hc ht => exact ⟨i, by simp [stepTask, hc, ht]⟩
    | failure i msg s hc ht hs => exact ⟨i, by simp [stepTask, hc, ht, hs]⟩
    | receive i v s hc ht hs ha => exact ⟨i, by simp [stepTask, hc, ht, hs, ha]⟩

theorem stepTask_none_of_length_le (C : Collector S V R) (c : Config S V R) (i : Nat)
    (h : c.tasks.length ≤ i) : stepTask C c i = none := by
  have : c.tasks[i]? = none := List.getElem?_eq_none h
  unfold stepTask
  split
  · rfl
  · simp [this]

theorem mem_next_iff (C : Collector S V R) (c c' : Config S V R) :
    c' ∈ next C c ↔ Step C c c' := by
  rw [← stepTask_some_iff]
  unfold next
  rw [List.mem_filterMap]
  constructor
  · rintro ⟨i, _, h⟩
    exact ⟨i, h⟩
  · rintro ⟨i, h⟩
    refine ⟨i, ?_, h⟩
    rw [List.mem_range]
    by_contra hlt
    rw [stepTask_none_of_length_le C c i (by omega)] at h
    exact absurd h (by simp)

theorem next_eq_nil_iff (C : Collector S V R) (c : Config S V R) :
    next C c = [] ↔ ∀ c', ¬ Step C c c' := by
  constructor
  · intro h c' hs
    have := (mem_next_iff C c c').2 hs
    rw [h] at this
    exact absurd this (by simp)
  · intro h
    apply List.eq_nil_iff_forall_not_mem.2
    intro c' hc'
    exact h c' ((mem_next_iff C c c').1 hc')

theorem getD_mem_of_mem {α : Type} (l : List α) (k : Nat) (d : α) (hd : d ∈ l) :
    l.getD k d ∈ l := by
  rw [List.getD_eq_getElem?_getD]
  cases h : l[k]? with
  | none => simpa using hd
  | some a =>
    simp only [Option.getD_some]
    exact List.getElem?_mem h

/-- Every schedule keeps an invariant of the step relation. -/
theorem run_invariant (C : Collector S V R) (Inv : Config S V R → Prop)
    (hstep : ∀ c c', Inv c → Step C c c' → Inv c') :
    ∀ (sched : List Nat) (c : Config S V R), Inv c → Inv (run C sched c) := by
  intro sched
  induction sched with
  | nil => intro c h; exact h
  | cons n ns ih =>
    intro c h
    unfold run
    split
    · exact h
    · rename_i s ss hnext
      apply ih
      apply hstep c _ h
      rw [← mem_next_iff, hnext]
      exact getD_mem_of_mem _ _ _ (List.mem_cons_self _ _)

/-- A schedule at least as long as a strictly decreasing measure ends in a final configuration. -/
theorem run_final (C : Collector S V R) (mu : Config S V R → Nat)
    (hmu : ∀ c c', Step C c c' → mu c' < mu c) :
    ∀ (sched : List Nat) (c : Config S V R), mu c ≤ sched.length →
      next C (run C sched c) = [] := by
  intro sched
  induction sched with
  | nil =>
    intro c h
    rw [next_eq_nil_iff]
    intro c' hs
    have := hmu c c' hs
    simp at h
    omega
  | cons n ns ih =>
    intro c h
    unfold run
    split
    · rename_i hnext
      exact hnext
    · rename_i s ss hnext
      apply ih
      have hm : (s :: ss).getD (n % (ss.length + 1)) s ∈ next C c := by
        rw [hnext]
        exact getD_mem_of_mem _ _ _ (List.mem_cons_self _ _)
      have := hmu c _ ((mem_next_iff C c _).1 hm)
      simp at h
      omega

/-! ## Counting lemmas -/

theorem sum_map_set {α : Type} (f : α → Nat) (l : List α) (i : Nat) (a b : α)
    (h : l[i]? = some a) : ((l.set i b).map f).sum + f a = (l.map f).sum + f b := by
  induction l generalizing i with
  | nil => simp at h
  | cons x xs ih =>
    cases i with
    | zero =>
      simp at h
      subst h
      simp only [List.set_cons_zero, List.map_cons, List.sum_cons]
      omega
    | succ k =>
      simp at h
      have := ih k h
      simp only [List.set_cons_succ, List.map_cons, List.sum_cons]
      omega

theorem load_set (ts : List (Task V)) (i : Nat) (t t' : Task V) (h : ts[i]? = some t) :
    load (ts.set i t') + t.weight = load ts + t'.weight :=
  sum_map_set Task.weight ts i t t' h

theorem doneCount_set (ts : List (Task V)) (i : Nat) (t t' : Task V) (h : ts[i]? = some t) :
    doneCount (ts.set i t') + t.finished = doneCount ts + t'.finished :=
  sum_map_set Task.finished ts i t t' h

theorem doneCount_le_length (ts : List (Task V)) : doneCount ts ≤ ts.length := by
  induction ts with
  | nil => simp [doneCount]
  | cons x xs ih =>
    simp only [doneCount, List.map_cons, List.sum_cons, List.length_cons] at ih ⊢
    cases x <;> simp only [Task.finished] <;> omega

theorem exists_not_done (ts : List (Task V)) (h : doneCount ts < ts.length) :
    ∃ (i : Nat) (t : Task V), ts[i]? = some t ∧ t ≠ Task.done := by
  induction ts with
  | nil => simp at h
  | cons x xs ih =>
    by_cases hx : x = Task.done
    · subst hx
      simp only [doneCount, List.map_cons, List.sum_cons, List.length_cons, Task.finished] at ih h
      obtain ⟨i, t, ht, hne⟩ := ih (by omega)
      exact ⟨i + 1, t, by simpa using ht, hne⟩
    · exact ⟨0, x, by simp, hx⟩

theorem all_done_of_doneCount (ts : List (Task V)) (h : doneCount ts = ts.length) :
    ∀ (i : Nat) (t : Task V), ts[i]? = some t → t = Task.done := by
  induction ts with
  | nil => intro i t ht; simp at ht
  | cons x xs ih =>
    have hle := doneCount_le_length xs
    simp only [doneCount, List.map_cons, List.sum_cons, List.length_cons] at ih h hle
    have hx : x = Task.done := by
      cases x <;> first | rfl | (simp only [Task.finished] at h; omega)
    subst hx
    intro i t ht
    cases i with
    | zero => simp at ht; exact ht.symm
    | succ k =>
      simp at ht
      simp only [Task.finished] at h
      exact ih (by omega) k t ht

theorem taskOk_crash {o : Option (Option (Event V))} {cr : Bool} {t : Task V}
    (h : TaskOk o cr t) : TaskOk o true t := by
  cases t <;> simp_all [TaskOk]

theorem recordCollOk_congr {D : Type} (n : Nat) (outs : List (Option (Event V)))
    (P : Nat → D → Prop) (Q : D → Prop) (ts ts' : List (Task V)) (coll : Coll (D × Nat) D)
    (hcount : doneCount ts' = doneCount ts)
    (hdone : ∀ i : Nat, ts'[i]? = some Task.done → ts[i]? = some Task.done)
    (h : RecordCollOk n outs P Q ts coll) : RecordCollOk n outs P Q ts' coll := by
  cases coll with
  | active s =>
    obtain ⟨h1, h2, h3, h4⟩ := h
    exact ⟨by rw [hcount]; exact h1, h2, h3, fun i hi => h4 i (hdone i hi)⟩
  | returned res err =>
    cases res with
    | none =>
      cases err with
      | none => simp [RecordCollOk] at h
      | some m => exact h
    | some d =>
      cases err with
      | none =>
        obtain ⟨h1, h2⟩ := h
        exact ⟨by rw [hcount]; exact h1, h2⟩
      | some m => simp [RecordCollOk] at h

theorem getElem?_set_done {ts : List (Task V)} {i j : Nat} {t : Task V} (ht : t ≠ Task.done)
    (h : (ts.set i t)[j]? = some Task.done) : ts[j]? = some Task.done := by
  rw [List.getElem?_set] at h
  split at h
  · split at h
    · simp at h
      exact absurd h ht
    · simp at h
  · exact h

theorem recordInv_step {D : Type} (n : Nat) (store : D → V → D)
    (outs : List (Option (Event V))) (P : Nat → D → Prop) (Q : D → Prop)
    (hP1 : ∀ (i : Nat) (v : V) (d : D), outs[i]? = some (some (Event.value v)) → P i (store d v))
    (hP2 : ∀ (i j : Nat) (v : V) (d : D), i ≠ j → outs[j]? = some (some (Event.value v)) → P i d →
      P i (store d v))
    (hQ : ∀ v d, Q d → Q (store d v))
    (c c' : Config (D × Nat) V D) (hinv : RecordInv n outs P Q c)
    (hstep : Step (recordCollector n store) c c') : RecordInv n outs P Q c' := by
  obtain ⟨hlen, htask, hcr, hcoll⟩ := hinv
  cases hstep with
  | callReturns i e hc ht =>
    have hok := htask i _ ht
    refine ⟨by simpa using hlen, ?_, hcr, ?_⟩
    · intro j t hj
      simp only [List.getElem?_set] at hj
      split at hj
      · rename_i hij
        subst hij
        split at hj
        · cases hj
          simpa [TaskOk] using hok
        · simp at hj
      · exact htask j t hj
    · apply recordCollOk_congr n outs P Q c.tasks _ c.coll _ _ hcoll
      · have := doneCount_set c.tasks i _ (Task.blocked e) ht
        simpa [Task.finished] using this
      · intro j hj
        exact getElem?_set_done (by simp) hj
  | panics i hc ht =>
    have hok := htask i _ ht
    refine ⟨by simpa using hlen, ?_, fun _ => ⟨i, by simpa [TaskOk] using hok⟩, ?_⟩
    · intro j t hj
      simp only [List.getElem?_set] at hj
      split at hj
      · rename_i hij
        subst hij
        split at hj
        · cases hj
          exact ⟨by simpa [TaskOk] using hok, rfl⟩
        · simp at hj
      · exact taskOk_crash (htask j t hj)
    · apply recordCollOk_congr n outs P Q c.tasks _ c.coll _ _ hcoll
      · have := doneCount_set c.tasks i _ (Task.panicked) ht
        simpa [Task.finished] using this
      · intro j hj
        exact getElem?_set_done (by simp) hj
  | failure i msg s hc ht hs =>
    have hok := htask i _ ht
    refine ⟨by simpa using hlen, ?_, by simp, ⟨i, by simpa [TaskOk] using hok⟩⟩
    intro j t hj
    simp only [List.getElem?_set] at hj
    split at hj
    · rename_i hij
      subst hij
      split at hj
      · cases hj
        exact ⟨_, by simpa [TaskOk] using hok⟩
      · simp at hj
    · have := htask j t hj
      rw [hc] at this
      exact this
  | receive i v s hc ht hs ha =>
    have hok : outs[i]? = some (some (Event.value v)) := by
      simpa [TaskOk] using htask i _ ht
    rw [hs] at hcoll
    obtain ⟨h1, h2, h3, h4⟩ := hcoll
    have hcount : doneCount (c.tasks.set i Task.done) = doneCount c.tasks + 1 := by
      have := doneCount_set c.tasks i _ (Task.done) ht
      simpa [Task.finished] using this
    have hslot : ∀ j : Nat, (c.tasks.set i Task.done)[j]? = some Task.done →
        (∃ w : V, outs[j]? = some (some (Event.value w))) ∧ P j (store s.1 v) := by
      intro j hj
      by_cases hij : i = j
      · subst hij
        exact ⟨⟨v, hok⟩, hP1 i v s.1 hok⟩
      · rw [List.getElem?_set_ne hij] at hj
        obtain ⟨hw, hp⟩ := h4 j hj
        exact ⟨hw, hP2 j i v s.1 (fun h => hij h.symm) hok hp⟩
    refine ⟨by simpa [recordCollector] using hlen, ?_, by simp, ?_⟩
    · intro j t hj
      simp only [recordCollector, List.append_nil, List.getElem?_set] at hj
      split at hj
      · rename_i hij
        subst hij
        split at hj
        · cases hj
          exact ⟨_, hok⟩
        · simp at hj
      · have := htask j t hj
        rw [hc] at this
        exact this
    · simp only [recordCollector, List.append_nil]
      split
      · rename_i hlt
        exact ⟨by rw [hcount, h1], hlt, hQ v s.1 h3, hslot⟩
      · rename_i hge
        have hn : doneCount (c.tasks.set i Task.done) = n := by omega
        refine ⟨hn, hQ v s.1 h3, ?_⟩
        intro j hj
        have hall := all_done_of_doneCount (c.tasks.set i Task.done) (by simp [hn, hlen])
        have hjl : j < (c.tasks.set i Task.done).length := by simp [hlen, hj]
        have hget : (c.tasks.set i Task.done)[j]? = some ((c.tasks.set i Task.done)[j]) :=
          List.getElem?_eq_getElem hjl
        have := hall j _ hget
        rw [this] at hget
        exact hslot j hget

theorem record_load_step {D : Type} (n : Nat) (store : D → V → D)
    (c c' : Config (D × Nat) V D) (hstep : Step (recordCollector n store) c c') :
    load c'.tasks < load c.tasks := by
  cases hstep with
  | callReturns i e hc ht =>
    have := load_set c.tasks i _ (Task.blocked e) ht
    simp only [Task.weight] at this ⊢
    omega
  | panics i hc ht =>
    have := load_set c.tasks i _ (Task.panicked) ht
    simp only [Task.weight] at this ⊢
    omega
  | failure i msg s hc ht hs =>
    have := load_set c.tasks i _ (Task.done) ht
    simp only [Task.weight] at this ⊢
    omega
  | receive i v s hc ht hs ha =>
    have := load_set c.tasks i _ (Task.done) ht
    simp only [Task.weight, recordCollector, List.append_nil] at this ⊢
    omega

/-- A final configuration that has not crashed has a returned collector: while the receive loop
is active some task can still move. -/
theorem recordInv_final {D : Type} (n : Nat) (store : D → V → D)
    (outs : List (Option (Event V))) (P : Nat → D → Prop) (Q : D → Prop)
    (c : Config (D × Nat) V D) (hinv : RecordInv n outs P Q c)
    (hfin : next (recordCollector n store) c = []) (hc : c.crashed = false) :
    ∃ res err, c.coll = Coll.returned res err := by
  obtain ⟨hlen, htask, hcr, hcoll⟩ := hinv
  rw [next_eq_nil_iff] at hfin
  cases hcl : c.coll with
  | returned res err => exact ⟨res, err, rfl⟩
  | active s =>
    exfalso
    rw [hcl] at hcoll
    obtain ⟨h1, h2, _, _⟩ := hcoll
    obtain ⟨i, t, ht, hne⟩ := exists_not_done c.tasks (by omega)
    cases t with
    | running out =>
      cases out with
      | none => exact hfin _ (Step.panics i hc ht)
      | some e => exact hfin _ (Step.callReturns i e hc ht)
    | blocked e =>
      cases e with
      | value v => exact hfin _ (Step.receive i v s hc ht hcl rfl)
      | error msg => exact hfin _ (Step.failure i msg s hc ht hcl)
    | done => exact hne rfl
    | panicked =>
      have := (htask i _ ht).2
      rw [hc] at this
      exact absurd this (by simp)

theorem doneCount_map_running (outs : List (Option (Event V))) :
    doneCount (outs.map Task.running) = 0 := by
  induction outs with
  | nil => rfl
  | cons x xs ih =>
    simp only [doneCount, List.map_cons, List.sum_cons, Task.finished] at ih ⊢
    omega

theorem load_map_running (outs : List (Option (Event V))) :
    load (outs.map Task.running) = 2 * outs.length := by
  induction outs with
  | nil => rfl
  | cons x xs ih =>
    simp only [load, List.map_cons, List.sum_cons, Task.weight, List.length_cons] at ih ⊢
    omega

theorem recordInv_start {D : Type} (outs : List (Option (Event V))) (P : Nat → D → Prop)
    (Q : D → Prop) (d : D) (hQ : Q d) (hn : 0 < outs.length) :
    RecordInv outs.length outs P Q
      { tasks := outs.map Task.running, coll := Coll.active (d, 0), crashed := false } := by
  refine ⟨by simp, ?_, by simp, ?_⟩
  · intro i t ht
    simp only [List.getElem?_map] at ht
    cases ho : outs[i]? with
    | none => simp [ho] at ht
    | some o =>
      simp [ho] at ht
      subst ht
      simp [TaskOk]
  · refine ⟨by simp [doneCount_map_running], hn, hQ, ?_⟩
    intro i hi
    simp only [List.getElem?_map] at hi
    cases ho : outs[i]? with
    | none => simp [ho] at hi
    | some o => simp [ho] at hi

/-- Under every schedule with at least two entries per task, a record aggregation whose tasks do
not panic has returned, and the invariant describes what it returned. -/
theorem record_run {D : Type} (store : D → V → D) (outs : List (Option (Event V)))
    (P : Nat → D → Prop) (Q : D → Prop)
    (hP1 : ∀ (i : Nat) (v : V) (d : D), outs[i]? = some (some (Event.value v)) →
      P i (store d v))
    (hP2 : ∀ (i j : Nat) (v : V) (d : D), i ≠ j → outs[j]? = some (some (Event.value v)) →
      P i d → P i (store d v))
    (hQ : ∀ v d, Q d → Q (store d v))
    (d : D) (hQd : Q d) (hn : 0 < outs.length)
    (hsafe : ∀ i : Nat, outs[i]? ≠ some none)
    (sched : List Nat) (hlong : 2 * outs.length ≤ sched.length) :
    RecordInv outs.length outs P Q
      (run (recordCollector outs.length store) sched
        { tasks := outs.map Task.running, coll := Coll.active (d, 0), crashed := false }) ∧
    ∃ res err, (run (recordCollector outs.length store) sched
        { tasks := outs.map Task.running, coll := Coll.active (d, 0), crashed := false }).coll
      = Coll.returned res err := by
  have hinv := run_invariant (recordCollector outs.length store)
    (RecordInv outs.length outs P Q)
    (recordInv_step outs.length store outs P Q hP1 hP2 hQ) sched _
    (recordInv_start outs P Q d hQd hn)
  have hfin := run_final (recordCollector outs.length store) (fun c => load c.tasks)
    (record_load_step outs.length store) sched
    { tasks := outs.map Task.running, coll := Coll.active (d, 0), crashed := false }
    (by simp only [load_map_running]; exact hlong)
  refine ⟨hinv, recordInv_final outs.length store outs P Q _ hinv hfin ?_⟩
  by_contra hcr
  obtain ⟨i, hi⟩ := hinv.2.2.1 (by simpa using hcr)
  exact hsafe i hi

/-- Every schedule, of any length, keeps the invariant of a record aggregation. -/
theorem record_safe {D : Type} (store : D → V → D) (outs : List (Option (Event V)))
    (P : Nat → D → Prop) (Q : D → Prop)
    (hP1 : ∀ (i : Nat) (v : V) (d : D), outs[i]? = some (some (Event.value v)) →
      P i (store d v))
    (hP2 : ∀ (i j : Nat) (v : V) (d : D), i ≠ j → outs[j]? = some (some (Event.value v)) →
      P i d → P i (store d v))
    (hQ : ∀ v d, Q d → Q (store d v))
    (d : D) (hQd : Q d) (hn : 0 < outs.length) (sched : List Nat) :
    RecordInv outs.length outs P Q
      (run (recordCollector outs.length store) sched
        { tasks := outs.map Task.running, coll := Coll.active (d, 0), crashed := false }) :=
  run_invariant (recordCollector outs.length store) (RecordInv outs.length outs P Q)
    (recordInv_step outs.length store outs P Q hP1 hP2 hQ) sched _
    (recordInv_start outs P Q d hQd hn)

theorem detailsTasks_eq (cm : ContractManager) (a : Address) :
    detailsTasks cm a = ((detailsTasks cm a).map Task.outcome).map Task.running := by
  simp [detailsTasks, fetchTask, Task.outcome]

theorem statusTasks_eq (cm : ContractManager) (a : Address) :
    statusTasks cm a = ((statusTasks cm a).map Task.outcome).map Task.running := by
  simp only [statusTasks, fetchTask, validatorPubkeyTask]
  cases cm.getDepositInput a <;> simp [Task.outcome]

theorem details_holds_store_self (d : Details) (v : DetailsValue) : (d.store v).holds v := by
  cases v <;> simp [Details.store, Details.holds]

theorem details_holds_store_other (d : Details) (v w : DetailsValue) (h : v.kind ≠ w.kind)
    (hw : d.holds w) : (d.store v).holds w := by
  cases v <;> cases w <;> simp_all [Details.store, Details.holds, DetailsValue.kind]

theorem detailsTasks_kind (cm : ContractManager) (a : Address) (i : Nat) (v : DetailsValue)
    (h : ((detailsTasks cm a).map Task.outcome)[i]? = some (some (Event.value v))) :
    v.kind = i := by
  simp only [detailsTasks, fetchTask, List.map_cons, List.map_nil, Task.outcome] at h
  rcases i with _ | _ | _ | _ | _ | _ | _ | _ | i
  · cases hr : cm.getStatus a <;> simp [hr, Except.map] at h
    subst h; rfl
  · cases hr : cm.getStatusChangedTime a <;> simp [hr, Except.map] at h
    subst h; rfl
  · cases hr : cm.getStakingDurationID a <;> simp [hr, Except.map] at h
    subst h; rfl
  · cases hr : cm.getNodeBalance a <;> simp [hr, Except.map] at h
    subst h; rfl
  · cases hr : cm.balanceOf a <;> simp [hr, Except.map] at h
    subst h; rfl
  · cases hr : cm.getUserCount a <;> simp [hr, Except.map] at h
    subst h; rfl
  · cases hr : cm.getUserDepositCapacity a <;> simp [hr, Except.map] at h
    subst h; rfl
  · cases hr : cm.getUserDepositTotal a <;> simp [hr, Except.map] at h
    subst h; rfl
  · simp at h

theorem status_holds_store_self (d : Minipool.Status) (v : StatusValue) :
    (d.store v).holds v := by
  cases v <;> simp [Status.store, Status.holds]

theorem status_holds_store_other (d : Minipool.Status) (v w : StatusValue)
    (h : v.kind ≠ w.kind) (hw : d.holds w) : (d.store v).holds w := by
  cases v <;> cases w <;> simp_all [Status.store, Status.holds, StatusValue.kind]

theorem statusTasks_kind (cm : ContractManager) (a : Address) (i : Nat) (v : StatusValue)
    (h : ((statusTasks cm a).map Task.outcome)[i]? = some (some (Event.value v))) :
    v.kind = i := by
  simp only [statusTasks, fetchTask, validatorPubkeyTask, List.map_cons, List.map_nil,
    Task.outcome] at h
  rcases i with _ | _ | _ | _ | i
  · cases hr : cm.getStatus a <;> simp [hr, Except.map] at h
    subst h; rfl
  · cases hr : cm.getStatusChangedBlock a <;> simp [hr, Except.map] at h
    subst h; rfl
  · cases hr : cm.getStakingDuration a <;> simp [hr, Except.map] at h
    subst h; rfl
  · cases hr : cm.getDepositInput a with
    | error e => simp [hr, Task.outcome] at h
    | ok d =>
      simp [hr, Task.outcome] at h
      obtain ⟨bs, _, hbs⟩ := h
      subst hbs; rfl
  · simp at h

/-- The invariant of `GetDetails`, under every schedule. -/
theorem getDetails_inv (cm : ContractManager) (a : Address) (sched : List Nat) :
    RecordInv 8 ((detailsTasks cm a).map Task.outcome)
      (fun i d => ∀ v, ((detailsTasks cm a).map Task.outcome)[i]? = some (some (Event.value v)) →
        d.holds v)
      (fun d => d.Address = a)
      (run detailsCollector sched
        { tasks := detailsTasks cm a, coll := Coll.active ({ Address := a }, 0),
          crashed := false }) := by
  have h := record_safe Details.store ((detailsTasks cm a).map Task.outcome)
    (fun i d => ∀ v, ((detailsTasks cm a).map Task.outcome)[i]? = some (some (Event.value v)) →
      d.holds v)
    (fun d => d.Address = a)
    (by
      intro i v d hv w hw
      rw [hv] at hw
      cases hw
      exact details_holds_store_self d v)
    (by
      intro i j v d hij hv hp w hw
      apply details_holds_store_other d v w _ (hp w hw)
      rw [detailsTasks_kind cm a j v hv, detailsTasks_kind cm a i w hw]
      exact fun h => hij h.symm)
    (by intro v d hd; cases v <;> simpa [Details.store] using hd)
    { Address := a } rfl (by simp [detailsTasks]) sched
  rw [← detailsTasks_eq] at h
  have hl : ((detailsTasks cm a).map Task.outcome).length = 8 := by simp [detailsTasks]
  rw [hl] at h
  exact h

/-- The invariant of `GetStatus`, under every schedule. -/
theorem getStatus_inv (cm : ContractManager) (a : Address) (sched : List Nat) :
    RecordInv 4 ((statusTasks cm a).map Task.outcome)
      (fun i d => ∀ v, ((statusTasks cm a).map Task.outcome)[i]? = some (some (Event.value v)) →
        d.holds v)
      (fun _ => True)
      (run statusCollector sched
        { tasks := statusTasks cm a, coll := Coll.active ({}, 0), crashed := false }) := by
  have h := record_safe Status.store ((statusTasks cm a).map Task.outcome)
    (fun i d => ∀ v, ((statusTasks cm a).map Task.outcome)[i]? = some (some (Event.value v)) →
      d.holds v)
    (fun _ => True)
    (by
      intro i v d hv w hw
      rw [hv] at hw
      cases hw
      exact status_holds_store_self d v)
    (by
      intro i j v d hij hv hp w hw
      apply status_holds_store_other d v w _ (hp w hw)
      rw [statusTasks_kind cm a j v hv, statusTasks_kind cm a i w hw]
      exact fun h => hij h.symm)
    (by intro v d hd; trivial)
    {} trivial (by simp [statusTasks]) sched
  rw [← statusTasks_eq] at h
  have hl : ((statusTasks cm a).map Task.outcome).length = 4 := by simp [statusTasks]
  rw [hl] at h
  exact h

/-! ## GetDetails and GetStatus: what is returned -/

theorem record_result_cases {D : Type} {n : Nat} {outs : List (Option (Event V))}
    {P : Nat → D → Prop} {Q : D → Prop} {c : Config (D × Nat) V D}
    (hinv : RecordInv n outs P Q c) {res : Option D} {err : Option String}
    (hret : c.coll = Coll.returned res err) :
    (∃ d, res = some d ∧ err = none ∧ doneCount c.tasks = n ∧ Q d ∧
      ∀ i : Nat, i < n → (∃ v : V, outs[i]? = some (some (Event.value v))) ∧ P i d) ∨
    (∃ msg, res = none ∧ err = some msg ∧ ∃ i : Nat, outs[i]? = some (some (Event.error msg))) := by
  have h := hinv.2.2.2
  rw [hret] at h
  cases res with
  | none =>
    cases err with
    | none => simp [RecordCollOk] at h
    | some msg => exact Or.inr ⟨msg, rfl, rfl, h⟩
  | some d =>
    cases err with
    | none => exact Or.inl ⟨d, rfl, rfl, h.1, h.2.1, h.2.2⟩
    | some msg => simp [RecordCollOk] at h

theorem mem_failures_iff (ts : List (Task V)) (msg : String) :
    msg ∈ failures ts ↔ ∃ i : Nat, (ts.map Task.outcome)[i]? = some (some (Event.error msg)) := by
  simp only [failures, List.mem_filterMap, List.getElem?_map]
  constructor
  · rintro ⟨t, ht, hf⟩
    obtain ⟨i, hi, hget⟩ := List.mem_iff_getElem.1 ht
    refine ⟨i, ?_⟩
    rw [List.getElem?_eq_getElem hi, hget]
    simp only [Task.failure] at hf
    cases ho : t.outcome with
    | none => simp [ho] at hf
    | some e =>
      cases e with
      | value v => simp [ho] at hf
      | error m =>
        simp [ho] at hf
        subst hf
        simp [ho]
  · rintro ⟨i, hi⟩
    cases ht : ts[i]? with
    | none => simp [ht] at hi
    | some t =>
      simp [ht] at hi
      exact ⟨t, List.getElem?_mem ht, by simp [Task.failure, hi]⟩

theorem fetchTask_failure_error (p m : String) :
    (fetchTask p (Except.error m : Except String V)).failure = some (p ++ m) := rfl

theorem mem_failures_unique (ts : List (Task V)) (i : Nat) (t : Task V) (x msg : String)
    (hi : ts[i]? = some t) (hx : t.failure = some x)
    (hothers : ∀ (j : Nat) (u : Task V), j ≠ i → ts[j]? = some u → u.failure = none)
    (hmem : msg ∈ failures ts) : msg = x := by
  simp only [failures, List.mem_filterMap] at hmem
  obtain ⟨u, hu, hf⟩ := hmem
  obtain ⟨j, hj, hget⟩ := List.mem_iff_getElem.1 hu
  have hju : ts[j]? = some u := by rw [List.getElem?_eq_getElem hj, hget]
  by_cases hji : j = i
  · subst hji
    rw [hi] at hju
    cases hju
    rw [hx] at hf
    cases hf
    rfl
  · rw [hothers j u hji hju] at hf
    cases hf

theorem getDetails_start_ok (cm : ContractManager) (a : Address) (u : Unit)
    (h : cm.NewContract a = Except.ok u) :
    GetDetails.start cm a =
      { tasks := detailsTasks cm a, coll := Coll.active ({ Address := a }, 0),
        crashed := false } := by
  simp [GetDetails.start, h]

theorem getStatus_start_ok (cm : ContractManager) (a : Address) (u : Unit)
    (h : cm.NewContract a = Except.ok u) :
    GetStatus.start cm a =
      { tasks := statusTasks cm a, coll := Coll.active ({}, 0), crashed := false } := by
  simp [GetStatus.start, h]

theorem detailsTasks_safe (cm : ContractManager) (a : Address) (i : Nat) :
    ((detailsTasks cm a).map Task.outcome)[i]? ≠ some none := by
  intro h
  have := List.getElem?_mem h
  simp [detailsTasks, fetchTask, Task.outcome] at this

theorem statusTasks_safe (cm : ContractManager) (a : Address)
    (hblob : ∀ d, cm.getDepositInput a = Except.ok d → 52 ≤ d.cap) (i : Nat) :
    ((statusTasks cm a).map Task.outcome)[i]? ≠ some none := by
  intro h
  have := List.getElem?_mem h
  simp only [statusTasks, fetchTask, validatorPubkeyTask] at this
  cases hr : cm.getDepositInput a with
  | error e => simp [hr, Task.outcome] at this
  | ok d =>
    have hd := hblob d hr
    simp [hr, Task.outcome, Bytes.slice, hd] at this

/-- `GetDetails` returns under every schedule with at least 16 entries. -/
theorem getDetails_returns (cm : ContractManager) (a : Address) (sched : List Nat)
    (hlong : 16 ≤ sched.length) :
    ∃ res err, (run detailsCollector sched
      { tasks := detailsTasks cm a, coll := Coll.active ({ Address := a }, 0),
        crashed := false }).coll = Coll.returned res err := by
  have hl : ((detailsTasks cm a).map Task.outcome).length = 8 := by simp [detailsTasks]
  have h := (record_run Details.store ((detailsTasks cm a).map Task.outcome)
    (fun _ _ => True) (fun _ => True) (fun _ _ _ _ => trivial) (fun _ _ _ _ _ _ _ => trivial)
    (fun _ _ _ => trivial) { Address := a } trivial (by simp [detailsTasks])
    (detailsTasks_safe cm a) sched (by rw [hl]; exact hlong)).2
  rw [← detailsTasks_eq, hl] at h
  exact h

/-- `GetStatus` returns under every schedule with at least 8 entries, when slicing the deposit
input cannot panic. -/
theorem getStatus_returns (cm : ContractManager) (a : Address)
    (hblob : ∀ d, cm.getDepositInput a = Except.ok d → 52 ≤ d.cap) (sched : List Nat)
    (hlong : 8 ≤ sched.length) :
    ∃ res err, (run statusCollector sched
      { tasks := statusTasks cm a, coll := Coll.active ({}, 0), crashed := false }).coll
      = Coll.returned res err := by
  have hl : ((statusTasks cm a).map Task.outcome).length = 4 := by simp [statusTasks]
  have h := (record_run Status.store ((statusTasks cm a).map Task.outcome)
    (fun _ _ => True) (fun _ => True) (fun _ _ _ _ => trivial) (fun _ _ _ _ _ _ _ => trivial)
    (fun _ _ _ => trivial) {} trivial (by simp [statusTasks])
    (statusTasks_safe cm a hblob) sched (by rw [hl]; exact hlong)).2
  rw [← statusTasks_eq, hl] at h
  exact h

/-- Fail-fast for a record aggregation: with a failing task, a returned collector has returned
`nil` and the message of a failing task. -/
theorem record_fail_fast {D : Type} {n : Nat} {ts : List (Task V)}
    {P : Nat → D → Prop} {Q : D → Prop} {c : Config (D × Nat) V D}
    (hn : ts.length = n)
    (hinv : RecordInv n (ts.map Task.outcome) P Q c) {res : Option D} {err : Option String}
    (hret : c.coll = Coll.returned res err) (hfail : failures ts ≠ []) :
    ∃ msg ∈ failures ts, c.result = some (none, some msg) := by
  obtain ⟨m, hm⟩ := List.exists_mem_of_ne_nil _ hfail
  obtain ⟨i, hi⟩ := (mem_failures_iff ts m).1 hm
  rcases record_result_cases hinv hret with ⟨d, _, _, _, _, hall⟩ | ⟨msg, h1, h2, h3⟩
  · exfalso
    have hlt : i < n := by
      have := (List.getElem?_eq_some_iff.1 hi).1
      simpa [hn] using this
    obtain ⟨⟨v, hv⟩, _⟩ := hall i hlt
    rw [hi] at hv
    cases hv
  · refine ⟨msg, (mem_failures_iff ts msg).2 h3, ?_⟩
    simp [Config.result, hret, h1, h2]

theorem run_of_no_tasks (C : Collector S V R) (sched : List Nat) (c : Config S V R)
    (h : c.tasks = []) : run C sched c = c := by
  cases sched with
  | nil => rfl
  | cons n ns =>
    have : next C c = [] := by simp [next, h]
    simp [run, this]

theorem int64_of_inRange (t : Int) (h1 : -2 ^ 63 ≤ t) (h2 : t < 2 ^ 63) : BigInt.Int64 t = t := by
  unfold BigInt.Int64 int64
  have e1 : (2 : Int) ^ 63 = 9223372036854775808 := by norm_num
  have e2 : (2 : Int) ^ 64 = 18446744073709551616 := by norm_num
  have e3 : (2 : Nat) ^ 64 = 18446744073709551616 := by norm_num
  simp only [e1, e2, e3] at h1 h2 ⊢
  split <;> omega

/-! ## Claims on GetDetails and GetStatus -/

/-- C2 (as amended). Once the minipool contract binding is established:
if at least one field read of `GetDetails` fails, then under every schedule of the eight tasks and
the collector (16 steps suffice) the function returns `nil` together with the message of one
failing task, and when task `i` is the only failing one, fetching under message head `p` a read
that failed with `m`, the returned message is `p ++ m`. The same holds for `GetStatus` (four
tasks, 8 steps) provided the deposit input, when its read succeeds, has capacity at least 52. -/
theorem fail_fast_single_error (cm : ContractManager) (a : Address) (sched : List Nat) (u : Unit)
    (hbind : cm.NewContract a = Except.ok u) :
    (failures (detailsTasks cm a) ≠ [] → 16 ≤ sched.length →
      ∃ msg ∈ failures (detailsTasks cm a), GetDetails cm a sched = some (none, some msg)) ∧
    (∀ (i : Nat) (p m : String),
      (detailsTasks cm a)[i]? = some (fetchTask p (Except.error m)) →
      (∀ (j : Nat) (t : Task DetailsValue), j ≠ i → (detailsTasks cm a)[j]? = some t →
        t.failure = none) →
      16 ≤ sched.length → GetDetails cm a sched = some (none, some (p ++ m))) ∧
    ((∀ d, cm.getDepositInput a = Except.ok d → 52 ≤ d.cap) →
      failures (statusTasks cm a) ≠ [] → 8 ≤ sched.length →
      ∃ msg ∈ failures (statusTasks cm a), GetStatus cm a sched = some (none, some msg)) ∧
    ((∀ d, cm.getDepositInput a = Except.ok d → 52 ≤ d.cap) →
      ∀ (i : Nat) (p m : String),
      (statusTasks cm a)[i]? = some (fetchTask p (Except.error m)) →
      (∀ (j : Nat) (t : Task StatusValue), j ≠ i → (statusTasks cm a)[j]? = some t →
        t.failure = none) →
      8 ≤ sched.length → GetStatus cm a sched = some (none, some (p ++ m))) := by
  have hD : failures (detailsTasks cm a) ≠ [] → 16 ≤ sched.length →
      ∃ msg ∈ failures (detailsTasks cm a), GetDetails cm a sched = some (none, some msg) := by
    intro hfail hlong
    obtain ⟨res, err, hret⟩ := getDetails_returns cm a sched hlong
    have := record_fail_fast (by simp [detailsTasks]) (getDetails_inv cm a sched) hret hfail
    simpa [GetDetails, getDetails_start_ok cm a u hbind] using this
  have hS : (∀ d, cm.getDepositInput a = Except.ok d → 52 ≤ d.cap) →
      failures (statusTasks cm a) ≠ [] → 8 ≤ sched.length →
      ∃ msg ∈ failures (statusTasks cm a), GetStatus cm a sched = some (none, some msg) := by
    intro hblob hfail hlong
    obtain ⟨res, err, hret⟩ := getStatus_returns cm a hblob sched hlong
    have := record_fail_fast (by simp [statusTasks]) (getStatus_inv cm a sched) hret hfail
    simpa [GetStatus, getStatus_start_ok cm a u hbind] using this
  refine ⟨hD, ?_, hS, ?_⟩
  · intro i p m hi hothers hlong
    have hmem : p ++ m ∈ failures (detailsTasks cm a) := by
      simp only [failures, List.mem_filterMap]
      exact ⟨_, List.getElem?_mem hi, fetchTask_failure_error p m⟩
    obtain ⟨msg, hmsg, hres⟩ := hD (List.ne_nil_of_mem hmem) hlong
    rw [hres, mem_failures_unique _ i _ (p ++ m) msg hi (fetchTask_failure_error p m) hothers hmsg]
  · intro hblob i p m hi hothers hlong
    have hmem : p ++ m ∈ failures (statusTasks cm a) := by
      simp only [failures, List.mem_filterMap]
      exact ⟨_, List.getElem?_mem hi, fetchTask_failure_error p m⟩
    obtain ⟨msg, hmsg, hres⟩ := hS hblob (List.ne_nil_of_mem hmem) hlong
    rw [hres, mem_failures_unique _ i _ (p ++ m) msg hi (fetchTask_failure_error p m) hothers hmsg]

/-- C2 (witness): the `getStatus` read of `cmStatusFails` fails with "boom". -/
theorem fail_fast_single_error_witness :
    (∃ msg ∈ failures (detailsTasks cmStatusFails 7),
      GetDetails cmStatusFails 7 (List.replicate 16 0) = some (none, some msg)) ∧
    GetDetails cmStatusFails 7 (List.replicate 16 0)
      = some (none, some "Error retrieving minipool status: boom") ∧
    (∃ msg ∈ failures (statusTasks cmStatusFails 7),
      GetStatus cmStatusFails 7 (List.replicate 8 1) = some (none, some msg)) ∧
    GetStatus cmStatusFails 7 (List.replicate 8 1)
      = some (none, some "Error retrieving minipool status: boom") := by
  have h := fail_fast_single_error cmStatusFails 7
  have hblob : ∀ d, cmStatusFails.getDepositInput 7 = Except.ok d → 52 ≤ d.cap := by
    intro d hd
    cases hd
    decide
  refine ⟨(h (List.replicate 16 0) () rfl).1 (by decide) (by decide),
    (h (List.replicate 16 0) () rfl).2.1 0 "Error retrieving minipool status: " "boom" rfl ?_
      (by decide),
    (h (List.replicate 8 1) () rfl).2.2.1 hblob (by decide) (by decide),
    (h (List.replicate 8 1) () rfl).2.2.2 hblob 0 "Error retrieving minipool status: " "boom" rfl
      ?_ (by decide)⟩
  · intro j t hj hget
    have hlt : j < 8 := (List.getElem?_eq_some_iff.1 hget).1
    interval_cases j
    · exact absurd rfl hj
    all_goals (cases hget; rfl)
  · intro j t hj hget
    have hlt : j < 4 := (List.getElem?_eq_some_iff.1 hget).1
    interval_cases j
    · exact absurd rfl hj
    all_goals (cases hget; rfl)

/-- C2 (counterexample). With the binding established and the `getStatus` read failing, a
three-byte deposit input makes the pubkey goroutine panic: under the schedule that lets it run
first, `GetStatus` never returns. -/
theorem fail_fast_counterexample :
    ¬ (cmShortBlob.NewContract 7 = Except.ok () →
        failures (statusTasks cmShortBlob 7) ≠ [] →
        ∀ sched : List Nat, 8 ≤ sched.length →
          ∃ msg, GetStatus cmShortBlob 7 sched = some (none, some msg)) := by
  intro h
  obtain ⟨msg, hmsg⟩ := h rfl (by decide) (3 :: List.replicate 20 0) (by decide)
  have hnone : GetStatus cmShortBlob 7 (3 :: List.replicate 20 0) = none := by decide
  rw [hnone] at hmsg
  cases hmsg

/-- C1. `getStatusType` is total on 8-bit codes: the seven defined codes give their labels and
every other code up to 255 gives "unknown". -/
theorem getStatusType_total :
    getStatusType 0 = "initialized" ∧ getStatusType 1 = "pre-launch" ∧
    getStatusType 2 = "staking" ∧ getStatusType 3 = "logged out" ∧
    getStatusType 4 = "withdrawn" ∧ getStatusType 5 = "closed" ∧
    getStatusType 6 = "timed out" ∧
    ∀ v : Nat, 7 ≤ v → v ≤ 255 → getStatusType v = "unknown" := by
  refine ⟨by decide, by decide, by decide, by decide, by decide, by decide, by decide, ?_⟩
  intro v h7 _
  have h0 : v ≠ 0 := by omega
  have h1 : v ≠ 1 := by omega
  have h2 : v ≠ 2 := by omega
  have h3 : v ≠ 3 := by omega
  have h4 : v ≠ 4 := by omega
  have h5 : v ≠ 5 := by omega
  have h6 : v ≠ 6 := by omega
  simp [getStatusType, INITIALIZED, PRELAUNCH, STAKING, LOGGED_OUT, WITHDRAWN, CLOSED,
    TIMED_OUT, h0, h1, h2, h3, h4, h5, h6]

/-- C1 (witness): code 200 gives "unknown". -/
theorem getStatusType_total_witness : getStatusType 200 = "unknown" :=
  getStatusType_total.2.2.2.2.2.2.2 200 (by decide) (by decide)

/-- C3 (as amended). With the binding established and every field read succeeding, under every
schedule (16 steps suffice for `GetDetails`, 8 for `GetStatus`) the function returns no error
and the record in which each slot holds the value of its own read: `Address` is the input
address, `StatusType` is `getStatusType` of the status code, `StatusTime` is `time.Unix` of the
returned seconds narrowed by `Int64` (the returned seconds themselves when they fit an `int64`),
and, when the deposit input has at least 52 bytes, `ValidatorPubkey` is its bytes 4..51.
Status code 2 gives "staking" and status code 9 gives "unknown". -/
theorem all_reads_succeed_record (cm : ContractManager) (a : Address) (sched : List Nat)
    (u : Unit) (hbind : cm.NewContract a = Except.ok u) :
    (∀ (s : Nat) (t : Int) (id : String) (eth rpl users capacity total : Int),
      cm.getStatus a = Except.ok s → cm.getStatusChangedTime a = Except.ok t →
      cm.getStakingDurationID a = Except.ok id → cm.getNodeBalance a = Except.ok eth →
      cm.balanceOf a = Except.ok rpl → cm.getUserCount a = Except.ok users →
      cm.getUserDepositCapacity a = Except.ok capacity →
      cm.getUserDepositTotal a = Except.ok total → 16 ≤ sched.length →
      GetDetails cm a sched = some (some
        { Address := a, Status := s, StatusType := getStatusType s,
          StatusTime := Time.unix (BigInt.Int64 t), StakingDurationId := id,
          NodeEtherBalanceWei := some eth, NodeRplBalanceWei := some rpl,
          UserCount := some users, UserDepositCapacityWei := some capacity,
          UserDepositTotalWei := some total }, none)) ∧
    (∀ (s : Nat) (block duration : Int) (d : Bytes),
      cm.getStatus a = Except.ok s → cm.getStatusChangedBlock a = Except.ok block →
      cm.getStakingDuration a = Except.ok duration → cm.getDepositInput a = Except.ok d →
      52 ≤ d.data.length → 8 ≤ sched.length →
      GetStatus cm a sched = some (some
        { Status := s, StatusBlock := some block, StakingDuration := some duration,
          ValidatorPubkey := some ((d.data.drop 4).take 48) }, none)) ∧
    (∀ t : Int, -2 ^ 63 ≤ t → t < 2 ^ 63 → BigInt.Int64 t = t) ∧
    getStatusType 2 = "staking" ∧ getStatusType 9 = "unknown" := by
  refine ⟨?_, ?_, int64_of_inRange, by decide, by decide⟩
  · intro s t id eth rpl users capacity total h0 h1 h2 h3 h4 h5 h6 h7 hlong
    obtain ⟨res, err, hret⟩ := getDetails_returns cm a sched hlong
    have hinv := getDetails_inv cm a sched
    have houts : (detailsTasks cm a).map Task.outcome =
        [some (.value (.status s)), some (.value (.statusTime (Time.unix (BigInt.Int64 t)))),
         some (.value (.stakingDurationId id)), some (.value (.nodeEtherBalance eth)),
         some (.value (.nodeRplBalance rpl)), some (.value (.userCount users)),
         some (.value (.userDepositCapacity capacity)),
         some (.value (.userDepositTotal total))] := by
      simp [detailsTasks, fetchTask, Task.outcome, h0, h1, h2, h3, h4, h5, h6, h7, Except.map]
    rw [houts] at hinv
    rcases record_result_cases hinv hret with ⟨d, hd, he, _, hQ, hall⟩ | ⟨msg, _, _, i, hi⟩
    · have p0 := (hall 0 (by omega)).2 _ rfl
      have p1 := (hall 1 (by omega)).2 _ rfl
      have p2 := (hall 2 (by omega)).2 _ rfl
      have p3 := (hall 3 (by omega)).2 _ rfl
      have p4 := (hall 4 (by omega)).2 _ rfl
      have p5 := (hall 5 (by omega)).2 _ rfl
      have p6 := (hall 6 (by omega)).2 _ rfl
      have p7 := (hall 7 (by omega)).2 _ rfl
      simp only [Details.holds] at p0 p1 p2 p3 p4 p5 p6 p7
      simp only [GetDetails, getDetails_start_ok cm a u hbind, Config.result, hret, hd, he]
      cases d
      simp_all
    · exfalso
      have := List.getElem?_mem hi
      simp at this
  · intro s block duration d h0 h1 h2 h3 hlen hlong
    have hcap : ∀ d', cm.getDepositInput a = Except.ok d' → 52 ≤ d'.cap := by
      intro d' hd'
      rw [h3] at hd'
      cases hd'
      simp only [Bytes.cap]
      omega
    obtain ⟨res, err, hret⟩ := getStatus_returns cm a hcap sched hlong
    have hinv := getStatus_inv cm a sched
    have hslice : d.slice 4 52 = some ((d.data.drop 4).take 48) := by
      have h52 : 52 ≤ d.cap := hcap d h3
      simp only [Bytes.slice, h52, and_true]
      simp only [show (4 : Nat) ≤ 52 by omega, if_true, Option.some.injEq]
      rw [List.drop_append_of_le_length (by omega), List.take_append_of_le_length]
      simp only [List.length_drop]
      omega
    have houts : (statusTasks cm a).map Task.outcome =
        [some (.value (.status s)), some (.value (.statusBlock block)),
         some (.value (.stakingDuration duration)),
         some (.value (.validatorPubkey ((d.data.drop 4).take 48)))] := by
      simp [statusTasks, fetchTask, validatorPubkeyTask, Task.outcome, h0, h1, h2, h3, hslice,
        Except.map]
    rw [houts] at hinv
    rcases record_result_cases hinv hret with ⟨r, hd, he, _, hQ, hall⟩ | ⟨msg, _, _, i, hi⟩
    · have p0 := (hall 0 (by omega)).2 _ rfl
      have p1 := (hall 1 (by omega)).2 _ rfl
      have p2 := (hall 2 (by omega)).2 _ rfl
      have p3 := (hall 3 (by omega)).2 _ rfl
      simp only [Status.holds] at p0 p1 p2 p3
      simp only [GetStatus, getStatus_start_ok cm a u hbind, Config.result, hret, hd, he]
      cases r
      simp_all
    · exfalso
      have := List.getElem?_mem hi
      simp at this

/-- C3 (witness): the two records for `cmOk`, whose status code 2 is labelled "staking". -/
theorem all_reads_succeed_record_witness :
    GetDetails cmOk 7 (List.replicate 16 0) = some (some
      { Address := 7, Status := 2, StatusType := "staking",
        StatusTime := Time.unix 1600000000, StakingDurationId := "3m",
        NodeEtherBalanceWei := some 16, NodeRplBalanceWei := some 5,
        UserCount := some 3, UserDepositCapacityWei := some 32,
        UserDepositTotalWei := some 12 }, none) ∧
    GetStatus cmOk 7 (List.replicate 8 0) = some (some
      { Status := 2, StatusBlock := some 900, StakingDuration := some 526000,
        ValidatorPubkey := some (List.replicate 48 7) }, none) ∧
    BigInt.Int64 1600000000 = 1600000000 :=
  ⟨(all_reads_succeed_record cmOk 7 (List.replicate 16 0) () rfl).1 2 1600000000 "3m" 16 5 3 32
      12 rfl rfl rfl rfl rfl rfl rfl rfl (by decide),
   (all_reads_succeed_record cmOk 7 (List.replicate 8 0) () rfl).2.1 2 900 526000
      ⟨List.replicate 52 7, []⟩ rfl rfl rfl rfl (by decide) (by decide),
   (all_reads_succeed_record cmOk 7 [] () rfl).2.2.1 1600000000 (by decide) (by decide)⟩

/-- C3 (counterexample). All four reads of `GetStatus` succeed but the deposit input has three
bytes: the pubkey goroutine panics and no record is returned. All eight reads of `GetDetails`
succeed with `2^64 + 5` seconds: `StatusTime` is `time.Unix 5`, not the returned seconds. -/
theorem all_reads_succeed_counterexample :
    ¬ (∀ sched : List Nat, 8 ≤ sched.length →
        ∃ r, GetStatus cmOkShortBlob 7 sched = some (some r, none)) ∧
    ¬ (∀ sched : List Nat, 16 ≤ sched.length →
        ∃ r, GetDetails cmFarTime 7 sched = some (some r, none) ∧
          r.StatusTime = Time.unix (2 ^ 64 + 5)) := by
  constructor
  · intro h
    obtain ⟨r, hr⟩ := h (List.replicate 8 0) (by decide)
    have hnone : GetStatus cmOkShortBlob 7 (List.replicate 8 0) = none := by decide
    rw [hnone] at hr
    cases hr
  · intro h
    obtain ⟨r, hr, ht⟩ := h (List.replicate 16 0) (by decide)
    have hval : (GetDetails cmFarTime 7 (List.replicate 16 0)).map
        (fun x => x.1.map Details.StatusTime) = some (some (Time.unix 5)) := by decide
    rw [hr] at hval
    simp only [Option.map_some', Option.some.injEq] at hval
    rw [ht] at hval
    revert hval
    decide

/-- C8 (as amended). `GetDetails` launches eight fetch tasks and `GetStatus` four; under every
schedule, a returned record comes with no error, after exactly eight (respectively four)
messages were handed over to the collector, none of them a failure. -/
theorem details_eight_status_four (cm : ContractManager) (a : Address) (sched : List Nat) :
    (detailsTasks cm a).length = 8 ∧ (statusTasks cm a).length = 4 ∧
    (∀ (d : Details) (err : Option String), GetDetails cm a sched = some (some d, err) →
      err = none ∧ failures (detailsTasks cm a) = [] ∧
      doneCount (run detailsCollector sched (GetDetails.start cm a)).tasks = 8) ∧
    (∀ (d : Minipool.Status) (err : Option String), GetStatus cm a sched = some (some d, err) →
      err = none ∧ failures (statusTasks cm a) = [] ∧
      doneCount (run statusCollector sched (GetStatus.start cm a)).tasks = 4) := by
  refine ⟨by simp [detailsTasks], by simp [statusTasks], ?_, ?_⟩
  · intro d err h
    cases hb : cm.NewContract a with
    | error e =>
      have hst : (GetDetails.start cm a).tasks = [] := by simp [GetDetails.start, hb]
      rw [GetDetails, run_of_no_tasks _ _ _ hst] at h
      simp [GetDetails.start, hb, Config.result] at h
    | ok u =>
      simp only [GetDetails, getDetails_start_ok cm a u hb] at h
      rw [getDetails_start_ok cm a u hb]
      have hinv := getDetails_inv cm a sched
      cases hc : (run detailsCollector sched
          { tasks := detailsTasks cm a, coll := Coll.active ({ Address := a }, 0),
            crashed := false }).coll with
      | active s => simp [Config.result, hc] at h
      | returned res e' =>
        simp only [Config.result, hc, Option.some.injEq, Prod.mk.injEq] at h
        obtain ⟨h1, h2⟩ := h
        subst h1 h2
        rcases record_result_cases hinv hc with ⟨d', hd, he, hcount, _, hall⟩ | ⟨msg, hn, _, _⟩
        · refine ⟨he, ?_, hcount⟩
          apply List.eq_nil_iff_forall_not_mem.2
          intro msg hmsg
          obtain ⟨i, hi⟩ := (mem_failures_iff _ msg).1 hmsg
          have hlt : i < 8 := by
            have := (List.getElem?_eq_some_iff.1 hi).1
            simpa [detailsTasks] using this
          obtain ⟨⟨v, hv⟩, _⟩ := hall i hlt
          rw [hi] at hv
          cases hv
        · cases hn
  · intro d err h
    cases hb : cm.NewContract a with
    | error e =>
      have hst : (GetStatus.start cm a).tasks = [] := by simp [GetStatus.start, hb]
      rw [GetStatus, run_of_no_tasks _ _ _ hst] at h
      simp [GetStatus.start, hb, Config.result] at h
    | ok u =>
      simp only [GetStatus, getStatus_start_ok cm a u hb] at h
      rw [getStatus_start_ok cm a u hb]
      have hinv := getStatus_inv cm a sched
      cases hc : (run statusCollector sched
          { tasks := statusTasks cm a, coll := Coll.active ({}, 0), crashed := false }).coll with
      | active s => simp [Config.result, hc] at h
      | returned res e' =>
        simp only [Config.result, hc, Option.some.injEq, Prod.mk.injEq] at h
        obtain ⟨h1, h2⟩ := h
        subst h1 h2
        rcases record_result_cases hinv hc with ⟨d', hd, he, hcount, _, hall⟩ | ⟨msg, hn, _, _⟩
        · refine ⟨he, ?_, hcount⟩
          apply List.eq_nil_iff_forall_not_mem.2
          intro msg hmsg
          obtain ⟨i, hi⟩ := (mem_failures_iff _ msg).1 hmsg
          have hlt : i < 4 := by
            have := (List.getElem?_eq_some_iff.1 hi).1
            simpa [statusTasks] using this
          obtain ⟨⟨v, hv⟩, _⟩ := hall i hlt
          rw [hi] at hv
          cases hv
        · cases hn

/-- C8 (witness): the record of `cmOk` is returned after eight hand-overs. -/
theorem details_eight_status_four_witness :
    doneCount (run detailsCollector (List.replicate 16 0) (GetDetails.start cmOk 7)).tasks = 8 ∧
    doneCount (run statusCollector (List.replicate 8 0) (GetStatus.start cmOk 7)).tasks = 4 :=
  ⟨((details_eight_status_four cmOk 7 (List.replicate 16 0)).2.2.1
      { Address := 7, Status := 2, StatusType := "staking",
        StatusTime := Time.unix 1600000000, StakingDurationId := "3m",
        NodeEtherBalanceWei := some 16, NodeRplBalanceWei := some 5,
        UserCount := some 3, UserDepositCapacityWei := some 32,
        UserDepositTotalWei := some 12 } none (by decide)).2.2,
   ((details_eight_status_four cmOk 7 (List.replicate 8 0)).2.2.2
      { Status := 2, StatusBlock := some 900, StakingDuration := some 526000,
        ValidatorPubkey := some (List.replicate 48 7) } none (by decide)).2.2⟩

/-- C8 (counterexample). `GetDetails` launches eight tasks, not nine, and returns the record of
`cmOk` when eight messages, not nine, have been handed over. -/
theorem nine_fields_counterexample :
    (detailsTasks cmOk 7).length ≠ 9 ∧
    (GetDetails cmOk 7 (List.replicate 16 0)).map (fun r => (r.1.isSome, r.2)) =
      some (true, none) ∧
    doneCount (run detailsCollector (List.replicate 16 0) (GetDetails.start cmOk 7)).tasks ≠ 9 := by
  decide

/-! ## GetActiveMinipoolsByValidatorPubkey: tasks and invariant -/

theorem addressTask_running (cm : ContractManager) (j : Nat) :
    addressTask cm j = Task.running (addressTask cm j).outcome := rfl

theorem addressTask_outcome_ne_none (cm : ContractManager) (j : Nat) :
    (addressTask cm j).outcome ≠ none := by
  simp [addressTask, fetchTask, Task.outcome]

theorem addressTask_outcome_value (cm : ContractManager) (j : Nat) (v : PoolValue)
    (h : (addressTask cm j).outcome = some (Event.value v)) :
    ∃ a, cm.getPoolAt j = Except.ok a ∧ v = PoolValue.address j a := by
  simp only [addressTask, fetchTask, Task.outcome] at h
  cases hr : cm.getPoolAt j with
  | error e => simp [hr, Except.map] at h
  | ok a =>
    simp [hr, Except.map] at h
    exact ⟨a, rfl, h.symm⟩

theorem pubkeyTask_running (cm : ContractManager) (a : Address) (j : Nat) :
    pubkeyTask cm a j = Task.running (pubkeyTask cm a j).outcome := by
  unfold pubkeyTask
  cases cm.NewContract a with
  | error e => rfl
  | ok u =>
    cases cm.getDepositInput a with
    | error e => rfl
    | ok d => rfl

theorem pubkeyTask_outcome_value (cm : ContractManager) (a : Address) (j : Nat) (v : PoolValue)
    (h : (pubkeyTask cm a j).outcome = some (Event.value v)) :
    v = PoolValue.validatorPubkey j (keyOf cm a) := by
  unfold keyOf
  unfold pubkeyTask at h ⊢
  cases h1 : cm.NewContract a with
  | error e => simp [h1, Task.outcome] at h
  | ok u =>
    cases h2 : cm.getDepositInput a with
    | error e => simp [h1, h2, Task.outcome] at h
    | ok d =>
      cases h3 : d.slice 4 52 with
      | none => simp [h1, h2, h3, Task.outcome] at h
      | some bs =>
        simp [h1, h2, h3, Task.outcome] at h
        simp [h3, Task.outcome, h]

theorem set_get_same {α : Type} (ts : List α) (i : Nat) (t t' : α) (h : ts[i]? = some t) :
    (ts.set i t')[i]? = some t' := by
  have := (List.getElem?_eq_some_iff.1 h).1
  rw [List.getElem?_set]
  simp [this]

theorem done_clause_set {ts : List (Task V)} {i : Nat} {t t' : Task V}
    (ht : ts[i]? = some t) (hne : t ≠ Task.done) {j : Nat} (h : ts[j]? = some Task.done) :
    (ts.set i t')[j]? = some Task.done := by
  have hij : i ≠ j := by
    rintro rfl
    rw [ht] at h
    cases h
    exact hne rfl
  rw [List.getElem?_set_ne hij]
  exact h

theorem pending_clause_set {ts : List (Task V)} {i : Nat} {t t' t0 : Task V} {cr cr' : Bool}
    (ht : ts[i]? = some t) (hmono : ∀ u, Pending t0 cr u → Pending t0 cr' u)
    (hnew : Pending t0 cr t → Pending t0 cr' t') {k : Nat}
    (h : ∃ u, ts[k]? = some u ∧ Pending t0 cr u) :
    ∃ u, (ts.set i t')[k]? = some u ∧ Pending t0 cr' u := by
  obtain ⟨u, hu, hp⟩ := h
  by_cases hik : i = k
  · subst hik
    rw [ht] at hu
    cases hu
    exact ⟨t', set_get_same ts i t t' ht, hnew hp⟩
  · exact ⟨u, by rw [List.getElem?_set_ne hik]; exact hu, hmono u hp⟩

theorem pending_blocked {t0 : Task V} {cr : Bool} {e : Event V}
    (h : Pending t0 cr (Task.running (some e))) : Pending t0 cr (Task.blocked e) := by
  obtain ⟨h1, _⟩ := h
  simp only [TaskOk, Option.some.injEq] at h1
  exact ⟨by simp [TaskOk, h1], by simp⟩

theorem pending_panicked {t0 : Task V} {cr : Bool}
    (h : Pending t0 cr (Task.running none)) : Pending t0 true Task.panicked := by
  obtain ⟨h1, _⟩ := h
  simp only [TaskOk, Option.some.injEq] at h1
  exact ⟨by simp [TaskOk, h1], by simp⟩

theorem pending_crash {t0 : Task V} {cr : Bool} (u : Task V) (h : Pending t0 cr u) :
    Pending t0 true u := ⟨taskOk_crash h.1, h.2⟩

theorem poolsInv_callReturns (cm : ContractManager) (K : Nat)
    (c : Config PoolsState PoolValue Table) (i : Nat) (e : Event PoolValue)
    (ht : c.tasks[i]? = some (Task.running (some e))) (hinv : PoolsInv cm K c) :
    PoolsInv cm K { c with tasks := c.tasks.set i (Task.blocked e) } := by
  unfold PoolsInv at hinv ⊢
  simp only
  cases hcl : c.coll with
  | active s =>
    rw [hcl] at hinv
    cases s with
    | addresses mi addrs =>
      obtain ⟨h1, h2, h3, h4, h5, h6⟩ := hinv
      refine ⟨h1, by simpa using h2, h3, h4, ?_, ?_⟩
      · intro j hj
        exact ⟨done_clause_set ht (by simp) (h5 j hj).1, (h5 j hj).2⟩
      · intro j hj1 hj2
        exact pending_clause_set ht (fun _ h => h) pending_blocked (h6 j hj1 hj2)
    | pubkeys mi addrs table =>
      obtain ⟨h1, h2, h3, h4, h5, h6, h7, h8⟩ := hinv
      refine ⟨by simpa using h1, h2, h3, ?_, ?_, h6, ?_, h8⟩
      · intro j hj
        exact ⟨done_clause_set ht (by simp) (h4 j hj).1, (h4 j hj).2⟩
      · intro j hj
        exact ⟨done_clause_set ht (by simp) (h5 j hj).1, (h5 j hj).2⟩
      · intro j hj1 hj2
        exact pending_clause_set ht (fun _ h => h) pending_blocked (h7 j hj1 hj2)
  | returned res err =>
    rw [hcl] at hinv
    cases res <;> cases err <;> exact hinv

theorem poolsInv_panics (cm : ContractManager) (K : Nat)
    (c : Config PoolsState PoolValue Table) (i : Nat)
    (ht : c.tasks[i]? = some (Task.running none)) (hinv : PoolsInv cm K c) :
    PoolsInv cm K { c with tasks := c.tasks.set i Task.panicked, crashed := true } := by
  unfold PoolsInv at hinv ⊢
  simp only
  cases hcl : c.coll with
  | active s =>
    rw [hcl] at hinv
    cases s with
    | addresses mi addrs =>
      exfalso
      obtain ⟨h1, h2, h3, h4, h5, h6⟩ := hinv
      have hi : i < K := by
        have := (List.getElem?_eq_some_iff.1 ht).1
        omega
      by_cases hlt : i < mi
      · have := (h5 i hlt).1
        rw [ht] at this
        cases this
      · obtain ⟨t, htt, hp⟩ := h6 i (by omega) hi
        rw [ht] at htt
        cases htt
        have := hp.1
        simp only [TaskOk, Option.some.injEq] at this
        exact addressTask_outcome_ne_none cm i this
    | pubkeys mi addrs table =>
      obtain ⟨h1, h2, h3, h4, h5, h6, h7, h8⟩ := hinv
      refine ⟨by simpa using h1, h2, h3, ?_, ?_, h6, ?_, ?_⟩
      · intro j hj
        exact ⟨done_clause_set ht (by simp) (h4 j hj).1, (h4 j hj).2⟩
      · intro j hj
        exact ⟨done_clause_set ht (by simp) (h5 j hj).1, (h5 j hj).2⟩
      · intro j hj1 hj2
        exact pending_clause_set ht pending_crash pending_panicked (h7 j hj1 hj2)
      · intro _
        have hi : i < K + K := by
          have := (List.getElem?_eq_some_iff.1 ht).1
          omega
        by_cases hlt : i < K
        · have := (h4 i hlt).1
          rw [ht] at this
          cases this
        · obtain ⟨j, rfl⟩ : ∃ j, i = K + j := ⟨i - K, by omega⟩
          by_cases hj : j < mi
          · have := (h5 j hj).1
            rw [ht] at this
            cases this
          · obtain ⟨t, htt, hp⟩ := h7 j (by omega) (by omega)
            rw [ht] at htt
            cases htt
            have := hp.1
            simp only [TaskOk, Option.some.injEq] at this
            exact ⟨j, addrs.getD j 0, by omega, (h4 j (by omega)).2, this⟩
  | returned res err =>
    rw [hcl] at hinv
    cases res <;> cases err <;> exact hinv

theorem poolsInv_failure (cm : ContractManager) (K : Nat)
    (c : Config PoolsState PoolValue Table) (i : Nat) (msg : String) (s : PoolsState)
    (ht : c.tasks[i]? = some (Task.blocked (Event.error msg))) (hs : c.coll = Coll.active s)
    (hinv : PoolsInv cm K c) :
    PoolsInv cm K { tasks := c.tasks.set i Task.done, coll := Coll.returned none (some msg),
                    crashed := false } := by
  unfold PoolsInv at hinv ⊢
  simp only [PoolsCollOk]
  rw [hs] at hinv
  cases s with
  | addresses mi addrs =>
    obtain ⟨h1, h2, h3, h4, h5, h6⟩ := hinv
    have hi : i < K := by
      have := (List.getElem?_eq_some_iff.1 ht).1
      omega
    by_cases hlt : i < mi
    · have := (h5 i hlt).1
      rw [ht] at this
      cases this
    · obtain ⟨t, htt, hp⟩ := h6 i (by omega) hi
      rw [ht] at htt
      cases htt
      have := hp.1
      simp only [TaskOk, Option.some.injEq] at this
      exact Or.inl ⟨i, hi, by simp only [Task.failure, this]⟩
  | pubkeys mi addrs table =>
    obtain ⟨h1, h2, h3, h4, h5, h6, h7, h8⟩ := hinv
    have hi : i < K + K := by
      have := (List.getElem?_eq_some_iff.1 ht).1
      omega
    by_cases hlt : i < K
    · have := (h4 i hlt).1
      rw [ht] at this
      cases this
    · obtain ⟨j, rfl⟩ : ∃ j, i = K + j := ⟨i - K, by omega⟩
      by_cases hj : j < mi
      · have := (h5 j hj).1
        rw [ht] at this
        cases this
      · obtain ⟨t, htt, hp⟩ := h7 j (by omega) (by omega)
        rw [ht] at htt
        cases htt
        have := hp.1
        simp only [TaskOk, Option.some.injEq] at this
        exact Or.inr ⟨j, addrs.getD j 0, by omega, (h4 j (by omega)).2,
          by simp only [Task.failure, this]⟩

theorem getD_snoc_lt (addrs : List Address) (a : Address) (j : Nat) (h : j < addrs.length) :
    (addrs ++ [a]).getD j 0 = addrs.getD j 0 := List.getD_append addrs [a] 0 j h

theorem getD_snoc_self (addrs : List Address) (a : Address) :
    (addrs ++ [a]).getD addrs.length 0 = a := by
  rw [List.getD_append_right addrs [a] 0 addrs.length (Nat.le_refl _)]
  simp

theorem ofList_snoc (kas : List (String × Address)) (k : String) (a : Address) :
    Table.ofList (kas ++ [(k, a)]) = (Table.ofList kas).insert k a := by
  simp [Table.ofList, List.foldl_append]

theorem poolsInv_receive_address (cm : ContractManager) (K : Nat)
    (c : Config PoolsState PoolValue Table) (i : Nat) (v : PoolValue) (mi : Nat)
    (addrs : List Address)
    (ht : c.tasks[i]? = some (Task.blocked (Event.value v)))
    (hs : c.coll = Coll.active (PoolsState.addresses mi addrs))
    (ha : (poolsCollector cm K).accepts (PoolsState.addresses mi addrs) v = true)
    (hinv : PoolsInv cm K c) :
    PoolsInv cm K
      { tasks := c.tasks.set i Task.done
          ++ ((poolsCollector cm K).recv (PoolsState.addresses mi addrs) v).2,
        coll := ((poolsCollector cm K).recv (PoolsState.addresses mi addrs) v).1,
        crashed := false } := by
  unfold PoolsInv at hinv ⊢
  rw [hs] at hinv
  obtain ⟨h1, h2, h3, h4, h5, h6⟩ := hinv
  cases v with
  | validatorPubkey j k => simp [poolsCollector] at ha
  | address j a =>
    simp only [poolsCollector, beq_iff_eq] at ha
    subst ha
    have hi : i < K := by
      have := (List.getElem?_eq_some_iff.1 ht).1
      omega
    have hge : ¬ i < j := by
      intro hlt
      have := (h5 i hlt).1
      rw [ht] at this
      cases this
    obtain ⟨t, htt, hp⟩ := h6 i (by omega) hi
    rw [ht] at htt
    cases htt
    have hout := hp.1
    simp only [TaskOk, Option.some.injEq] at hout
    obtain ⟨a', hget, hv⟩ := addressTask_outcome_value cm i _ hout
    obtain ⟨hji, haa⟩ : j = i ∧ a = a' := by simpa using hv
    subst haa
    subst hji
    have hdone : ∀ m : Nat, m < j + 1 → (c.tasks.set j Task.done)[m]? = some Task.done ∧
        cm.getPoolAt m = Except.ok ((addrs ++ [a]).getD m 0) := by
      intro m hm
      by_cases hmj : m = j
      · subst hmj
        refine ⟨set_get_same _ _ _ _ ht, ?_⟩
        have hself := getD_snoc_self addrs a
        rw [h4] at hself
        rw [hself]
        exact hget
      · have hlt : m < j := by omega
        refine ⟨done_clause_set ht (by simp) (h5 m hlt).1, ?_⟩
        rw [getD_snoc_lt addrs a m (by omega)]
        exact (h5 m hlt).2
    simp only [poolsCollector, receiveAddresses]
    split
    · rename_i hlt
      simp only [PoolsCollOk, List.append_nil]
      refine ⟨trivial, by simpa using h2, hlt, by simp [h4], hdone, ?_⟩
      intro m hm1 hm2
      obtain ⟨t, htm, hpm⟩ := h6 m (by omega) hm2
      refine ⟨t, ?_, ?_⟩
      · rw [List.getElem?_set_ne (by omega)]
        exact htm
      · rw [h1] at hpm
        exact hpm
    · rename_i hnlt
      have hK : K = j + 1 := by omega
      have h0 : 0 < K := by omega
      simp only [receivePubkeys, h0, if_true, PoolsCollOk]
      have hlen : (c.tasks.set j Task.done).length = K := by simpa using h2
      refine ⟨by simp [h2], trivial, by simp [h4, hK], ?_, ?_, rfl, ?_, by simp⟩
      · intro m hm
        rw [List.getElem?_append_left (by omega)]
        exact hdone m (by omega)
      · intro m hm
        omega
      · intro m _ hm
        refine ⟨pubkeyTask cm ((addrs ++ [a]).getD m 0) m, ?_, ?_⟩
        · rw [List.getElem?_append_right (by omega)]
          have hidx : K + m - (c.tasks.set j Task.done).length = m := by omega
          rw [hidx, List.getElem?_map, List.getElem?_range hm]
          rfl
        · rw [pubkeyTask_running]
          exact ⟨by simp [TaskOk, Task.outcome], by simp⟩

theorem poolsInv_receive_pubkey (cm : ContractManager) (K : Nat)
    (c : Config PoolsState PoolValue Table) (i : Nat) (v : PoolValue) (mi : Nat)
    (addrs : List Address) (table : Table)
    (ht : c.tasks[i]? = some (Task.blocked (Event.value v)))
    (hs : c.coll = Coll.active (PoolsState.pubkeys mi addrs table))
    (hc : c.crashed = false)
    (ha : (poolsCollector cm K).accepts (PoolsState.pubkeys mi addrs table) v = true)
    (hinv : PoolsInv cm K c) :
    PoolsInv cm K
      { tasks := c.tasks.set i Task.done
          ++ ((poolsCollector cm K).recv (PoolsState.pubkeys mi addrs table) v).2,
        coll := ((poolsCollector cm K).recv (PoolsState.pubkeys mi addrs table) v).1,
        crashed := false } := by
  unfold PoolsInv at hinv ⊢
  rw [hs] at hinv
  obtain ⟨h1, h2, h3, h4, h5, h6, h7, h8⟩ := hinv
  cases v with
  | address j a => simp [poolsCollector] at ha
  | validatorPubkey j k =>
    simp only [poolsCollector, beq_iff_eq] at ha
    subst ha
    have hi : i < K + K := by
      have := (List.getElem?_eq_some_iff.1 ht).1
      omega
    have hge : ¬ i < K := by
      intro hlt
      have := (h4 i hlt).1
      rw [ht] at this
      cases this
    obtain ⟨m, rfl⟩ : ∃ m, i = K + m := ⟨i - K, by omega⟩
    have hmj : ¬ m < j := by
      intro hlt
      have := (h5 m hlt).1
      rw [ht] at this
      cases this
    obtain ⟨t, htt, hp⟩ := h7 m (by omega) (by omega)
    rw [ht] at htt
    cases htt
    have hout := hp.1
    simp only [TaskOk, Option.some.injEq] at hout
    have hv := pubkeyTask_outcome_value cm _ m _ hout
    obtain ⟨hjm, hk⟩ : j = m ∧ k = keyOf cm (addrs.getD m 0) := by simpa using hv
    subst hk
    subst hjm
    have hdone : ∀ n : Nat, n < j + 1 → (c.tasks.set (K + j) Task.done)[K + n]? = some Task.done ∧
        (pubkeyTask cm (addrs.getD n 0) n).outcome =
          some (Event.value (PoolValue.validatorPubkey n (keyOf cm (addrs.getD n 0)))) := by
      intro n hn
      by_cases hnj : n = j
      · subst hnj
        exact ⟨set_get_same _ _ _ _ ht, hout⟩
      · have hlt : n < j := by omega
        exact ⟨done_clause_set ht (by simp) (h5 n hlt).1, (h5 n hlt).2⟩
    have htable : (table.insert (keyOf cm (addrs.getD j 0)) (addrs.getD j 0)) =
        Table.ofList ((List.range (j + 1)).map
          fun n => (keyOf cm (addrs.getD n 0), addrs.getD n 0)) := by
      rw [List.range_succ, List.map_append, List.map_singleton, ofList_snoc, ← h6]
    simp only [poolsCollector, receivePubkeys]
    split
    · rename_i hlt
      simp only [PoolsCollOk, List.append_nil]
      refine ⟨by simpa using h1, hlt, h3, ?_, hdone, htable, ?_, by simp⟩
      · intro n hn
        exact ⟨done_clause_set ht (by simp) (h4 n hn).1, (h4 n hn).2⟩
      · intro n hn1 hn2
        obtain ⟨t, htn, hpn⟩ := h7 n (by omega) hn2
        refine ⟨t, ?_, ?_⟩
        · rw [List.getElem?_set_ne (by omega)]
          exact htn
        · rw [hc] at hpn
          exact hpn
    · rename_i hnlt
      have hK : K = j + 1 := by omega
      simp only [PoolsCollOk]
      refine ⟨addrs, h3, ?_, ?_⟩
      · intro n hn
        exact ⟨(h4 n hn).2, (hdone n (by omega)).2⟩
      · rw [htable, hK]

theorem poolsInv_step (cm : ContractManager) (K : Nat)
    (c c' : Config PoolsState PoolValue Table) (hinv : PoolsInv cm K c)
    (hstep : Step (poolsCollector cm K) c c') : PoolsInv cm K c' := by
  cases hstep with
  | callReturns i e hc ht => exact poolsInv_callReturns cm K c i e ht hinv
  | panics i hc ht => exact poolsInv_panics cm K c i ht hinv
  | failure i msg s hc ht hs => exact poolsInv_failure cm K c i msg s ht hs hinv
  | receive i v s hc ht hs ha =>
    cases s with
    | addresses mi addrs => exact poolsInv_receive_address cm K c i v mi addrs ht hs ha hinv
    | pubkeys mi addrs table =>
      exact poolsInv_receive_pubkey cm K c i v mi addrs table ht hs hc ha hinv

theorem load_append (l1 l2 : List (Task V)) : load (l1 ++ l2) = load l1 + load l2 := by
  simp [load, List.map_append, List.sum_append]

theorem load_pubkeyTasks (cm : ContractManager) (addrs : List Address) (l : List Nat) :
    load (l.map fun mi => pubkeyTask cm (addrs.getD mi 0) mi) = 2 * l.length := by
  induction l with
  | nil => rfl
  | cons x xs ih =>
    simp only [load, List.map_cons, List.sum_cons, List.length_cons] at ih ⊢
    rw [ih, pubkeyTask_running]
    simp only [Task.weight]
    omega

theorem load_addressTasks (cm : ContractManager) (l : List Nat) :
    load (l.map (addressTask cm)) = 2 * l.length := by
  induction l with
  | nil => rfl
  | cons x xs ih =>
    simp only [load, List.map_cons, List.sum_cons, List.length_cons] at ih ⊢
    rw [ih, addressTask_running]
    simp only [Task.weight]
    omega

/-- Every step decreases the number of steps still to come. -/
theorem pools_measure_step (cm : ContractManager) (K : Nat)
    (c c' : Config PoolsState PoolValue Table) (hstep : Step (poolsCollector cm K) c c') :
    load c'.tasks + phaseCredit K c'.coll < load c.tasks + phaseCredit K c.coll := by
  cases hstep with
  | callReturns i e hc ht =>
    have := load_set c.tasks i _ (Task.blocked e) ht
    simp only [Task.weight] at this ⊢
    omega
  | panics i hc ht =>
    have := load_set c.tasks i _ (Task.panicked) ht
    simp only [Task.weight] at this ⊢
    omega
  | failure i msg s hc ht hs =>
    have := load_set c.tasks i _ (Task.done) ht
    simp only [Task.weight, phaseCredit] at this ⊢
    omega
  | receive i v s hc ht hs ha =>
    have := load_set c.tasks i _ (Task.done) ht
    simp only [Task.weight] at this
    rw [hs]
    cases s with
    | addresses mi addrs =>
      cases v with
      | validatorPubkey j k => simp [poolsCollector] at ha
      | address j a =>
        simp only [poolsCollector, receiveAddresses]
        split
        · simp only [phaseCredit, List.append_nil]
          omega
        · simp only [load_append, load_pubkeyTasks, List.length_range]
          have hcredit : ∀ t, phaseCredit K (receivePubkeys K 0 (addrs ++ [a]) t) = 0 := by
            intro t
            unfold receivePubkeys
            split <;> rfl
          rw [hcredit]
          simp only [phaseCredit]
          omega
    | pubkeys mi addrs table =>
      cases v with
      | address j a => simp [poolsCollector] at ha
      | validatorPubkey j k =>
        simp only [poolsCollector, List.append_nil]
        have hcredit : ∀ t, phaseCredit K (receivePubkeys K (mi + 1) addrs t) = 0 := by
          intro t
          unfold receivePubkeys
          split <;> rfl
        rw [hcredit]
        simp only [phaseCredit]
        omega

/-- A final configuration has a returned collector when no goroutine can panic. -/
theorem poolsInv_final (cm : ContractManager) (K : Nat)
    (c : Config PoolsState PoolValue Table) (hinv : PoolsInv cm K c)
    (hfin : next (poolsCollector cm K) c = []) (hsafe : NoPanic cm K) :
    ∃ res err, c.coll = Coll.returned res err := by
  rw [next_eq_nil_iff] at hfin
  unfold PoolsInv at hinv
  cases hcl : c.coll with
  | returned res err => exact ⟨res, err, rfl⟩
  | active s =>
    exfalso
    rw [hcl] at hinv
    cases s with
    | addresses mi addrs =>
      obtain ⟨h1, h2, h3, h4, h5, h6⟩ := hinv
      obtain ⟨t, ht, hp⟩ := h6 mi (Nat.le_refl _) h3
      cases t with
      | running out =>
        cases out with
        | none => exact hfin _ (Step.panics mi h1 ht)
        | some e => exact hfin _ (Step.callReturns mi e h1 ht)
      | blocked e =>
        cases e with
        | error msg => exact hfin _ (Step.failure mi msg _ h1 ht hcl)
        | value v =>
          have hout := hp.1
          simp only [TaskOk, Option.some.injEq] at hout
          obtain ⟨a, _, hv⟩ := addressTask_outcome_value cm mi v hout
          subst hv
          exact hfin _ (Step.receive mi _ _ h1 ht hcl (by simp [poolsCollector]))
      | done => exact hp.2 rfl
      | panicked =>
        have := hp.1.2
        rw [h1] at this
        cases this
    | pubkeys mi addrs table =>
      obtain ⟨h1, h2, h3, h4, h5, h6, h7, h8⟩ := hinv
      have hc : c.crashed = false := by
        by_contra hcr
        obtain ⟨j, a, hj, hget, hout⟩ := h8 (by simpa using hcr)
        exact hsafe j a hj hget hout
      obtain ⟨t, ht, hp⟩ := h7 mi (Nat.le_refl _) h2
      cases t with
      | running out =>
        cases out with
        | none => exact hfin _ (Step.panics _ hc ht)
        | some e => exact hfin _ (Step.callReturns _ e hc ht)
      | blocked e =>
        cases e with
        | error msg => exact hfin _ (Step.failure _ msg _ hc ht hcl)
        | value v =>
          have hout := hp.1
          simp only [TaskOk, Option.some.injEq] at hout
          have hv := pubkeyTask_outcome_value cm _ mi v hout
          subst hv
          exact hfin _ (Step.receive _ _ _ hc ht hcl (by simp [poolsCollector]))
      | done => exact hp.2 rfl
      | panicked =>
        have := hp.1.2
        rw [hc] at this
        cases this

theorem pools_start_eq (rt : Runtime) (cm : ContractManager) (c : Int)
    (h : cm.getPoolsCount = Except.ok c) (hc : 0 ≤ BigInt.Int64 c)
    (hmax : BigInt.Int64 c ≤ (rt.maxLen : Int)) :
    minipoolCountOf cm = BigInt.Int64 c ∧
    GetActiveMinipoolsByValidatorPubkey.start rt cm =
      { tasks := (List.range (BigInt.Int64 c).toNat).map (addressTask cm) ++
          (receiveAddresses cm (BigInt.Int64 c).toNat 0 []).2,
        coll := (receiveAddresses cm (BigInt.Int64 c).toNat 0 []).1, crashed := false } := by
  have hm : minipoolCountOf cm = BigInt.Int64 c := by simp [minipoolCountOf, h]
  refine ⟨hm, ?_⟩
  unfold GetActiveMinipoolsByValidatorPubkey.start
  simp only [h, hm]
  rw [if_neg (by omega)]

theorem poolsInv_start (cm : ContractManager) (K : Nat) :
    PoolsInv cm K
      { tasks := (List.range K).map (addressTask cm) ++ (receiveAddresses cm K 0 []).2,
        coll := (receiveAddresses cm K 0 []).1, crashed := false } := by
  unfold PoolsInv receiveAddresses
  by_cases hK : 0 < K
  · simp only [hK, if_true, PoolsCollOk, List.append_nil]
    refine ⟨trivial, by simp, trivial, rfl, ?_, ?_⟩
    · intro j hj
      omega
    · intro j _ hj
      refine ⟨addressTask cm j, ?_, ?_⟩
      · rw [List.getElem?_map, List.getElem?_range hj]
        rfl
      · rw [addressTask_running]
        exact ⟨by simp [TaskOk, Task.outcome], by simp⟩
  · have h0 : K = 0 := by omega
    subst h0
    simp only [Nat.lt_irrefl, if_false, receivePubkeys, PoolsCollOk]
    exact ⟨[], rfl, fun j hj => absurd hj (by omega), rfl⟩

theorem pools_start_measure (cm : ContractManager) (K : Nat) :
    load ((List.range K).map (addressTask cm) ++ (receiveAddresses cm K 0 []).2)
      + phaseCredit K (receiveAddresses cm K 0 []).1 ≤ 4 * K := by
  unfold receiveAddresses
  by_cases hK : 0 < K
  · simp only [hK, if_true, List.append_nil, load_addressTasks, List.length_range, phaseCredit]
    omega
  · have h0 : K = 0 := by omega
    subst h0
    simp [receivePubkeys, phaseCredit, load]

/-- Under every schedule the invariant of the two receive loops holds; when no goroutine can
panic, four steps per minipool suffice for the function to return. -/
theorem pools_run (cm : ContractManager) (K : Nat) (sched : List Nat) :
    PoolsInv cm K (run (poolsCollector cm K) sched
      { tasks := (List.range K).map (addressTask cm) ++ (receiveAddresses cm K 0 []).2,
        coll := (receiveAddresses cm K 0 []).1, crashed := false }) ∧
    (NoPanic cm K → 4 * K ≤ sched.length →
      ∃ res err, (run (poolsCollector cm K) sched
        { tasks := (List.range K).map (addressTask cm) ++ (receiveAddresses cm K 0 []).2,
          coll := (receiveAddresses cm K 0 []).1, crashed := false }).coll
        = Coll.returned res err) := by
  have hinv := run_invariant (poolsCollector cm K) (PoolsInv cm K) (poolsInv_step cm K) sched _
    (poolsInv_start cm K)
  refine ⟨hinv, ?_⟩
  intro hsafe hlong
  have hfin := run_final (poolsCollector cm K)
    (fun c => load c.tasks + phaseCredit K c.coll) (pools_measure_step cm K) sched
    { tasks := (List.range K).map (addressTask cm) ++ (receiveAddresses cm K 0 []).2,
      coll := (receiveAddresses cm K 0 []).1, crashed := false }
    (Nat.le_trans (pools_start_measure cm K) hlong)
  exact poolsInv_final cm K _ hinv hfin hsafe

/-- What a returned `GetActiveMinipoolsByValidatorPubkey` has returned. -/
theorem pools_result_cases {cm : ContractManager} {K : Nat}
    {c : Config PoolsState PoolValue Table} (hinv : PoolsInv cm K c)
    {res : Option Table} {err : Option String} (hret : c.coll = Coll.returned res err) :
    (∃ addrs : List Address, err = none ∧ addrs.length = K ∧
      (∀ j : Nat, j < K → cm.getPoolAt j = Except.ok (addrs.getD j 0) ∧
        (pubkeyTask cm (addrs.getD j 0) j).outcome =
          some (Event.value (PoolValue.validatorPubkey j (keyOf cm (addrs.getD j 0))))) ∧
      res = some (Table.ofList
        ((List.range K).map fun j => (keyOf cm (addrs.getD j 0), addrs.getD j 0)))) ∨
    (∃ msg, res = none ∧ err = some msg ∧ PoolsFailure cm K msg) := by
  unfold PoolsInv at hinv
  rw [hret] at hinv
  cases res with
  | none =>
    cases err with
    | none => simp [PoolsCollOk] at hinv
    | some msg => exact Or.inr ⟨msg, rfl, rfl, hinv⟩
  | some table =>
    cases err with
    | none =>
      obtain ⟨addrs, h1, h2, h3⟩ := hinv
      exact Or.inl ⟨addrs, rfl, h1, h2, by rw [h3]⟩
    | some msg => simp [PoolsCollOk] at hinv

/-! ## The map: size and lookup -/

theorem keys_insert (m : Table) (k : String) (a : Address) :
    (m.insert k a).keys = k :: m.keys.filter (fun x => x != k) := by
  simp only [Table.insert, Table.keys, List.map_cons, List.filter_map]
  rfl

theorem keys_ofList_nil : (Table.ofList []).keys = [] := rfl

theorem keys_nodup_ofList (kas : List (String × Address)) : (Table.ofList kas).keys.Nodup := by
  induction kas using List.reverseRecOn with
  | nil => simp [keys_ofList_nil]
  | append_singleton l p ih =>
    rw [ofList_snoc, keys_insert]
    apply List.Nodup.cons
    · simp [List.mem_filter]
    · exact ih.filter _

theorem keys_toFinset_ofList (kas : List (String × Address)) :
    (Table.ofList kas).keys.toFinset = (kas.map Prod.fst).toFinset := by
  induction kas using List.reverseRecOn with
  | nil => simp [keys_ofList_nil]
  | append_singleton l p ih =>
    rw [ofList_snoc, keys_insert]
    ext x
    simp only [List.toFinset_cons, Finset.mem_insert, List.mem_toFinset, List.mem_filter,
      List.map_append, List.map_cons, List.map_nil, List.mem_append, List.mem_singleton]
    have hx : x ∈ (Table.ofList l).keys ↔ x ∈ l.map Prod.fst := by
      rw [← List.mem_toFinset, ih, List.mem_toFinset]
    rw [hx]
    by_cases hxp : x = p.1
    · simp [hxp]
    · simp [hxp]

/-- The map has one entry per distinct key assigned. -/
theorem size_ofList (kas : List (String × Address)) :
    (Table.ofList kas).size = (kas.map Prod.fst).toFinset.card := by
  rw [← keys_toFinset_ofList, List.toFinset_card_of_nodup (keys_nodup_ofList kas)]
  simp [Table.size, Table.keys]

theorem find_filter_ne (l : List (String × Address)) (k k' : String) (h : k' ≠ k) :
    (l.filter fun p => p.1 != k).find? (fun p => p.1 == k') = l.find? (fun p => p.1 == k') := by
  induction l with
  | nil => rfl
  | cons x xs ih =>
    by_cases hx : x.1 = k
    · have h1 : (x.1 != k) = false := by simp [hx]
      have h2 : (x.1 == k') = false := by
        rw [hx]
        simp only [beq_eq_false_iff_ne, ne_eq]
        exact fun e => h e.symm
      simp only [List.filter_cons, h1, List.find?_cons, h2]
      simpa using ih
    · have h1 : (x.1 != k) = true := by simp [hx]
      simp only [List.filter_cons, h1, List.find?_cons, if_true]
      cases x.1 == k'
      · simpa using ih
      · rfl

theorem lookup_insert (m : Table) (k k' : String) (a : Address) :
    (m.insert k a).lookup k' = if k' = k then some a else m.lookup k' := by
  by_cases h : k' = k
  · subst h
    simp [Table.insert, Table.lookup, List.find?_cons]
  · have hne : (k == k') = false := by
      simp only [beq_eq_false_iff_ne, ne_eq]
      exact fun e => h e.symm
    simp only [Table.insert, Table.lookup, List.find?_cons, h, if_false, hne]
    rw [find_filter_ne _ _ _ h]

/-- Assigning the keys of the indices below `K` in increasing order leaves on every key the
address of the highest index that has it. -/
theorem lookup_ofList_range (key : Nat → String) (A : Nat → Address) (K i : Nat) (hi : i < K)
    (hlast : ∀ j : Nat, i < j → j < K → key j ≠ key i) :
    (Table.ofList ((List.range K).map fun j => (key j, A j))).lookup (key i) = some (A i) := by
  induction K with
  | zero => omega
  | succ n ih =>
    rw [List.range_succ, List.map_append, List.map_singleton, ofList_snoc, lookup_insert]
    by_cases hk : key i = key n
    · have hin : i = n := by
        by_contra hne
        exact hlast n (by omega) (by omega) hk.symm
      subst hin
      simp
    · have hin : i < n := by
        have : i ≠ n := fun e => hk (by rw [e])
        omega
      rw [if_neg hk]
      exact ih hin (fun j h1 h2 => hlast j h1 (by omega))

theorem size_ofList_range (key : Nat → String) (A : Nat → Address) (K : Nat) :
    (Table.ofList ((List.range K).map fun j => (key j, A j))).size
      = ((List.range K).map key).toFinset.card := by
  rw [size_ofList, List.map_map]
  rfl

theorem card_keys_of_injective (key : Nat → String) (K : Nat)
    (hinj : ∀ i j : Nat, i < K → j < K → key i = key j → i = j) :
    ((List.range K).map key).toFinset.card = K := by
  rw [List.toFinset_card_of_nodup]
  · simp
  · rw [List.nodup_map_iff_inj_on (List.nodup_range K)]
    intro x hx y hy hxy
    exact hinj x y (List.mem_range.1 hx) (List.mem_range.1 hy) hxy

theorem card_keys_of_not_injective (key : Nat → String) (K : Nat)
    (hdup : ∃ i j : Nat, i < K ∧ j < K ∧ i ≠ j ∧ key i = key j) :
    ((List.range K).map key).toFinset.card < K := by
  have hle : ((List.range K).map key).toFinset.card ≤ ((List.range K).map key).length :=
    List.toFinset_card_le _
  have hlen : ((List.range K).map key).length = K := by simp
  rcases Nat.lt_or_ge ((List.range K).map key).toFinset.card K with h | h
  · exact h
  · exfalso
    have heq : ((List.range K).map key).toFinset.card = ((List.range K).map key).length := by
      omega
    have hnd : ((List.range K).map key).Nodup := by
      rw [List.card_toFinset] at heq
      exact List.dedup_eq_self.1 ((List.dedup_sublist _).eq_of_length heq)
    rw [List.nodup_map_iff_inj_on (List.nodup_range K)] at hnd
    obtain ⟨i, j, hi, hj, hij, hk⟩ := hdup
    exact hij (hnd i (List.mem_range.2 hi) j (List.mem_range.2 hj) hk)

/-! ## Claims on GetActiveMinipoolsByValidatorPubkey -/

theorem slice_of_length (d : Bytes) (h : 52 ≤ d.data.length) :
    d.slice 4 52 = some ((d.data.drop 4).take 48) := by
  have h52 : 52 ≤ d.cap := by
    simp only [Bytes.cap]
    omega
  simp only [Bytes.slice, h52, and_true]
  simp only [show (4 : Nat) ≤ 52 by omega, if_true, Option.some.injEq]
  rw [List.drop_append_of_le_length (by omega), List.take_append_of_le_length]
  simp only [List.length_drop]
  omega

theorem pubkeyTask_of_derives (cm : ContractManager) (a : Address) (k : String) (j : Nat)
    (h : Derives cm a k) :
    (pubkeyTask cm a j).outcome = some (Event.value (PoolValue.validatorPubkey j k)) := by
  obtain ⟨u, d, bs, h1, h2, h3, h4⟩ := h
  simp [pubkeyTask, h1, h2, h3, h4, Task.outcome]

theorem keyOf_of_derives (cm : ContractManager) (a : Address) (k : String)
    (h : Derives cm a k) : keyOf cm a = k := by
  have := pubkeyTask_outcome_value cm a 0 _ (pubkeyTask_of_derives cm a k 0 h)
  simp only [PoolValue.validatorPubkey.injEq, true_and] at this
  exact this.symm

theorem getActive_eq (rt : Runtime) (cm : ContractManager) (c : Int) (sched : List Nat)
    (hcount : cm.getPoolsCount = Except.ok c) (hc : 0 ≤ BigInt.Int64 c)
    (hmax : BigInt.Int64 c ≤ (rt.maxLen : Int)) :
    GetActiveMinipoolsByValidatorPubkey rt cm sched =
      (run (poolsCollector cm (BigInt.Int64 c).toNat) sched
        { tasks := (List.range (BigInt.Int64 c).toNat).map (addressTask cm) ++
            (receiveAddresses cm (BigInt.Int64 c).toNat 0 []).2,
          coll := (receiveAddresses cm (BigInt.Int64 c).toNat 0 []).1,
          crashed := false }).result := by
  obtain ⟨hm, hstart⟩ := pools_start_eq rt cm c hcount hc hmax
  unfold GetActiveMinipoolsByValidatorPubkey
  rw [hstart, hm]

/-- With every read succeeding, the function returns, under every schedule, the map assigned in
index order. -/
theorem pools_success (rt : Runtime) (cm : ContractManager) (c : Int) (A : Nat → Address)
    (key : Nat → String)
    (hcount : cm.getPoolsCount = Except.ok c) (hc : 0 ≤ BigInt.Int64 c)
    (hmax : BigInt.Int64 c ≤ (rt.maxLen : Int))
    (hreads : ∀ i : Nat, i < (BigInt.Int64 c).toNat →
      cm.getPoolAt i = Except.ok (A i) ∧ Derives cm (A i) (key i))
    (sched : List Nat) (hlong : 4 * (BigInt.Int64 c).toNat ≤ sched.length) :
    GetActiveMinipoolsByValidatorPubkey rt cm sched =
      some (some (Table.ofList ((List.range (BigInt.Int64 c).toNat).map
        fun j => (key j, A j))), none) := by
  rw [getActive_eq rt cm c sched hcount hc hmax]
  obtain ⟨hinv, hlive⟩ := pools_run cm (BigInt.Int64 c).toNat sched
  have hsafe : NoPanic cm (BigInt.Int64 c).toNat := by
    intro j a hj hget hnone
    have := (hreads j hj).1
    rw [hget] at this
    cases this
    rw [pubkeyTask_of_derives cm _ _ j (hreads j hj).2] at hnone
    cases hnone
  obtain ⟨res, err, hret⟩ := hlive hsafe hlong
  rcases pools_result_cases hinv hret with ⟨addrs, he, hlen, hall, hres⟩ | ⟨msg, _, _, hf⟩
  · have haddr : ∀ j : Nat, j < (BigInt.Int64 c).toNat → addrs.getD j 0 = A j := by
      intro j hj
      have h1 := (hall j hj).1
      rw [(hreads j hj).1] at h1
      exact (Except.ok.inj h1).symm
    have hmap : ((List.range (BigInt.Int64 c).toNat).map
          fun j => (keyOf cm (addrs.getD j 0), addrs.getD j 0)) =
        ((List.range (BigInt.Int64 c).toNat).map fun j => (key j, A j)) := by
      apply List.map_congr_left
      intro j hj
      rw [haddr j (List.mem_range.1 hj),
        keyOf_of_derives cm _ _ (hreads j (List.mem_range.1 hj)).2]
    rw [hmap] at hres
    simp [Config.result, hret, he, hres]
  · exfalso
    rcases hf with ⟨j, hj, hfail⟩ | ⟨j, a, hj, hget, hfail⟩
    · simp [addressTask, fetchTask, Task.failure, Task.outcome, (hreads j hj).1, Except.map]
        at hfail
    · have := (hreads j hj).1
      rw [hget] at this
      cases this
      simp only [Task.failure, pubkeyTask_of_derives cm _ _ j (hreads j hj).2] at hfail
      cases hfail

/-- A count that `make` refuses, negative or larger than the runtime allocates, makes the
function panic before any goroutine is launched: it never returns. -/
theorem pools_never_returns (rt : Runtime) (cm : ContractManager) (c : Int)
    (hcount : cm.getPoolsCount = Except.ok c)
    (hbad : BigInt.Int64 c < 0 ∨ (rt.maxLen : Int) < BigInt.Int64 c) (sched : List Nat) :
    (GetActiveMinipoolsByValidatorPubkey.start rt cm).tasks = [] ∧
    GetActiveMinipoolsByValidatorPubkey rt cm sched = none := by
  have hm : minipoolCountOf cm = BigInt.Int64 c := by simp [minipoolCountOf, hcount]
  have hstart : GetActiveMinipoolsByValidatorPubkey.start rt cm =
      { tasks := [], coll := Coll.active (PoolsState.addresses 0 []), crashed := true } := by
    unfold GetActiveMinipoolsByValidatorPubkey.start
    simp only [hcount, hm]
    rw [if_pos hbad]
  refine ⟨by rw [hstart], ?_⟩
  rw [GetActiveMinipoolsByValidatorPubkey, run_of_no_tasks _ _ _ (by rw [hstart]), hstart]
  rfl

theorem maxLen_lt (rt : Runtime) (K : Nat) (hK : K ≤ rt.maxLen) : (K : Int) < 2 ^ 63 := by
  have h1 := rt.maxLen_le
  have e1 : (2 : Nat) ^ 45 = 35184372088832 := by norm_num
  have e2 : (2 : Int) ^ 63 = 9223372036854775808 := by norm_num
  rw [e1] at h1
  rw [e2]
  omega

/-- C4 (as amended). For every count `K` that `make` accepts as a slice length
(`0 ≤ K ≤ maxLen`, hence below `2^63`): if `getPoolsCount` returns `K`, every `getPoolAt i`
below `K` succeeds with `A i`, the binding and the `getDepositInput` read on `A i` succeed with
at least 52 bytes whose bytes 4..51 hex-encode to `key i`, and the keys are pairwise distinct,
then under every schedule (four steps per minipool suffice) the function returns no error and a
map with exactly `K` entries taking each `key i` to `A i`; for `K = 0` no goroutine is launched
and the map is empty. -/
theorem pools_table_distinct_keys (rt : Runtime) (cm : ContractManager) (K : Nat)
    (A : Nat → Address) (key : Nat → String)
    (hcount : cm.getPoolsCount = Except.ok (K : Int)) (hK : K ≤ rt.maxLen)
    (hreads : ∀ i : Nat, i < K → cm.getPoolAt i = Except.ok (A i) ∧
      ∃ (u : Unit) (d : Bytes), cm.NewContract (A i) = Except.ok u ∧
        cm.getDepositInput (A i) = Except.ok d ∧ 52 ≤ d.data.length ∧
        hexEncode ((d.data.drop 4).take 48) = key i)
    (hinj : ∀ i j : Nat, i < K → j < K → key i = key j → i = j)
    (sched : List Nat) (hlong : 4 * K ≤ sched.length) :
    ∃ table : Table, GetActiveMinipoolsByValidatorPubkey rt cm sched = some (some table, none) ∧
      table.size = K ∧ (∀ i : Nat, i < K → table.lookup (key i) = some (A i)) ∧
      (K = 0 → (GetActiveMinipoolsByValidatorPubkey.start rt cm).tasks = [] ∧ table = ⟨[]⟩) := by
  have h64 : BigInt.Int64 (K : Int) = (K : Int) :=
    int64_of_inRange (K : Int) (by have : (0 : Int) ≤ (K : Int) := Int.ofNat_nonneg K
                                   have e1 : (2 : Int) ^ 63 = 9223372036854775808 := by norm_num
                                   omega) (maxLen_lt rt K hK)
  have hc : 0 ≤ BigInt.Int64 (K : Int) := by rw [h64]; exact Int.ofNat_nonneg K
  have hmax : BigInt.Int64 (K : Int) ≤ (rt.maxLen : Int) := by rw [h64]; exact_mod_cast hK
  have hnat : (BigInt.Int64 (K : Int)).toNat = K := by rw [h64]; simp
  have hres := pools_success rt cm (K : Int) A key hcount hc hmax
    (by
      rw [hnat]
      intro i hi
      obtain ⟨h1, u, d, h2, h3, h4, h5⟩ := hreads i hi
      exact ⟨h1, u, d, _, h2, h3, slice_of_length d h4, h5⟩)
    sched (by rw [hnat]; exact hlong)
  rw [hnat] at hres
  refine ⟨_, hres, ?_, ?_, ?_⟩
  · rw [size_ofList_range, card_keys_of_injective key K hinj]
  · intro i hi
    apply lookup_ofList_range key A K i hi
    intro j hij hj hkey
    have := hinj j i hj hi hkey
    omega
  · intro h0
    subst h0
    refine ⟨?_, rfl⟩
    rw [(pools_start_eq rt cm _ hcount hc hmax).2, hnat]
    rfl

/-- C10 (as amended). With all reads succeeding for the `K` entities of a loop bound that
`make` accepts as a slice length, whatever the keys: under every schedule the function returns
the same map, the one assigned in increasing index order; it has as many entries as there are
distinct keys (fewer than `K` when two indices share a key), and each key is taken to the
address of the highest index that derives it. -/
theorem pools_duplicate_keys (rt : Runtime) (cm : ContractManager) (c : Int)
    (A : Nat → Address) (key : Nat → String)
    (hcount : cm.getPoolsCount = Except.ok c) (hc : 0 ≤ BigInt.Int64 c)
    (hmax : BigInt.Int64 c ≤ (rt.maxLen : Int))
    (hreads : ∀ i : Nat, i < (BigInt.Int64 c).toNat →
      cm.getPoolAt i = Except.ok (A i) ∧ Derives cm (A i) (key i))
    (sched : List Nat) (hlong : 4 * (BigInt.Int64 c).toNat ≤ sched.length) :
    GetActiveMinipoolsByValidatorPubkey rt cm sched =
      some (some (Table.ofList ((List.range (BigInt.Int64 c).toNat).map
        fun j => (key j, A j))), none) ∧
    (Table.ofList ((List.range (BigInt.Int64 c).toNat).map fun j => (key j, A j))).size
      = ((List.range (BigInt.Int64 c).toNat).map key).toFinset.card ∧
    ((∃ i j : Nat, i < (BigInt.Int64 c).toNat ∧ j < (BigInt.Int64 c).toNat ∧ i ≠ j ∧
        key i = key j) →
      (Table.ofList ((List.range (BigInt.Int64 c).toNat).map fun j => (key j, A j))).size
        < (BigInt.Int64 c).toNat) ∧
    (∀ i : Nat, i < (BigInt.Int64 c).toNat →
      (∀ j : Nat, i < j → j < (BigInt.Int64 c).toNat → key j ≠ key i) →
      (Table.ofList ((List.range (BigInt.Int64 c).toNat).map fun j => (key j, A j))).lookup
        (key i) = some (A i)) := by
  refine ⟨pools_success rt cm c A key hcount hc hmax hreads sched hlong,
    size_ofList_range key A _, ?_, ?_⟩
  · intro hdup
    rw [size_ofList_range]
    exact card_keys_of_not_injective key _ hdup
  · intro i hi hlast
    exact lookup_ofList_range key A _ i hi hlast

theorem digitChar_inj : ∀ a : Nat, a < 16 → ∀ b : Nat, b < 16 →
    Nat.digitChar a = Nat.digitChar b → a = b := by decide

theorem hexChars_inj (bs bs' : List Nat) (h : ∀ b ∈ bs, b < 256) (h' : ∀ b ∈ bs', b < 256)
    (hlen : bs.length = bs'.length)
    (e : (bs.flatMap fun b => [Nat.digitChar (b / 16 % 16), Nat.digitChar (b % 16)]) =
      bs'.flatMap fun b => [Nat.digitChar (b / 16 % 16), Nat.digitChar (b % 16)]) :
    bs = bs' := by
  induction bs generalizing bs' with
  | nil =>
    cases bs' with
    | nil => rfl
    | cons y ys => simp at hlen
  | cons x xs ih =>
    cases bs' with
    | nil => simp at hlen
    | cons y ys =>
      simp only [List.flatMap_cons, List.cons_append, List.nil_append, List.cons.injEq] at e
      have e1 := e.1
      have e2 := e.2.1
      have e3 := e.2.2
      have hx : x < 256 := h x (List.mem_cons_self _ _)
      have hy : y < 256 := h' y (List.mem_cons_self _ _)
      have d1 := digitChar_inj _ (Nat.mod_lt _ (by norm_num)) _ (Nat.mod_lt _ (by norm_num)) e1
      have d2 := digitChar_inj _ (Nat.mod_lt _ (by norm_num)) _ (Nat.mod_lt _ (by norm_num)) e2
      have hxy : x = y := by omega
      subst hxy
      rw [ih ys (fun b hb => h b (List.mem_cons_of_mem _ hb))
        (fun b hb => h' b (List.mem_cons_of_mem _ hb)) (by simpa using hlen) e3]

theorem hexEncode_inj (bs bs' : List Nat) (h : ∀ b ∈ bs, b < 256) (h' : ∀ b ∈ bs', b < 256)
    (hlen : bs.length = bs'.length) (e : hexEncode bs = hexEncode bs') : bs = bs' :=
  hexChars_inj bs bs' h h' hlen (congrArg String.data e)

theorem bytes48_lt (i : Nat) : ∀ b ∈ bytes48 i, b < 256 := by
  intro b hb
  simp only [bytes48, List.mem_append, List.mem_replicate] at hb
  rcases hb with hb | ⟨_, hb⟩
  · exact Nat.digits_lt_base (by norm_num) hb
  · omega

theorem digits_length_le (i : Nat) (h : i < 256 ^ 48) : (Nat.digits 256 i).length ≤ 48 := by
  by_cases h0 : i = 0
  · subst h0
    simp
  · have h1 := Nat.base_pow_length_digits_le 256 i (by norm_num) h0
    have h2 : 256 ^ (Nat.digits 256 i).length < 256 ^ 49 := by
      calc 256 ^ (Nat.digits 256 i).length ≤ 256 * i := h1
        _ < 256 * 256 ^ 48 := by omega
        _ = 256 ^ 49 := by norm_num
    have := (Nat.pow_lt_pow_iff_right (by norm_num : 1 < 256)).1 h2
    omega

theorem bytes48_length (i : Nat) (h : i < 256 ^ 48) : (bytes48 i).length = 48 := by
  have := digits_length_le i h
  simp only [bytes48, List.length_append, List.length_replicate]
  omega

theorem ofDigits_replicate_zero (b n : Nat) : Nat.ofDigits b (List.replicate n 0) = 0 := by
  induction n with
  | zero => rfl
  | succ k ih => simp [List.replicate_succ, Nat.ofDigits_cons, ih]

theorem bytes48_inj (i j : Nat) (h : bytes48 i = bytes48 j) : i = j := by
  have := congrArg (Nat.ofDigits 256) h
  simpa [bytes48, Nat.ofDigits_append, Nat.ofDigits_digits, ofDigits_replicate_zero] using this

theorem hugeKey_inj (i j : Nat) (hi : i < 2 ^ 64 + 1) (hj : j < 2 ^ 64 + 1)
    (h : hugeKey i = hugeKey j) : i = j := by
  have hi' : i < 256 ^ 48 := Nat.lt_of_lt_of_le hi (by norm_num)
  have hj' : j < 256 ^ 48 := Nat.lt_of_lt_of_le hj (by norm_num)
  have e : ∀ n : Nat, n < 256 ^ 48 →
      ((List.replicate 4 0 ++ bytes48 n).drop 4).take 48 = bytes48 n := by
    intro n hn
    rw [List.drop_append_of_le_length (by simp), List.drop_of_length_le (by simp),
      List.nil_append, List.take_of_length_le (by rw [bytes48_length n hn])]
  unfold hugeKey at h
  rw [e i hi', e j hj'] at h
  exact bytes48_inj i j (hexEncode_inj _ _ (bytes48_lt i) (bytes48_lt j)
    (by rw [bytes48_length i hi', bytes48_length j hj']) h)

/-- C4 (witness): the three minipools of `cmOk`. -/
theorem pools_table_distinct_keys_witness :
    ∃ table : Table,
      GetActiveMinipoolsByValidatorPubkey rt64 cmOk (List.replicate 12 0) = some (some table, none) ∧
      table.size = 3 ∧
      (∀ i : Nat, i < 3 →
        table.lookup (hexEncode (List.replicate 48 (160 + i))) = some (160 + i)) ∧
      (3 = 0 → (GetActiveMinipoolsByValidatorPubkey.start rt64 cmOk).tasks = [] ∧ table = ⟨[]⟩) :=
  pools_table_distinct_keys rt64 cmOk 3 (fun i => 160 + i)
    (fun i => hexEncode (List.replicate 48 (160 + i))) rfl (by decide)
    (by
      intro i hi
      interval_cases i
      · exact ⟨rfl, (), ⟨List.replicate 52 160, []⟩, rfl, rfl, by decide, by decide⟩
      · exact ⟨rfl, (), ⟨List.replicate 52 161, []⟩, rfl, rfl, by decide, by decide⟩
      · exact ⟨rfl, (), ⟨List.replicate 52 162, []⟩, rfl, rfl, by decide, by decide⟩)
    (by
      intro i j hi hj h
      interval_cases i <;> interval_cases j <;>
        first | rfl | (exfalso; revert h; decide))
    (List.replicate 12 0) (by decide)

/-- C4 (counterexample). `getPoolsCount` returns `2^64 + 1`, every read succeeds and the keys
are pairwise distinct, yet every schedule ends with a map of one entry: `Int64` keeps the low
64 bits of the count. `getPoolsCount` returns `2^62`, every read would succeed with pairwise
distinct keys, yet on every runtime `make` panics, no read is issued and nothing is returned. -/
theorem pools_huge_count_counterexample :
    (cmHuge.getPoolsCount = Except.ok (((2 ^ 64 + 1 : Nat) : Int)) ∧
     (∀ i : Nat, i < 2 ^ 64 + 1 → cmHuge.getPoolAt i = Except.ok i ∧
       ∃ (u : Unit) (d : Bytes), cmHuge.NewContract i = Except.ok u ∧
         cmHuge.getDepositInput i = Except.ok d ∧ 52 ≤ d.data.length ∧
         hexEncode ((d.data.drop 4).take 48) = hugeKey i) ∧
     (∀ i j : Nat, i < 2 ^ 64 + 1 → j < 2 ^ 64 + 1 → hugeKey i = hugeKey j → i = j) ∧
     (∀ sched : List Nat, 4 ≤ sched.length →
       ∃ table : Table,
         GetActiveMinipoolsByValidatorPubkey rt64 cmHuge sched = some (some table, none) ∧
         table.size = 1 ∧ table.size ≠ 2 ^ 64 + 1)) ∧
    (cmHuge62.getPoolsCount = Except.ok (((2 ^ 62 : Nat) : Int)) ∧
     (∀ i : Nat, i < 2 ^ 62 → cmHuge62.getPoolAt i = Except.ok i ∧
       ∃ (u : Unit) (d : Bytes), cmHuge62.NewContract i = Except.ok u ∧
         cmHuge62.getDepositInput i = Except.ok d ∧ 52 ≤ d.data.length ∧
         hexEncode ((d.data.drop 4).take 48) = hugeKey i) ∧
     (∀ i j : Nat, i < 2 ^ 62 → j < 2 ^ 62 → hugeKey i = hugeKey j → i = j) ∧
     (∀ (rt : Runtime) (sched : List Nat),
       (GetActiveMinipoolsByValidatorPubkey.start rt cmHuge62).tasks = [] ∧
       GetActiveMinipoolsByValidatorPubkey rt cmHuge62 sched = none)) := by
  have hdata : ∀ i : Nat, 52 ≤ (List.replicate 4 0 ++ bytes48 i).length := by
    intro i
    simp only [List.length_append, List.length_replicate, bytes48]
    omega
  constructor
  · refine ⟨rfl,
      fun i _ => ⟨rfl, (), ⟨List.replicate 4 0 ++ bytes48 i, []⟩, rfl, rfl, hdata i, rfl⟩,
      hugeKey_inj, ?_⟩
    intro sched hlong
    have h64 : BigInt.Int64 (2 ^ 64 + 1) = 1 := by decide
    have hres := pools_success rt64 cmHuge (2 ^ 64 + 1) (fun i => i) hugeKey rfl
      (by rw [h64]; decide) (by rw [h64]; decide)
      (by
        intro i _
        exact ⟨rfl, (), ⟨List.replicate 4 0 ++ bytes48 i, []⟩, _, rfl, rfl,
          slice_of_length _ (hdata i), rfl⟩)
      sched (by rw [h64]; exact hlong)
    rw [h64] at hres
    refine ⟨_, hres, ?_, ?_⟩
    · rfl
    · have : (Table.ofList ((List.range (1 : Int).toNat).map fun j => (hugeKey j, j))).size = 1 :=
        rfl
      rw [this]
      norm_num
  · refine ⟨rfl,
      fun i _ => ⟨rfl, (), ⟨List.replicate 4 0 ++ bytes48 i, []⟩, rfl, rfl, hdata i, rfl⟩,
      fun i j hi hj h => hugeKey_inj i j (by omega) (by omega) h, ?_⟩
    intro rt sched
    have h64 : BigInt.Int64 (2 ^ 62) = 2 ^ 62 := by decide
    apply pools_never_returns rt cmHuge62 (2 ^ 62) rfl
    right
    rw [h64]
    have h1 := rt.maxLen_le
    have e1 : (2 : Nat) ^ 45 = 35184372088832 := by norm_num
    have e2 : (2 : Int) ^ 62 = 4611686018427387904 := by norm_num
    rw [e1] at h1
    rw [e2]
    omega

/-- C10 (witness): indices 0 and 2 of `cmSharedKey` derive the same key; the map has two
entries and takes that key to the address of index 2. -/
theorem pools_duplicate_keys_witness :
    GetActiveMinipoolsByValidatorPubkey rt64 cmSharedKey (List.replicate 12 0) =
      some (some (Table.ofList ((List.range (BigInt.Int64 3).toNat).map
        fun j => (sharedKey j, 160 + j))), none) ∧
    (Table.ofList ((List.range (BigInt.Int64 3).toNat).map
        fun j => (sharedKey j, 160 + j))).size < (BigInt.Int64 3).toNat ∧
    (Table.ofList ((List.range (BigInt.Int64 3).toNat).map
        fun j => (sharedKey j, 160 + j))).lookup (sharedKey 2) = some 162 := by
  have hreads : ∀ i : Nat, i < (BigInt.Int64 3).toNat →
      cmSharedKey.getPoolAt i = Except.ok (160 + i) ∧
        Derives cmSharedKey (160 + i) (sharedKey i) := by
    intro i hi
    have hi3 : i < 3 := hi
    interval_cases i
    · exact ⟨rfl, (), ⟨List.replicate 52 160, []⟩, List.replicate 48 160, rfl, rfl, by decide,
        by decide⟩
    · exact ⟨rfl, (), ⟨List.replicate 52 161, []⟩, List.replicate 48 161, rfl, rfl, by decide,
        by decide⟩
    · exact ⟨rfl, (), ⟨List.replicate 52 160, []⟩, List.replicate 48 160, rfl, rfl, by decide,
        by decide⟩
  have h := pools_duplicate_keys rt64 cmSharedKey 3 (fun j => 160 + j) sharedKey rfl
    (by decide) (by decide) hreads (List.replicate 12 0) (by decide)
  exact ⟨h.1, h.2.2.1 ⟨0, 2, by decide, by decide, by decide, by decide⟩,
    h.2.2.2 2 (by decide) (fun j h1 h2 => by
      have h3 : j < 3 := h2
      omega)⟩

/-- C10 (counterexample). `getPoolsCount` returns `2^62`, every read would succeed and indices
0 and 256 derive the same key, yet on every runtime `make` panics and no map is returned. -/
theorem pools_duplicate_keys_counterexample :
    cmManyPools.getPoolsCount = Except.ok (2 ^ 62) ∧
    (BigInt.Int64 (2 ^ 62)).toNat = 2 ^ 62 ∧
    (∀ i : Nat, i < 2 ^ 62 →
      cmManyPools.getPoolAt i = Except.ok (160 + i) ∧
        Derives cmManyPools (160 + i) (manyKey i)) ∧
    manyKey 0 = manyKey 256 ∧
    (∀ (rt : Runtime) (sched : List Nat),
      GetActiveMinipoolsByValidatorPubkey rt cmManyPools sched = none) := by
  have h64 : BigInt.Int64 (2 ^ 62) = 2 ^ 62 := by decide
  refine ⟨rfl, by rw [h64]; rfl, ?_, by decide, ?_⟩
  · intro i _
    exact ⟨rfl, (), ⟨List.replicate 52 ((160 + i) % 256), []⟩, _, rfl, rfl,
      slice_of_length _ (by simp), rfl⟩
  · intro rt sched
    apply (pools_never_returns rt cmManyPools (2 ^ 62) rfl _ sched).2
    right
    rw [h64]
    have h1 := rt.maxLen_le
    have e1 : (2 : Nat) ^ 45 = 35184372088832 := by norm_num
    have e2 : (2 : Int) ^ 62 = 4611686018427387904 := by norm_num
    rw [e1] at h1
    rw [e2]
    omega

theorem noPanic_of_blobs (cm : ContractManager) (K : Nat)
    (hblob : ∀ (j : Nat) (a : Address) (d : Bytes), j < K → cm.getPoolAt j = Except.ok a →
      cm.getDepositInput a = Except.ok d → 52 ≤ d.cap) : NoPanic cm K := by
  intro j a hj hget
  unfold pubkeyTask
  cases h1 : cm.NewContract a with
  | error e => simp [Task.outcome]
  | ok u =>
    cases h2 : cm.getDepositInput a with
    | error e => simp [Task.outcome]
    | ok d =>
      have := hblob j a d hj hget h2
      simp [Task.outcome, Bytes.slice, this]

theorem pubkeyTask_failure_of_error (cm : ContractManager) (a : Address) (j : Nat) (e : String)
    (h : cm.NewContract a = Except.error e ∨ cm.getDepositInput a = Except.error e) :
    ∃ msg, (pubkeyTask cm a j).outcome = some (Event.error msg) := by
  unfold pubkeyTask
  cases h1 : cm.NewContract a with
  | error e' => exact ⟨_, rfl⟩
  | ok u =>
    rcases h with h | h
    · rw [h1] at h
      cases h
    · rw [h]
      exact ⟨_, rfl⟩

/-- C5 (as amended). If the `getPoolsCount` read fails the function returns `nil` and that
error. If, for a loop bound `K` read from the count that `make` accepts as a slice length, one
of the `K` `getPoolAt` reads fails, or the binding or the `getDepositInput` read fails on one of
the returned addresses, and every deposit input that is read successfully has capacity at least
52, then under every schedule (four steps per minipool suffice) the function returns `nil` and
the message of one failing goroutine: no map and none of the fetched addresses or keys. -/
theorem pools_fail_fast (rt : Runtime) (cm : ContractManager) (sched : List Nat) :
    (∀ e : String, cm.getPoolsCount = Except.error e →
      GetActiveMinipoolsByValidatorPubkey rt cm sched =
        some (none, some ("Error retrieving minipool count: " ++ e))) ∧
    (∀ c : Int, cm.getPoolsCount = Except.ok c → BigInt.Int64 c ≤ (rt.maxLen : Int) →
      (∀ (j : Nat) (a : Address) (d : Bytes), j < (BigInt.Int64 c).toNat →
        cm.getPoolAt j = Except.ok a → cm.getDepositInput a = Except.ok d → 52 ≤ d.cap) →
      ((∃ (j : Nat) (e : String), j < (BigInt.Int64 c).toNat ∧
          cm.getPoolAt j = Except.error e) ∨
        (∃ (j : Nat) (a : Address) (e : String), j < (BigInt.Int64 c).toNat ∧
          cm.getPoolAt j = Except.ok a ∧
          (cm.NewContract a = Except.error e ∨ cm.getDepositInput a = Except.error e))) →
      4 * (BigInt.Int64 c).toNat ≤ sched.length →
      ∃ msg : String, GetActiveMinipoolsByValidatorPubkey rt cm sched = some (none, some msg) ∧
        PoolsFailure cm (BigInt.Int64 c).toNat msg) := by
  constructor
  · intro e he
    have hst : (GetActiveMinipoolsByValidatorPubkey.start rt cm).tasks = [] := by
      simp [GetActiveMinipoolsByValidatorPubkey.start, he]
    rw [GetActiveMinipoolsByValidatorPubkey, run_of_no_tasks _ _ _ hst]
    simp [GetActiveMinipoolsByValidatorPubkey.start, he, Config.result]
  · intro c hcount hmax hblob hfail hlong
    have hc : 0 ≤ BigInt.Int64 c := by
      rcases hfail with ⟨j, _, hj, _⟩ | ⟨j, _, _, hj, _⟩ <;> omega
    rw [getActive_eq rt cm c sched hcount hc hmax]
    obtain ⟨hinv, hlive⟩ := pools_run cm (BigInt.Int64 c).toNat sched
    obtain ⟨res, err, hret⟩ := hlive (noPanic_of_blobs cm _ hblob) hlong
    rcases pools_result_cases hinv hret with ⟨addrs, he, hlen, hall, hres⟩ | ⟨msg, h1, h2, hf⟩
    · exfalso
      rcases hfail with ⟨j, e, hj, hget⟩ | ⟨j, a, e, hj, hget, herr⟩
      · have := (hall j hj).1
        rw [hget] at this
        cases this
      · have h1 := (hall j hj).1
        rw [hget] at h1
        have ha : a = addrs.getD j 0 := Except.ok.inj h1
        obtain ⟨msg, hmsg⟩ := pubkeyTask_failure_of_error cm a j e herr
        have h2 := (hall j hj).2
        rw [← ha, hmsg] at h2
        cases h2
    · exact ⟨msg, by simp [Config.result, hret, h1, h2], hf⟩

/-- C5 (witness): the second `getDepositInput` read of `cmPoolFails` fails. -/
theorem pools_fail_fast_witness :
    ∃ msg : String,
      GetActiveMinipoolsByValidatorPubkey rt64 cmPoolFails (List.replicate 8 0)
        = some (none, some msg) ∧
      PoolsFailure cmPoolFails (BigInt.Int64 2).toNat msg :=
  (pools_fail_fast rt64 cmPoolFails (List.replicate 8 0)).2 2 rfl (by decide)
    (by
      intro j a d hj hget hd
      have hj2 : j < 2 := hj
      interval_cases j
      · cases hget
        cases hd
        decide
      · cases hget
        cases hd)
    (Or.inr ⟨1, 161, "boom", by decide, rfl, Or.inr rfl⟩) (by decide)

/-- C5 (counterexample). The first `getDepositInput` read of `cmPoolPanics` fails; under the
schedule that runs the goroutine of the second minipool first, that goroutine panics on its
three-byte deposit input and the function never returns. With the count `2^62` of `cmManyFail`
every `getPoolAt` read would fail, yet on every runtime `make` panics and nothing is returned. -/
theorem pools_fail_fast_counterexample :
    cmPoolPanics.getPoolsCount = Except.ok 2 ∧
    cmPoolPanics.getPoolAt 0 = Except.ok 160 ∧
    cmPoolPanics.getDepositInput 160 = Except.error "boom" ∧
    ¬ (∀ sched : List Nat, 8 ≤ sched.length →
        ∃ msg, GetActiveMinipoolsByValidatorPubkey rt64 cmPoolPanics sched
          = some (none, some msg)) ∧
    cmManyFail.getPoolsCount = Except.ok (2 ^ 62) ∧
    cmManyFail.getPoolAt 0 = Except.error "boom" ∧
    (∀ (rt : Runtime) (sched : List Nat),
      GetActiveMinipoolsByValidatorPubkey rt cmManyFail sched = none) := by
  refine ⟨rfl, rfl, rfl, ?_, rfl, rfl, ?_⟩
  · intro h
    obtain ⟨msg, hmsg⟩ := h ([0, 0, 0, 0, 1] ++ List.replicate 10 0) (by decide)
    have hnone : GetActiveMinipoolsByValidatorPubkey rt64 cmPoolPanics
        ([0, 0, 0, 0, 1] ++ List.replicate 10 0) = none := by decide
    rw [hnone] at hmsg
    cases hmsg
  · intro rt sched
    have h64 : BigInt.Int64 (2 ^ 62) = 2 ^ 62 := by decide
    apply (pools_never_returns rt cmManyFail (2 ^ 62) rfl _ sched).2
    right
    rw [h64]
    have h1 := rt.maxLen_le
    have e1 : (2 : Nat) ^ 45 = 35184372088832 := by norm_num
    have e2 : (2 : Int) ^ 62 = 4611686018427387904 := by norm_num
    rw [e1] at h1
    rw [e2]
    omega

theorem int64_low_bits (m n : Nat) (hn : n < 2 ^ 63) :
    BigInt.Int64 (((m * 2 ^ 64 + n : Nat)) : Int) = (n : Int) := by
  unfold BigInt.Int64 int64
  have e1 : (2 : Int) ^ 63 = 9223372036854775808 := by norm_num
  have e2 : (2 : Int) ^ 64 = 18446744073709551616 := by norm_num
  have e3 : (2 : Nat) ^ 64 = 18446744073709551616 := by norm_num
  have e4 : (2 : Nat) ^ 63 = 9223372036854775808 := by norm_num
  simp only [e1, e2, e3, e4, Int.natAbs_ofNat] at hn ⊢
  split <;> omega

/-- C7 (as amended). The count is narrowed by `Int64` without a range check: for every
returned count `c = m * 2^64 + n` whose low 64 bits `n` are a length that `make` accepts
(`n ≤ maxLen`; `c` is beyond `2^63 - 1` as soon as `m ≥ 1`) the function takes `n` as the
number of entities: it launches exactly the reads `getPoolAt 0 .. getPoolAt (n-1)`, returns no
error for the count, and when all reads succeed it returns the map of these `n` entities. -/
theorem count_low_bits (rt : Runtime) (cm : ContractManager) (m n : Nat) (hn : n ≤ rt.maxLen)
    (hcount : cm.getPoolsCount = Except.ok (((m * 2 ^ 64 + n : Nat)) : Int)) :
    minipoolCountOf cm = (n : Int) ∧
    (GetActiveMinipoolsByValidatorPubkey.start rt cm).tasks
      = (List.range n).map (addressTask cm) ∧
    (GetActiveMinipoolsByValidatorPubkey.start rt cm).crashed = false ∧
    (∀ msg : String,
      (GetActiveMinipoolsByValidatorPubkey.start rt cm).coll
        ≠ Coll.returned none (some msg)) ∧
    (∀ (A : Nat → Address) (key : Nat → String),
      (∀ i : Nat, i < n → cm.getPoolAt i = Except.ok (A i) ∧ Derives cm (A i) (key i)) →
      ∀ sched : List Nat, 4 * n ≤ sched.length →
        GetActiveMinipoolsByValidatorPubkey rt cm sched =
          some (some (Table.ofList ((List.range n).map fun j => (key j, A j))), none)) := by
  have hn63 : n < 2 ^ 63 := by
    have := maxLen_lt rt n hn
    exact_mod_cast this
  have h64 := int64_low_bits m n hn63
  have hc : 0 ≤ BigInt.Int64 (((m * 2 ^ 64 + n : Nat)) : Int) := by
    rw [h64]
    exact Int.ofNat_nonneg n
  have hmax : BigInt.Int64 (((m * 2 ^ 64 + n : Nat)) : Int) ≤ (rt.maxLen : Int) := by
    rw [h64]
    exact_mod_cast hn
  have hnat : (BigInt.Int64 (((m * 2 ^ 64 + n : Nat)) : Int)).toNat = n := by
    rw [h64]
    simp
  obtain ⟨hm, hstart⟩ := pools_start_eq rt cm _ hcount hc hmax
  rw [hnat] at hstart
  refine ⟨by rw [hm, h64], ?_, by rw [hstart], ?_, ?_⟩
  · rw [hstart]
    simp only [receiveAddresses]
    split
    · simp
    · have h0 : n = 0 := by omega
      subst h0
      rfl
  · intro msg
    rw [hstart]
    simp only [receiveAddresses, receivePubkeys]
    split
    · simp
    · simp
  · intro A key hreads sched hlong
    have := pools_success rt cm _ A key hcount hc hmax (by rw [hnat]; exact hreads) sched
      (by rw [hnat]; exact hlong)
    rw [hnat] at this
    exact this

/-- C7 (witness): the count `2^64 + 3` is taken as 3. -/
theorem count_low_bits_witness :
    minipoolCountOf cmBigCount = 3 ∧
    (GetActiveMinipoolsByValidatorPubkey.start rt64 cmBigCount).tasks
      = (List.range 3).map (addressTask cmBigCount) :=
  ⟨(count_low_bits rt64 cmBigCount 1 3 (by decide) rfl).1,
   (count_low_bits rt64 cmBigCount 1 3 (by decide) rfl).2.1⟩

/-- C7 (counterexample). The count `2^64 + 3` exceeds `2^63 - 1`; the function launches three
per-index reads and returns a map and no error. -/
theorem count_rejected_counterexample :
    cmBigCount.getPoolsCount = Except.ok (2 ^ 64 + 3) ∧
    (GetActiveMinipoolsByValidatorPubkey.start rt64 cmBigCount).tasks.length = 3 ∧
    (GetActiveMinipoolsByValidatorPubkey rt64 cmBigCount (List.replicate 12 0)).map
      (fun r => (r.1.map Table.size, r.2)) = some (some 3, none) := by
  refine ⟨rfl, by decide, by decide⟩

/-- C6 (as amended). No decode failure is ever reported. In `GetStatus` and in the second round
of `GetActiveMinipoolsByValidatorPubkey`, for every deposit input returned by a successful read
the goroutine sends no failure message; when the slice `[4:52]` is in range (capacity at least
52) it sends the sliced bytes (hex-encoded in the second round) on its data channel. With the
binding and all reads succeeding, neither function ever returns an error, whatever the length
of the deposit inputs. -/
theorem no_decode_failure (cm : ContractManager) (a : Address) (j : Nat) (d : Bytes)
    (hd : cm.getDepositInput a = Except.ok d) :
    (validatorPubkeyTask cm a).failure = none ∧
    (52 ≤ d.cap → validatorPubkeyTask cm a = Task.running (some (Event.value
      (StatusValue.validatorPubkey (((d.data ++ d.spare).drop 4).take 48))))) ∧
    (∀ u : Unit, cm.NewContract a = Except.ok u →
      (pubkeyTask cm a j).failure = none ∧
      (52 ≤ d.cap → pubkeyTask cm a j = Task.running (some (Event.value
        (PoolValue.validatorPubkey j (hexEncode (((d.data ++ d.spare).drop 4).take 48))))))) ∧
    (∀ (u : Unit) (s : Nat) (block duration : Int), cm.NewContract a = Except.ok u →
      cm.getStatus a = Except.ok s → cm.getStatusChangedBlock a = Except.ok block →
      cm.getStakingDuration a = Except.ok duration →
      ∀ (sched : List Nat) (res : Option Minipool.Status) (msg : String),
        GetStatus cm a sched ≠ some (res, some msg)) ∧
    (∀ (rt : Runtime) (c : Int), cm.getPoolsCount = Except.ok c →
      (∀ i : Nat, i < (BigInt.Int64 c).toNat →
        ∃ (a' : Address) (u : Unit) (d' : Bytes), cm.getPoolAt i = Except.ok a' ∧
          cm.NewContract a' = Except.ok u ∧ cm.getDepositInput a' = Except.ok d') →
      ∀ (sched : List Nat) (res : Option Table) (msg : String),
        GetActiveMinipoolsByValidatorPubkey rt cm sched ≠ some (res, some msg)) := by
  have hslice : 52 ≤ d.cap → d.slice 4 52 = some (((d.data ++ d.spare).drop 4).take 48) := by
    intro h
    simp [Bytes.slice, h]
  refine ⟨?_, ?_, ?_, ?_, ?_⟩
  · unfold validatorPubkeyTask
    rw [hd]
    simp only [Task.failure, Task.outcome]
    cases d.slice 4 52 <;> rfl
  · intro h
    unfold validatorPubkeyTask
    rw [hd]
    simp only [hslice h, Option.map_some']
  · intro u hu
    constructor
    · unfold pubkeyTask
      rw [hu, hd]
      simp only [Task.failure, Task.outcome]
      cases d.slice 4 52 <;> rfl
    · intro h
      unfold pubkeyTask
      rw [hu, hd]
      simp only [hslice h, Option.map_some']
  · intro u s block duration hu h0 h1 h2 sched res msg hres
    simp only [GetStatus, getStatus_start_ok cm a u hu] at hres
    have hinv := getStatus_inv cm a sched
    cases hc : (run statusCollector sched
        { tasks := statusTasks cm a, coll := Coll.active ({}, 0), crashed := false }).coll with
    | active st => simp [Config.result, hc] at hres
    | returned res' err' =>
      simp only [Config.result, hc, Option.some.injEq, Prod.mk.injEq] at hres
      obtain ⟨hr1, hr2⟩ := hres
      subst hr1 hr2
      rcases record_result_cases hinv hc with ⟨_, _, he, _⟩ | ⟨msg', _, hm, i, hi⟩
      · cases he
      · have hmem := List.getElem?_mem hi
        simp only [statusTasks, fetchTask, validatorPubkeyTask, h0, h1, h2, hd, Except.map,
          List.map_cons, List.map_nil, Task.outcome] at hmem
        cases hsl : d.slice 4 52 <;> simp [hsl] at hmem
  · intro rt c hcount hreads sched res msg hres
    by_cases hbad : BigInt.Int64 c < 0 ∨ (rt.maxLen : Int) < BigInt.Int64 c
    · rw [(pools_never_returns rt cm c hcount hbad sched).2] at hres
      cases hres
    · rw [getActive_eq rt cm c sched hcount (by omega) (by omega)] at hres
      have hinv := (pools_run cm (BigInt.Int64 c).toNat sched).1
      cases hc : (run (poolsCollector cm (BigInt.Int64 c).toNat) sched
          { tasks := (List.range (BigInt.Int64 c).toNat).map (addressTask cm) ++
              (receiveAddresses cm (BigInt.Int64 c).toNat 0 []).2,
            coll := (receiveAddresses cm (BigInt.Int64 c).toNat 0 []).1,
            crashed := false }).coll with
      | active st => simp [Config.result, hc] at hres
      | returned res' err' =>
        simp only [Config.result, hc, Option.some.injEq, Prod.mk.injEq] at hres
        obtain ⟨hr1, hr2⟩ := hres
        subst hr1 hr2
        rcases pools_result_cases hinv hc with ⟨_, he, _⟩ | ⟨msg', _, _, hf⟩
        · cases he
        · rcases hf with ⟨i, hi, hfail⟩ | ⟨i, a', hi, hget, hfail⟩
          · obtain ⟨a0, u, d0, h1, _, _⟩ := hreads i hi
            simp [addressTask, fetchTask, Task.failure, Task.outcome, h1, Except.map] at hfail
          · obtain ⟨a0, u, d0, h1, h2, h3⟩ := hreads i hi
            rw [hget] at h1
            have ha := Except.ok.inj h1
            subst ha
            unfold pubkeyTask at hfail
            rw [h2, h3] at hfail
            simp only [Task.failure, Task.outcome] at hfail
            cases d0.slice 4 52 <;> simp at hfail

/-- C6 (witness): the 52-byte deposit inputs of `cmOk`. -/
theorem no_decode_failure_witness :
    (validatorPubkeyTask cmOk 7).failure = none ∧
    validatorPubkeyTask cmOk 7 = Task.running (some (Event.value
      (StatusValue.validatorPubkey (List.replicate 48 7)))) ∧
    (∀ (sched : List Nat) (res : Option Minipool.Status) (msg : String),
      GetStatus cmOk 7 sched ≠ some (res, some msg)) ∧
    (∀ (sched : List Nat) (res : Option Table) (msg : String),
      GetActiveMinipoolsByValidatorPubkey rt64 cmOk sched ≠ some (res, some msg)) :=
  ⟨(no_decode_failure cmOk 7 0 ⟨List.replicate 52 7, []⟩ rfl).1,
   (no_decode_failure cmOk 7 0 ⟨List.replicate 52 7, []⟩ rfl).2.1 (by decide),
   (no_decode_failure cmOk 7 0 ⟨List.replicate 52 7, []⟩ rfl).2.2.2.1 () 2 900 526000 rfl rfl
     rfl rfl,
   (no_decode_failure cmOk 7 0 ⟨List.replicate 52 7, []⟩ rfl).2.2.2.2 rt64 3 rfl
     (fun i _ => ⟨160 + i, (), ⟨List.replicate 52 ((160 + i) % 256), []⟩, rfl, rfl, rfl⟩)⟩

/-- C6 (counterexample). The deposit input of `cmOkShortBlob` is read successfully and has
three bytes: the goroutine sends nothing, neither a failure nor a key, and panics; `GetStatus`
and `GetActiveMinipoolsByValidatorPubkey` do not return an error, they never return. -/
theorem decode_failure_counterexample :
    cmOkShortBlob.getDepositInput 7 = Except.ok ⟨[1, 2, 3], []⟩ ∧
    validatorPubkeyTask cmOkShortBlob 7 = Task.running none ∧
    pubkeyTask cmOkShortBlob 160 0 = Task.running none ∧
    ¬ (∀ sched : List Nat, 8 ≤ sched.length →
        ∃ msg, GetStatus cmOkShortBlob 7 sched = some (none, some msg)) ∧
    ¬ (∀ sched : List Nat, 12 ≤ sched.length →
        ∃ msg, GetActiveMinipoolsByValidatorPubkey rt64 cmOkShortBlob sched
          = some (none, some msg)) := by
  refine ⟨rfl, rfl, rfl, ?_, ?_⟩
  · intro h
    obtain ⟨msg, hmsg⟩ := h (List.replicate 8 0) (by decide)
    have hnone : GetStatus cmOkShortBlob 7 (List.replicate 8 0) = none := by decide
    rw [hnone] at hmsg
    cases hmsg
  · intro h
    obtain ⟨msg, hmsg⟩ := h (List.replicate 12 0) (by decide)
    have hnone : GetActiveMinipoolsByValidatorPubkey rt64 cmOkShortBlob (List.replicate 12 0)
        = none := by decide
    rw [hnone] at hmsg
    cases hmsg

/-! ## After the collector has returned: proofs -/

theorem later_refl (c : Config S V R) : Later c c :=
  ⟨rfl, rfl, Nat.le_refl _, fun _ => Iff.rfl, fun _ _ h => h, fun _ _ h => Or.inl h⟩

theorem later_step (C : Collector S V R) (c c1 c2 : Config S V R) (res : Option R)
    (err : Option String) (hret : c.coll = Coll.returned res err) (h1 : Later c c1)
    (hstep : Step C c1 c2) : Later c c2 := by
  obtain ⟨hcoll, hlen, hload, hdone, hblocked, hrunning⟩ := h1
  have hret1 : c1.coll = Coll.returned res err := by rw [hcoll, hret]
  cases hstep with
  | failure i msg s hc ht hs =>
    rw [hs] at hret1
    cases hret1
  | receive i v s hc ht hs ha =>
    rw [hs] at hret1
    cases hret1
  | callReturns i e hc ht =>
    have hl := load_set c1.tasks i _ (Task.blocked e) ht
    simp only [Task.weight] at hl
    refine ⟨hcoll, by simpa using hlen, by simp only; omega, ?_, ?_, ?_⟩
    · intro j
      rw [← hdone j]
      by_cases hij : i = j
      · subst hij
        simp [set_get_same _ _ _ _ ht, ht]
      · simp only [List.getElem?_set_ne hij]
    · intro j e' hj
      have := hblocked j e' hj
      by_cases hij : i = j
      · subst hij
        rw [ht] at this
        cases this
      · simp only [List.getElem?_set_ne hij]
        exact this
    · intro j e' hj
      by_cases hij : i = j
      · subst hij
        rcases hrunning i e' hj with h | h
        · rw [ht] at h
          cases h
          exact Or.inr (set_get_same _ _ _ _ ht)
        · rw [ht] at h
          cases h
      · simp only [List.getElem?_set_ne hij]
        exact hrunning j e' hj
  | panics i hc ht =>
    have hl := load_set c1.tasks i _ (Task.panicked) ht
    simp only [Task.weight] at hl
    refine ⟨hcoll, by simpa using hlen, by simp only; omega, ?_, ?_, ?_⟩
    · intro j
      rw [← hdone j]
      by_cases hij : i = j
      · subst hij
        simp [set_get_same _ _ _ _ ht, ht]
      · simp only [List.getElem?_set_ne hij]
    · intro j e' hj
      have := hblocked j e' hj
      by_cases hij : i = j
      · subst hij
        rw [ht] at this
        cases this
      · simp only [List.getElem?_set_ne hij]
        exact this
    · intro j e' hj
      by_cases hij : i = j
      · subst hij
        rcases hrunning i e' hj with h | h
        · rw [ht] at h
          cases h
        · rw [ht] at h
          cases h
      · simp only [List.getElem?_set_ne hij]
        exact hrunning j e' hj

theorem load_le (ts : List (Task V)) : load ts ≤ 2 * ts.length := by
  induction ts with
  | nil => simp [load]
  | cons x xs ih =>
    simp only [load, List.map_cons, List.sum_cons, List.length_cons] at ih ⊢
    cases x <;> simp only [Task.weight] <;> omega

/-- A schedule at least as long as a measure that decreases on the configurations of an
invariant ends in a final configuration. -/
theorem run_final_inv (C : Collector S V R) (Inv : Config S V R → Prop)
    (mu : Config S V R → Nat)
    (hinv : ∀ c c', Inv c → Step C c c' → Inv c')
    (hmu : ∀ c c', Inv c → Step C c c' → mu c' < mu c) :
    ∀ (sched : List Nat) (c : Config S V R), Inv c → mu c ≤ sched.length →
      next C (run C sched c) = [] := by
  intro sched
  induction sched with
  | nil =>
    intro c hc h
    rw [next_eq_nil_iff]
    intro c' hs
    have := hmu c c' hc hs
    simp at h
    omega
  | cons n ns ih =>
    intro c hc h
    unfold run
    split
    · rename_i hnext
      exact hnext
    · rename_i s ss hnext
      have hm : (s :: ss).getD (n % (ss.length + 1)) s ∈ next C c := by
        rw [hnext]
        exact getD_mem_of_mem _ _ _ (List.mem_cons_self _ _)
      have hstep := (mem_next_iff C c _).1 hm
      have := hmu c _ hc hstep
      simp at h
      exact ih _ (hinv c _ hc hstep) (by omega)

theorem final_no_running (C : Collector S V R) (c : Config S V R)
    (hfin : next C c = []) (hc : c.crashed = false) (i : Nat) (out : Option (Event V)) :
    c.tasks[i]? ≠ some (Task.running out) := by
  rw [next_eq_nil_iff] at hfin
  intro ht
  cases out with
  | none => exact hfin _ (Step.panics i hc ht)
  | some e => exact hfin _ (Step.callReturns i e hc ht)

/-- Once the collector has returned, under every schedule the tasks still in flight never get
past their send. -/
theorem after_return (C : Collector S V R) (c : Config S V R) (res : Option R)
    (err : Option String) (hret : c.coll = Coll.returned res err) (sched : List Nat) :
    StaysBlocked C c sched := by
  have hlater := run_invariant C (Later c)
    (fun c1 c2 h1 hs => later_step C c c1 c2 res err hret h1 hs) sched c (later_refl c)
  obtain ⟨hcoll, hlen, hload, hdone, hblocked, hrunning⟩ := hlater
  exact ⟨hcoll, hdone, hblocked, hrunning⟩

/-- Once the collector has returned, a schedule with one step per remaining transition ends in
a final configuration. -/
theorem after_return_final (C : Collector S V R) (c : Config S V R) (res : Option R)
    (err : Option String) (hret : c.coll = Coll.returned res err) (sched : List Nat)
    (hlong : load c.tasks ≤ sched.length) : next C (run C sched c) = [] :=
  run_final_inv C (Later c) (fun c' => load c'.tasks)
    (fun c1 c2 h1 hs => later_step C c c1 c2 res err hret h1 hs)
    (fun c1 c2 h1 hs => by
      have hret1 : c1.coll = Coll.returned res err := by rw [h1.1, hret]
      cases hs with
      | failure i msg s hc ht hs' =>
        rw [hs'] at hret1
        cases hret1
      | receive i v s hc ht hs' ha =>
        rw [hs'] at hret1
        cases hret1
      | callReturns i e hc ht =>
        have hl := load_set c1.tasks i _ (Task.blocked e) ht
        simp only [Task.weight] at hl ⊢
        omega
      | panics i hc ht =>
        have hl := load_set c1.tasks i _ (Task.panicked) ht
        simp only [Task.weight] at hl ⊢
        omega)
    sched c (later_refl c) hlong

theorem run_measure_le (C : Collector S V R) (mu : Config S V R → Nat)
    (hmu : ∀ c c', Step C c c' → mu c' < mu c) (sched : List Nat) (c : Config S V R) :
    mu (run C sched c) ≤ mu c :=
  run_invariant C (fun c' => mu c' ≤ mu c)
    (fun c1 c2 h1 hs => Nat.le_trans (Nat.le_of_lt (hmu c1 c2 hs)) h1) sched c (Nat.le_refl _)

theorem tasksHealthy_set (ts : List (Task V)) (i : Nat) (t : Task V) (h : TasksHealthy ts)
    (ht : t ≠ Task.running none ∧ t ≠ Task.panicked) : TasksHealthy (ts.set i t) := by
  intro j u hj
  rw [List.getElem?_set] at hj
  split at hj
  · split at hj
    · cases hj
      exact ht
    · cases hj
  · exact h j u hj

theorem tasksHealthy_map_running (outs : List (Option (Event V)))
    (h : ∀ i : Nat, outs[i]? ≠ some none) : TasksHealthy (outs.map Task.running) := by
  intro i t ht
  rw [List.getElem?_map] at ht
  cases ho : outs[i]? with
  | none => simp [ho] at ht
  | some o =>
    simp only [ho, Option.map_some', Option.some.injEq] at ht
    subst ht
    refine ⟨?_, by simp⟩
    intro hn
    cases hn
    exact h i ho

/-- A final configuration without panic has every task done or blocked at its send. -/
theorem final_all_at_send (C : Collector S V R) (c : Config S V R)
    (hfin : next C c = []) (hH : Healthy c) (i : Nat) (t : Task V) (ht : c.tasks[i]? = some t) :
    t = Task.done ∨ ∃ e : Event V, t = Task.blocked e := by
  cases t with
  | running out => exact absurd ht (final_no_running C c hfin hH.1 i out)
  | blocked e => exact Or.inr ⟨e, rfl⟩
  | done => exact Or.inl rfl
  | panicked => exact absurd rfl (hH.2 i _ ht).2

theorem healthy_step_record {D : Type} (n : Nat) (store : D → V → D)
    (c c' : Config (D × Nat) V D) (hH : Healthy c)
    (hstep : Step (recordCollector n store) c c') : Healthy c' := by
  obtain ⟨hc, ht⟩ := hH
  cases hstep with
  | callReturns i e _ _ => exact ⟨hc, tasksHealthy_set _ _ _ ht ⟨by simp, by simp⟩⟩
  | panics i _ hti => exact absurd rfl (ht i _ hti).1
  | failure i msg s _ _ _ => exact ⟨rfl, tasksHealthy_set _ _ _ ht ⟨by simp, by simp⟩⟩
  | receive i v s _ _ _ _ =>
    refine ⟨rfl, ?_⟩
    simp only [recordCollector, List.append_nil]
    exact tasksHealthy_set _ _ _ ht ⟨by simp, by simp⟩

/-- Liveness after the return of a record aggregation whose tasks cannot panic. -/
theorem record_all_at_send {D : Type} (n : Nat) (store : D → V → D)
    (outs : List (Option (Event V))) (d : D) (hsafe : ∀ i : Nat, outs[i]? ≠ some none)
    (sched sched' : List Nat) (res : Option D) (err : Option String)
    (hret : (run (recordCollector n store) sched
      { tasks := outs.map Task.running, coll := Coll.active (d, 0), crashed := false }).coll
        = Coll.returned res err)
    (hlong : 2 * outs.length ≤ sched'.length) :
    AllAtSend (recordCollector n store) (run (recordCollector n store) sched
      { tasks := outs.map Task.running, coll := Coll.active (d, 0), crashed := false })
      sched' := by
  have h1 : Healthy (run (recordCollector n store) sched
      { tasks := outs.map Task.running, coll := Coll.active (d, 0), crashed := false }) :=
    run_invariant _ Healthy (healthy_step_record n store) sched _
      ⟨rfl, tasksHealthy_map_running outs hsafe⟩
  have h2 := run_invariant _ Healthy (healthy_step_record n store) sched' _ h1
  have hload := run_measure_le (recordCollector n store) (fun c => load c.tasks)
    (record_load_step n store) sched
    { tasks := outs.map Task.running, coll := Coll.active (d, 0), crashed := false }
  simp only [load_map_running] at hload
  have hfin := after_return_final (recordCollector n store) _ res err hret sched' (by omega)
  exact fun i t ht => final_all_at_send _ _ hfin h2 i t ht

theorem healthy_of_poolsInv_active (cm : ContractManager) (K : Nat)
    (c : Config PoolsState PoolValue Table) (s : PoolsState) (hinv : PoolsInv cm K c)
    (hs : c.coll = Coll.active s) (hsafe : NoPanic cm K) : Healthy c := by
  unfold PoolsInv at hinv
  rw [hs] at hinv
  cases s with
  | addresses mi addrs =>
    obtain ⟨h1, h2, h3, h4, h5, h6⟩ := hinv
    refine ⟨h1, ?_⟩
    intro j t ht
    have hj : j < K := by
      have := (List.getElem?_eq_some_iff.1 ht).1
      omega
    by_cases hlt : j < mi
    · have := (h5 j hlt).1
      rw [ht] at this
      cases this
      exact ⟨by simp, by simp⟩
    · obtain ⟨u, hu, hp⟩ := h6 j (by omega) hj
      rw [ht] at hu
      cases hu
      have hne := addressTask_outcome_ne_none cm j
      cases t with
      | running out =>
        have := hp.1
        simp only [TaskOk, Option.some.injEq] at this
        refine ⟨?_, by simp⟩
        intro hn
        cases hn
        exact hne this
      | blocked e => exact ⟨by simp, by simp⟩
      | done => exact ⟨by simp, by simp⟩
      | panicked =>
        have := hp.1.1
        simp only [Option.some.injEq] at this
        exact absurd this hne
  | pubkeys mi addrs table =>
    obtain ⟨h1, h2, h3, h4, h5, h6, h7, h8⟩ := hinv
    have hc : c.crashed = false := by
      by_contra hcr
      obtain ⟨j, a, hj, hget, hout⟩ := h8 (by simpa using hcr)
      exact hsafe j a hj hget hout
    refine ⟨hc, ?_⟩
    intro j t ht
    have hj : j < K + K := by
      have := (List.getElem?_eq_some_iff.1 ht).1
      omega
    by_cases hlt : j < K
    · have := (h4 j hlt).1
      rw [ht] at this
      cases this
      exact ⟨by simp, by simp⟩
    · obtain ⟨m, rfl⟩ : ∃ m, j = K + m := ⟨j - K, by omega⟩
      by_cases hm : m < mi
      · have := (h5 m hm).1
        rw [ht] at this
        cases this
        exact ⟨by simp, by simp⟩
      · obtain ⟨u, hu, hp⟩ := h7 m (by omega) (by omega)
        rw [ht] at hu
        cases hu
        have hne := hsafe m (addrs.getD m 0) (by omega) (h4 m (by omega)).2
        cases t with
        | running out =>
          have := hp.1
          simp only [TaskOk, Option.some.injEq] at this
          refine ⟨?_, by simp⟩
          intro hn
          cases hn
          exact hne this
        | blocked e => exact ⟨by simp, by simp⟩
        | done => exact ⟨by simp, by simp⟩
        | panicked =>
          have := hp.1.1
          simp only [Option.some.injEq] at this
          exact absurd this hne

theorem tasksHealthy_append_nil (ts sp : List (Task V)) (h : TasksHealthy ts) (hsp : sp = []) :
    TasksHealthy (ts ++ sp) := by
  subst hsp
  simpa using h

theorem pools_spawn_nil (cm : ContractManager) (K : Nat) (s : PoolsState) (v : PoolValue)
    (res : Option Table) (err : Option String)
    (h : ((poolsCollector cm K).recv s v).1 = Coll.returned res err) :
    ((poolsCollector cm K).recv s v).2 = [] := by
  cases s with
  | addresses mi addrs =>
    cases v with
    | validatorPubkey j k => rfl
    | address j a =>
      simp only [poolsCollector, receiveAddresses] at h ⊢
      split
      · rfl
      · rename_i hn
        rw [if_neg hn] at h
        simp only [receivePubkeys] at h
        by_cases h0 : 0 < K
        · rw [if_pos h0] at h
          cases h
        · have hK : K = 0 := by omega
          subst hK
          rfl
  | pubkeys mi addrs table =>
    cases v with
    | address j a => rfl
    | validatorPubkey j k => rfl

theorem pools_healthy_step (cm : ContractManager) (K : Nat) (hsafe : NoPanic cm K)
    (c c' : Config PoolsState PoolValue Table) (h : PoolsInv cm K c ∧ Healthy c)
    (hstep : Step (poolsCollector cm K) c c') : PoolsInv cm K c' ∧ Healthy c' := by
  obtain ⟨hinv, hc, ht⟩ := h
  have hinv' := poolsInv_step cm K c c' hinv hstep
  refine ⟨hinv', ?_⟩
  cases hcoll : c'.coll with
  | active s => exact healthy_of_poolsInv_active cm K c' s hinv' hcoll hsafe
  | returned res err =>
    cases hstep with
    | callReturns i e _ _ => exact ⟨hc, tasksHealthy_set _ _ _ ht ⟨by simp, by simp⟩⟩
    | panics i _ hti => exact absurd rfl (ht i _ hti).1
    | failure i msg s _ _ _ => exact ⟨rfl, tasksHealthy_set _ _ _ ht ⟨by simp, by simp⟩⟩
    | receive i v s _ _ _ _ =>
      refine ⟨rfl, ?_⟩
      exact tasksHealthy_append_nil _ _ (tasksHealthy_set _ _ _ ht ⟨by simp, by simp⟩)
        (pools_spawn_nil cm K s v res err hcoll)

theorem pools_start_healthy (cm : ContractManager) (K : Nat) (hsafe : NoPanic cm K) :
    Healthy
      { tasks := (List.range K).map (addressTask cm) ++ (receiveAddresses cm K 0 []).2,
        coll := (receiveAddresses cm K 0 []).1, crashed := false } := by
  by_cases hK : 0 < K
  · exact healthy_of_poolsInv_active cm K _ (PoolsState.addresses 0 []) (poolsInv_start cm K)
      (by simp [receiveAddresses, hK]) hsafe
  · have h0 : K = 0 := by omega
    subst h0
    refine ⟨rfl, ?_⟩
    intro i t ht
    simp [receiveAddresses] at ht

/-- Liveness after the return of `GetActiveMinipoolsByValidatorPubkey`. -/
theorem pools_all_at_send (rt : Runtime) (cm : ContractManager)
    (hblob : ∀ (j : Nat) (a : Address) (d : Bytes), j < (minipoolCountOf cm).toNat →
      cm.getPoolAt j = Except.ok a → cm.getDepositInput a = Except.ok d → 52 ≤ d.cap)
    (sched sched' : List Nat) (res : Option Table) (err : Option String)
    (hret : (run (poolsCollector cm (minipoolCountOf cm).toNat) sched
      (GetActiveMinipoolsByValidatorPubkey.start rt cm)).coll = Coll.returned res err)
    (hlong : 4 * (minipoolCountOf cm).toNat ≤ sched'.length) :
    AllAtSend (poolsCollector cm (minipoolCountOf cm).toNat)
      (run (poolsCollector cm (minipoolCountOf cm).toNat) sched
        (GetActiveMinipoolsByValidatorPubkey.start rt cm)) sched' := by
  by_cases hempty : (GetActiveMinipoolsByValidatorPubkey.start rt cm).tasks = []
  · intro i t ht
    rw [run_of_no_tasks _ sched _ hempty, run_of_no_tasks _ sched' _ hempty, hempty] at ht
    simp at ht
  · cases hcount : cm.getPoolsCount with
    | error e =>
      exact absurd (by simp [GetActiveMinipoolsByValidatorPubkey.start, hcount]) hempty
    | ok c =>
      have hm : minipoolCountOf cm = BigInt.Int64 c := by simp [minipoolCountOf, hcount]
      by_cases hbad : BigInt.Int64 c < 0 ∨ (rt.maxLen : Int) < BigInt.Int64 c
      · exact absurd (pools_never_returns rt cm c hcount hbad sched).1 hempty
      · have hstart := (pools_start_eq rt cm c hcount (by omega) (by omega)).2
        rw [← hm] at hstart
        rw [hstart] at hret ⊢
        have hsafe := noPanic_of_blobs cm _ hblob
        have h1 := run_invariant _ (fun c => PoolsInv cm (minipoolCountOf cm).toNat c ∧ Healthy c)
          (pools_healthy_step cm _ hsafe) sched _
          ⟨poolsInv_start cm _, pools_start_healthy cm _ hsafe⟩
        have h2 := run_invariant _ (fun c => PoolsInv cm (minipoolCountOf cm).toNat c ∧ Healthy c)
          (pools_healthy_step cm _ hsafe) sched' _ h1
        have hload := run_measure_le (poolsCollector cm (minipoolCountOf cm).toNat)
          (fun c => load c.tasks + phaseCredit (minipoolCountOf cm).toNat c.coll)
          (pools_measure_step cm _) sched
          { tasks := (List.range (minipoolCountOf cm).toNat).map (addressTask cm) ++
              (receiveAddresses cm (minipoolCountOf cm).toNat 0 []).2,
            coll := (receiveAddresses cm (minipoolCountOf cm).toNat 0 []).1, crashed := false }
        have hstartm := pools_start_measure cm (minipoolCountOf cm).toNat
        have hfin := after_return_final (poolsCollector cm (minipoolCountOf cm).toNat) _ res err
          hret sched' (by
          simp only at hload
          omega)
        exact fun i t ht => final_all_at_send _ _ hfin h2.2 i t ht

/-- C9 (as amended). After a collector (in `GetDetails`, `GetStatus` or
`GetActiveMinipoolsByValidatorPubkey`) has returned, no task still in flight ever finishes its
publish step or terminates, its message is never handed over and the returned value does not
change: a task that has reached its send on the unbuffered channel stays blocked there under
every further schedule. Provided no goroutine can panic on a deposit input of capacity below 52
(none can in `GetDetails`), every task still in flight completes its remote call and ends
blocked at its send. -/
theorem in_flight_tasks_stay_blocked (rt : Runtime) (cm : ContractManager) (a : Address)
    (sched sched' : List Nat) :
    (∀ (res : Option Details) (err : Option String),
      (run detailsCollector sched (GetDetails.start cm a)).coll = Coll.returned res err →
      StaysBlocked detailsCollector (run detailsCollector sched (GetDetails.start cm a)) sched' ∧
      (16 ≤ sched'.length →
        AllAtSend detailsCollector (run detailsCollector sched (GetDetails.start cm a))
          sched')) ∧
    (∀ (res : Option Minipool.Status) (err : Option String),
      (run statusCollector sched (GetStatus.start cm a)).coll = Coll.returned res err →
      StaysBlocked statusCollector (run statusCollector sched (GetStatus.start cm a)) sched' ∧
      ((∀ d, cm.getDepositInput a = Except.ok d → 52 ≤ d.cap) → 8 ≤ sched'.length →
        AllAtSend statusCollector (run statusCollector sched (GetStatus.start cm a))
          sched')) ∧
    (∀ (res : Option Table) (err : Option String),
      (run (poolsCollector cm (minipoolCountOf cm).toNat) sched
        (GetActiveMinipoolsByValidatorPubkey.start rt cm)).coll = Coll.returned res err →
      StaysBlocked (poolsCollector cm (minipoolCountOf cm).toNat)
        (run (poolsCollector cm (minipoolCountOf cm).toNat) sched
          (GetActiveMinipoolsByValidatorPubkey.start rt cm)) sched' ∧
      ((∀ (j : Nat) (a : Address) (d : Bytes), j < (minipoolCountOf cm).toNat →
          cm.getPoolAt j = Except.ok a → cm.getDepositInput a = Except.ok d → 52 ≤ d.cap) →
        4 * (minipoolCountOf cm).toNat ≤ sched'.length →
        AllAtSend (poolsCollector cm (minipoolCountOf cm).toNat)
          (run (poolsCollector cm (minipoolCountOf cm).toNat) sched
            (GetActiveMinipoolsByValidatorPubkey.start rt cm)) sched')) := by
  refine ⟨?_, ?_, ?_⟩
  · intro res err hret
    refine ⟨after_return _ _ res err hret sched', ?_⟩
    intro hlong
    cases hb : cm.NewContract a with
    | error e =>
      have hst : (GetDetails.start cm a).tasks = [] := by simp [GetDetails.start, hb]
      intro i t ht
      rw [run_of_no_tasks _ sched _ hst, run_of_no_tasks _ sched' _ hst, hst] at ht
      simp at ht
    | ok u =>
      rw [getDetails_start_ok cm a u hb, detailsTasks_eq] at hret ⊢
      exact record_all_at_send 8 Details.store _ _ (detailsTasks_safe cm a) sched sched' res err
        hret (by simpa [detailsTasks] using hlong)
  · intro res err hret
    refine ⟨after_return _ _ res err hret sched', ?_⟩
    intro hblob hlong
    cases hb : cm.NewContract a with
    | error e =>
      have hst : (GetStatus.start cm a).tasks = [] := by simp [GetStatus.start, hb]
      intro i t ht
      rw [run_of_no_tasks _ sched _ hst, run_of_no_tasks _ sched' _ hst, hst] at ht
      simp at ht
    | ok u =>
      rw [getStatus_start_ok cm a u hb, statusTasks_eq] at hret ⊢
      exact record_all_at_send 4 Status.store _ _ (statusTasks_safe cm a hblob) sched sched' res
        err hret (by simpa [statusTasks] using hlong)
  · intro res err hret
    exact ⟨after_return _ _ res err hret sched',
      fun hblob hlong => pools_all_at_send rt cm hblob sched sched' res err hret hlong⟩

/-- C9 (witness): `GetDetails` on `cmStatusFails` has returned the error after two steps. -/
theorem in_flight_tasks_stay_blocked_witness :
    StaysBlocked detailsCollector
      (run detailsCollector [0, 0] (GetDetails.start cmStatusFails 7)) (List.replicate 20 0) ∧
    AllAtSend detailsCollector
      (run detailsCollector [0, 0] (GetDetails.start cmStatusFails 7)) (List.replicate 20 0) :=
  ⟨((in_flight_tasks_stay_blocked rt64 cmStatusFails 7 [0, 0] (List.replicate 20 0)).1 none
      (some "Error retrieving minipool status: boom") (by decide)).1,
   ((in_flight_tasks_stay_blocked rt64 cmStatusFails 7 [0, 0] (List.replicate 20 0)).1 none
      (some "Error retrieving minipool status: boom") (by decide)).2 (by decide)⟩

/-- C9 (counterexample). `GetDetails` on `cmStatusFails` returns the error after two steps,
with the other seven tasks in flight. Twenty steps later no transition is left: the status-time
task is blocked at its send, it has not terminated, and one message in all was handed over.
`GetStatus` on `cmShortBlob` returns the error after two steps; when the pubkey goroutine then
panics on its three-byte deposit input, the status-block task never even reaches its send. -/
theorem in_flight_tasks_counterexample :
    ((run detailsCollector [0, 0] (GetDetails.start cmStatusFails 7)).coll
      = Coll.returned none (some "Error retrieving minipool status: boom") ∧
     (run detailsCollector [0, 0] (GetDetails.start cmStatusFails 7)).tasks[1]?
      = some (Task.running
          (some (Event.value (DetailsValue.statusTime (Time.unix 1600000000))))) ∧
     next detailsCollector (run detailsCollector (List.replicate 20 0)
      (run detailsCollector [0, 0] (GetDetails.start cmStatusFails 7))) = [] ∧
     (run detailsCollector (List.replicate 20 0)
      (run detailsCollector [0, 0] (GetDetails.start cmStatusFails 7))).tasks[1]?
      = some (Task.blocked (Event.value (DetailsValue.statusTime (Time.unix 1600000000)))) ∧
     doneCount (run detailsCollector (List.replicate 20 0)
      (run detailsCollector [0, 0] (GetDetails.start cmStatusFails 7))).tasks = 1) ∧
    ((run statusCollector [0, 0] (GetStatus.start cmShortBlob 7)).coll
      = Coll.returned none (some "Error retrieving minipool status: boom") ∧
     next statusCollector (run statusCollector (2 :: List.replicate 7 0)
      (run statusCollector [0, 0] (GetStatus.start cmShortBlob 7))) = [] ∧
     (run statusCollector (2 :: List.replicate 7 0)
      (run statusCollector [0, 0] (GetStatus.start cmShortBlob 7))).tasks[3]?
      = some Task.panicked ∧
     (run statusCollector (2 :: List.replicate 7 0)
      (run statusCollector [0, 0] (GetStatus.start cmShortBlob 7))).tasks[1]?
      = some (Task.running (some (Event.value (StatusValue.statusBlock 900))))) := by
  decide

end Minipool
